import Mathlib

/-!
# Elemental: distributed matrix data model

A shallow embedding of the parts of the repository that the specification's
claims are about: the `[*,VR]` distributed-matrix constructors
(`include/elemental/dist_matrix/star_vr.hpp`) with the index arithmetic they
rely on and their alignment methods, the distributed triangular solve `TrsmRUN`
(`src/basic/level3/Trsm/TrsmRUN.cpp`), the redistribution between the
distributions declared in the headers, the two-sided transform `HegstLUVar5`
(`src/advanced/Hegst/HegstLUVar5.cpp`), the entry checks of the packed-reflector
routines (`src/advanced/ApplyPackedReflectors`), the panel of the Hessenberg
reduction (`src/lapack_like/condense/Hessenberg/UpperPanel.hpp`) with its view
requests, the panel loops of the packed-reflector routines, and the checks of the
pseudospectrum driver (`examples/lapack-like/ChunkedPseudospectrum.cpp`).

C++ `int` values are embedded as `Int` (as `Nat` where they are shapes or
indices); overflow of the 32-bit representation is not modelled.
-/

/-! ## The `[*,VR]` constructors -/

namespace elemental

namespace utilities

/-- Modelled from the spec: the cyclic ownership rule behind `utilities::Shift` and
`utilities::LocalLength`, neither of which is under src/. The spec's glossary defines
the alignment as "the grid coordinate that owns global index 0 along an axis" which
"determines the cyclic offset for all other indices", so global index `i` is owned by
the coordinate `(alignment + i) mod modulus`. -/
def Owner (i alignment modulus : Int) : Int :=
  (alignment + i) % modulus

/-- Modelled from the spec: process coordinate `rank` owns global index `i`. -/
def Owns (rank alignment modulus : Int) (i : Nat) : Bool :=
  decide (Owner i alignment modulus = rank)

/-- Modelled from the spec: `utilities::Shift(rank, alignment, modulus)` is not under
src/. The spec defines the shift as the "first global index owned by this process
along an axis"; a cyclic distribution hands every coordinate one of the first
`modulus` indices, so the search is over `[0, modulus)`. The definition keeps to
these defining words; the closed form of the shift is a theorem (`Shift_closed`). -/
def Shift (rank alignment modulus : Int) : Int :=
  match (List.range modulus.toNat).find? (Owns rank alignment modulus) with
  | some i => (i : Int)
  | none => 0

/-- Modelled from the spec: `utilities::LocalLength(n, rank, alignment, modulus)` is not
under src/. The spec defines the local height/width as the "count of global indices
along each axis owned by this process under its distribution and alignment". -/
def LocalLength (n rank alignment modulus : Int) : Int :=
  (((List.range n.toNat).countP (Owns rank alignment modulus) : Nat) : Int)

/-- The global indices below `n` owned by coordinate `rank`, in increasing order. -/
def OwnedIndices (n rank alignment modulus : Int) : List Nat :=
  (List.range n.toNat).filter (Owns rank alignment modulus)

end utilities

/-- The accessors of `elemental::Grid` that the `[*,VR]` constructors call; the class
itself is not under src/, so the values its accessors return are taken as given. -/
structure Grid where
  InGrid : Bool
  VRRank : Int
  Size : Int

/-- The argument list a `[*,VR]` constructor hands to its base class
`AbstractDistMatrix<T>` (`ADM` in the source), which is not under src/. The fields are
the positional arguments in the order of the source; the source labels the last four
"column shift", "row shift", "local height" and "local width". `ldim` is `none` for
the constructor that passes no leading dimension. -/
structure ADM where
  height : Int
  width : Int
  constrainedColAlignment : Bool
  constrainedRowAlignment : Bool
  colAlignment : Int
  rowAlignment : Int
  colShift : Int
  rowShift : Int
  localHeight : Int
  localWidth : Int
  ldim : Option Int
deriving DecidableEq

/-- The basic constructor `DistMatrixBase<T,STAR,VR>::DistMatrixBase(height, width,
constrainedRowAlignment, rowAlignment, g)` (star_vr.hpp lines 525-541). -/
def DistMatrixBase_STAR_VR (height width : Int) (constrainedRowAlignment : Bool)
    (rowAlignment : Int) (g : Grid) : ADM :=
  ADM.mk height width false constrainedRowAlignment 0 rowAlignment
    -- column shift
    0
    -- row shift
    (if g.InGrid then utilities.Shift g.VRRank rowAlignment g.Size else 0)
    -- local height
    (if g.InGrid then height else 0)
    -- local width
    (if g.InGrid then utilities.LocalLength width g.VRRank rowAlignment g.Size else 0)
    none

/-- The basic constructor with a supplied leading dimension,
`DistMatrixBase<T,STAR,VR>::DistMatrixBase(height, width, constrainedRowAlignment,
rowAlignment, ldim, g)` (star_vr.hpp lines 543-559). -/
def DistMatrixBase_STAR_VR_ldim (height width : Int) (constrainedRowAlignment : Bool)
    (rowAlignment ldim : Int) (g : Grid) : ADM :=
  ADM.mk height width false constrainedRowAlignment 0 rowAlignment
    -- column shift
    0
    -- row shift
    (if g.InGrid then utilities.Shift g.VRRank rowAlignment g.Size else 0)
    -- local height
    (if g.InGrid then height else 0)
    -- local width
    (if g.InGrid then utilities.LocalLength width g.VRRank rowAlignment g.Size else 0)
    (some ldim)

/-- The constructor `DistMatrix<Z,STAR,VR>::DistMatrix(height, width,
constrainedRowAlignment, rowAlignment, g)` (star_vr.hpp lines 627-633), which forwards
to the base constructor. -/
def DistMatrix_STAR_VR (height width : Int) (constrainedRowAlignment : Bool)
    (rowAlignment : Int) (g : Grid) : ADM :=
  DistMatrixBase_STAR_VR height width constrainedRowAlignment rowAlignment g

end elemental

/-! ## The distributed triangular solve `TrsmRUN`

`src/basic/level3/Trsm/TrsmRUN.cpp`. Distributed matrices are seen through their
global entries: a redistribution changes where entries are stored, not their values.
-/

namespace elemental

/-- The enumeration `Diagonal` of the library, of which TrsmRUN receives a value. -/
inductive Diagonal
  | NON_UNIT
  | UNIT
deriving DecidableEq

/-- The enumeration `Distribution` naming the axis distributions of the library. -/
inductive Distribution
  | MC
  | MD
  | MR
  | VC
  | VR
  | STAR
deriving DecidableEq

/-- The class template `DistMatrix<F,U,V>` as TrsmRUN uses it: `Grid` is the identity of
the process grid (`U.Grid() != X.Grid()` compares grids), `Height` and `Width` the
global shape, `Get` the global entry at a row and column. Only entries inside the shape
are meaningful. -/
structure DistMatrix (F : Type) (U V : Distribution) where
  Grid : Nat
  Height : Nat
  Width : Nat
  Get : Nat → Nat → F

namespace DistMatrix

variable {F : Type}

/-- Modelled from the spec: the assignment operators between distributions
(`A[U',V'] = A[U,V]`) are not under src/. The spec defines redistribution as "converting
a matrix's storage from one distribution to another while preserving logical values", so
the global shape and the global entries are carried over unchanged. -/
def assign {U V U' V' : Distribution} (A : DistMatrix F U V) : DistMatrix F U' V' :=
  DistMatrix.mk A.Grid A.Height A.Width A.Get

/-- Modelled from the spec: the partitioning routines (`LockedRepartitionDownDiagonal`,
`RepartitionRight` and their companions) are not under src/. They hand out views, and
the spec's view is "a non-owning window referencing a subrange of another matrix's
storage": the `height x width` window of `A` whose top-left corner is entry `(i, j)`. -/
def View {U V : Distribution} (A : DistMatrix F U V) (i j height width : Nat) :
    DistMatrix F U V :=
  DistMatrix.mk A.Grid height width (fun r c => A.Get (i + r) (j + c))

/-- Modelled from the spec: writing through a view ("mutating a view's local buffer and
reading the parent at the corresponding global index reflects the mutation"). The
window of `A` with top-left corner `(i, j)` and the shape of `B` takes the entries of
`B`; every other entry of `A` is kept. -/
def Store {U V : Distribution} (A : DistMatrix F U V) (i j : Nat) (B : DistMatrix F U V) :
    DistMatrix F U V :=
  DistMatrix.mk A.Grid A.Height A.Width
    (fun r c =>
      if i ≤ r ∧ r < i + B.Height ∧ j ≤ c ∧ c < j + B.Width then B.Get (r - i) (c - j)
      else A.Get r c)

end DistMatrix

namespace basic

variable {F : Type} [Field F]

/-- Modelled from the spec: `basic::Scal(alpha, X)` is not under src/; it is the local
kernel `X := alpha X`. -/
def Scal {U V : Distribution} (alpha : F) (X : DistMatrix F U V) : DistMatrix F U V :=
  DistMatrix.mk X.Grid X.Height X.Width (fun i j => alpha * X.Get i j)

namespace internal

/-- The diagonal entry a triangular solve divides by: one for `UNIT`, else `U(j,j)`. -/
def diag (diagonal : Diagonal) (U : Nat → Nat → F) (j : Nat) : F :=
  if diagonal = Diagonal.UNIT then 1 else U j j

/-- One column of the right upper solve `X := X triu(U)^-1`: column `j` of `X` is reduced
by the columns to its left, which are already solved, and divided by the diagonal. -/
def TrsmColumn (diagonal : Diagonal) (U X : Nat → Nat → F) (j : Nat) : Nat → Nat → F :=
  fun i c =>
    if c = j then
      (X i j - ∑ l in Finset.range j, X i l * U l j) / diag diagonal U j
    else X i c

/-- The first `w` columns of the right upper solve, from left to right. -/
def TrsmColumns (diagonal : Diagonal) (U X : Nat → Nat → F) : Nat → Nat → Nat → F
  | 0 => X
  | j + 1 => TrsmColumn diagonal U (TrsmColumns diagonal U X j) j

/-- Modelled from the spec: `basic::internal::LocalTrsm` is not under src/. TrsmRUN calls
it with `RIGHT, UPPER, NORMAL` and states its effect as `X1 := X1 (U11)^-1` with
`triu(U)` (`triuu(U)` for a unit diagonal); the spec lists the triangular solve among
the local kernels. It is realised by substitution over the columns, which reads only the
upper triangle of `U` and, unless the diagonal is `UNIT`, its diagonal. The test that
`checkIfSingular` asks for is not modelled. -/
def LocalTrsm (diagonal : Diagonal) (alpha : F) (U : DistMatrix F .STAR .STAR)
    (X : DistMatrix F .VC .STAR) (_checkIfSingular : Bool) : DistMatrix F .VC .STAR :=
  DistMatrix.mk X.Grid X.Height X.Width
    (TrsmColumns diagonal U.Get (fun i j => alpha * X.Get i j) X.Width)

/-- Modelled from the spec: `basic::internal::LocalGemm` is not under src/. TrsmRUN calls
it with `NORMAL, NORMAL` and states its effect as `X2 -= X1 U12`; in general
`C := alpha A B + beta C`. -/
def LocalGemm (alpha : F) (A : DistMatrix F .MC .STAR) (B : DistMatrix F .STAR .MR)
    (beta : F) (C : DistMatrix F .MC .MR) : DistMatrix F .MC .MR :=
  DistMatrix.mk C.Grid C.Height C.Width
    (fun i j => alpha * (∑ l in Finset.range A.Width, A.Get i l * B.Get l j) + beta * C.Get i j)

/-- How a call of TrsmRUN ends: it returns with `X` updated, it throws `logic_error` with
a message and leaves `X` as it was at the throw, or the embedding's fuel for the `while`
loop ran out. -/
inductive Outcome (σ : Type)
  | returned (X : σ)
  | logic_error (what : String) (X : σ)
  | unfinished

/-- The body of the `while` loop of TrsmRUN (TrsmRUN.cpp lines 94-129) with `k` columns
of `X` (and rows and columns of `U`) already passed. `bsize` is the algorithmic block
size, which the repartitioning routines read from the library's global state. `U` and
`X` are repartitioned with the same block: the two agree whenever `U` is square of the
width of `X`, which is what the entry checks demand. -/
def TrsmRUN.iteration (bsize : Nat) (diagonal : Diagonal) (U : DistMatrix F .MC .MR)
    (checkIfSingular : Bool) (k : Nat) (X : DistMatrix F .MC .MR) : DistMatrix F .MC .MR :=
  let nb := min bsize (X.Width - k)
  let U11 := U.View k k nb nb
  let U12 := U.View k (k + nb) nb (U.Width - (k + nb))
  let X1 := X.View 0 k X.Height nb
  -- U11[*,*] <- U11[MC,MR]
  let U11_STAR_STAR : DistMatrix F .STAR .STAR := U11.assign
  -- X1[VC,*] <- X1[MC,MR]
  let X1_VC_STAR : DistMatrix F .VC .STAR := X1.assign
  -- X1[VC,*] := X1[VC,*] (U11[*,*])^-1
  let X1_VC_STAR := LocalTrsm diagonal 1 U11_STAR_STAR X1_VC_STAR checkIfSingular
  -- X1[MC,*] <- X1[VC,*]
  let X1_MC_STAR : DistMatrix F .MC .STAR := X1_VC_STAR.assign
  -- X1[MC,MR] <- X1[MC,*]
  let X := X.Store 0 k X1_MC_STAR.assign
  -- U12[*,MR] <- U12[MC,MR]
  let U12_STAR_MR : DistMatrix F .STAR .MR := U12.assign
  -- X2[MC,MR] -= X1[MC,*] U12[*,MR]
  let X2 := X.View 0 (k + nb) X.Height (X.Width - (k + nb))
  X.Store 0 (k + nb) (LocalGemm (-1) X1_MC_STAR U12_STAR_MR 1 X2)

/-- The loop `while( XR.Width() > 0 )` of TrsmRUN, where `XR` is `X` without its first
`k` columns; `none` when the fuel runs out before the loop ends. -/
def TrsmRUN.loop (bsize : Nat) (diagonal : Diagonal) (U : DistMatrix F .MC .MR)
    (checkIfSingular : Bool) : Nat → Nat → DistMatrix F .MC .MR → Option (DistMatrix F .MC .MR)
  | fuel, k, X =>
    if X.Width - k > 0 then
      match fuel with
      | 0 => none
      | fuel + 1 =>
        TrsmRUN.loop bsize diagonal U checkIfSingular fuel (k + min bsize (X.Width - k))
          (TrsmRUN.iteration bsize diagonal U checkIfSingular k X)
    else some X

/-- The routine `basic::internal::TrsmRUN` (TrsmRUN.cpp lines 49-140). `RELEASE` tells
whether the build defines the macro of that name, which compiles the entry checks out. -/
def TrsmRUN (RELEASE : Bool) (bsize fuel : Nat) (diagonal : Diagonal) (alpha : F)
    (U X : DistMatrix F .MC .MR) (checkIfSingular : Bool) : Outcome (DistMatrix F .MC .MR) :=
  if !RELEASE && decide (U.Grid ≠ X.Grid) then
    Outcome.logic_error "U and X must be distributed over the same grid." X
  else if !RELEASE && decide (U.Height ≠ U.Width ∨ X.Width ≠ U.Height) then
    Outcome.logic_error
      ("Nonconformal TrsmRUN: \n"
        ++ "  U ~ " ++ toString U.Height ++ " x " ++ toString U.Width ++ "\n"
        ++ "  X ~ " ++ toString X.Height ++ " x " ++ toString X.Width ++ "\n") X
  else
    match TrsmRUN.loop bsize diagonal U checkIfSingular fuel 0 (Scal alpha X) with
    | some X' => Outcome.returned X'
    | none => Outcome.unfinished

/-- The loop invariant of TrsmRUN after `k` columns, for the right-hand side `B`: the
first `k` columns of `X` solve `X triu(U) = B`, and the other columns hold `B` less the
contribution of the solved ones. -/
structure TrsmRUN.Inv (m n : Nat) (diagonal : Diagonal) (U B : Nat → Nat → F) (k : Nat)
    (X : DistMatrix F .MC .MR) : Prop where
  height : X.Height = m
  width : X.Width = n
  solved : ∀ i j, i < m → j < k →
    (∑ l in Finset.range j, X.Get i l * U l j) + X.Get i j * diag diagonal U j = B i j
  pending : ∀ i j, i < m → k ≤ j → j < n →
    X.Get i j = B i j - ∑ l in Finset.range k, X.Get i l * U l j

end internal

end basic

/-- The matrix `triu(U)` of the source's comment, `triuu(U)` when the diagonal is `UNIT`:
the upper triangle of the leading `n x n` block of `U`, with ones on the diagonal in the
unit case. -/
def triu {F : Type} [Field F] (diagonal : Diagonal) (U : Nat → Nat → F) (n : Nat) :
    Matrix (Fin n) (Fin n) F :=
  Matrix.of fun l j =>
    if l.val < j.val then U l.val j.val
    else if l.val = j.val then basic.internal.diag diagonal U j.val
    else 0

/-- The leading `m x n` block of the global entries, as a matrix. -/
def toMatrix {F : Type} (m n : Nat) (A : Nat → Nat → F) : Matrix (Fin m) (Fin n) F :=
  Matrix.of fun i j => A i.val j.val

/-- An upper triangular 2 x 2 matrix of ones over the rationals, on grid 0. -/
def exampleU : DistMatrix ℚ .MC .MR :=
  DistMatrix.mk 0 2 2 (fun i j => if i ≤ j then 1 else 0)

/-- A 1 x 2 right-hand side over the rationals, on grid 0. -/
def exampleX : DistMatrix ℚ .MC .MR :=
  DistMatrix.mk 0 1 2 (fun _ j => (j : ℚ) + 1)

/-- A 1 x 2 right-hand side over the rationals, on grid 1. -/
def exampleXOtherGrid : DistMatrix ℚ .MC .MR :=
  DistMatrix.mk 1 1 2 (fun _ j => (j : ℚ) + 1)

end elemental

/-! ## Redistribution between the distributions

`include/El/core/DistMatrix/CIRC_CIRC.hpp`, `include/elemental/core/dist_matrix/mr_star.hpp`
and `include/elemental/dist_matrix/star_vr.hpp` declare the assignment operators between
the distributions; their bodies are not under src/. The model below follows the
specification: a distribution is a rule that maps each global index to its owning
processes and a local index, and an assignment stores every entry on exactly the
processes that own it under the target distribution.
-/

namespace El

/-- The enumeration `Dist` of the axis distributions named in the headers. -/
inductive Dist
  | MC
  | MD
  | MR
  | VC
  | VR
  | STAR
  | CIRC
deriving DecidableEq

/-- Modelled from the spec: the process grid, "an immutable logical 2-D arrangement of P
participating processes into r rows x c columns"; the class `El::Grid` is not under
src/. A process is named by its rank in the column-major linearisation. -/
structure Grid where
  Height : Nat
  Width : Nat
deriving DecidableEq

/-- The number of processes `r * c` of the grid. -/
def Grid.Size (g : Grid) : Nat := g.Height * g.Width

/-- The grid row of the process of column-major rank `q`. -/
def Grid.Row (g : Grid) (q : Nat) : Nat := q % g.Height

/-- The grid column of the process of column-major rank `q`. -/
def Grid.Col (g : Grid) (q : Nat) : Nat := q / g.Height

/-- Modelled from the spec: whether process `q` owns index `i` of an axis distributed as
`d` with alignment `align` ("the grid coordinate that owns global index 0"). `MC` is
cyclic over the grid rows, `MR` over the grid columns, `VC` and `VR` over the
column-major and row-major linear rank, `STAR` is replicated, `MD` is cyclic along the
grid diagonal that starts at process (0,0), whose length is `lcm(r,c)`, and `CIRC` puts
everything on the root. -/
def Owns (g : Grid) (root : Nat) (d : Dist) (align q i : Nat) : Bool :=
  match d with
  | Dist.MC => (i + align) % g.Height == g.Row q
  | Dist.MR => (i + align) % g.Width == g.Col q
  | Dist.VC => (i + align) % g.Size == g.Row q + g.Col q * g.Height
  | Dist.VR => (i + align) % g.Size == g.Col q + g.Row q * g.Width
  | Dist.STAR => true
  | Dist.MD =>
    g.Row q == ((i + align) % Nat.lcm g.Height g.Width) % g.Height &&
      g.Col q == ((i + align) % Nat.lcm g.Height g.Width) % g.Width
  | Dist.CIRC => q == root

/-- Modelled from the spec: the distribution descriptor, "a small value type (rowDist,
colDist, rowAlign, colAlign, root)". As in the headers, `colDist` distributes the
entries of a column, that is the row indices, and `rowDist` the column indices. -/
structure DistData where
  colDist : Dist
  rowDist : Dist
  colAlign : Nat
  rowAlign : Nat
  root : Nat
deriving DecidableEq

/-- The fourteen pairings for which the headers under src/ declare an assignment
operator (the argument types of `operator=` in CIRC_CIRC.hpp and mr_star.hpp). -/
def DistData.Legal (d : DistData) : Bool :=
  match d.colDist, d.rowDist with
  | Dist.MC, Dist.MR => true
  | Dist.MC, Dist.STAR => true
  | Dist.STAR, Dist.MR => true
  | Dist.MD, Dist.STAR => true
  | Dist.STAR, Dist.MD => true
  | Dist.MR, Dist.MC => true
  | Dist.MR, Dist.STAR => true
  | Dist.STAR, Dist.MC => true
  | Dist.VC, Dist.STAR => true
  | Dist.STAR, Dist.VC => true
  | Dist.VR, Dist.STAR => true
  | Dist.STAR, Dist.VR => true
  | Dist.STAR, Dist.STAR => true
  | Dist.CIRC, Dist.CIRC => true
  | _, _ => false

/-- Modelled from the spec: process `q` stores entry `(i, j)` when it owns row `i` and
column `j`. -/
def Stores (g : Grid) (d : DistData) (q i j : Nat) : Bool :=
  Owns g d.root d.colDist d.colAlign q i && Owns g d.root d.rowDist d.rowAlign q j

/-- The global row indices below `height` that process `q` owns, in increasing order; the
position in this list is the local row index. -/
def LocalRows (g : Grid) (d : DistData) (height q : Nat) : List Nat :=
  (List.range height).filter (Owns g d.root d.colDist d.colAlign q)

/-- The global column indices below `width` that process `q` owns, in increasing order;
the position in this list is the local column index. -/
def LocalCols (g : Grid) (d : DistData) (width q : Nat) : List Nat :=
  (List.range width).filter (Owns g d.root d.rowDist d.rowAlign q)

/-- The local buffer holding the entries `A i j` of the given rows and columns in
column-major order, with the number of rows as leading dimension. -/
def Pack {α : Type} (A : Nat → Nat → α) (rows cols : List Nat) : List α :=
  (cols.map (fun j => rows.map (fun i => A i j))).flatten

/-- Modelled from the spec: the distributed matrix, "global logical shape, a distribution
descriptor, a ProcessGrid reference, and a local buffer holding only the entries this
process owns"; `LocalBuffer q` is the buffer of the process of rank `q`. -/
structure DistMatrix (α : Type) where
  Height : Nat
  Width : Nat
  Grid : Grid
  DistData : DistData
  LocalBuffer : Nat → List α

namespace DistMatrix

variable {α : Type}

/-- The distributed matrix with global entries `A`: each process holds the entries it
owns. -/
def FromGlobal (g : El.Grid) (d : El.DistData) (height width : Nat) (A : Nat → Nat → α) :
    DistMatrix α :=
  DistMatrix.mk height width g d
    (fun q => Pack A (LocalRows g d height q) (LocalCols g d width q))

/-- The process that answers for entry `(i, j)`: the owner of least rank. -/
def Owner (M : DistMatrix α) (i j : Nat) : Nat :=
  ((List.range M.Grid.Size).find? (fun q => Stores M.Grid M.DistData q i j)).getD 0

/-- Modelled from the spec: the collective `Get(i,j)`, which "locates the owning process
via the distribution formula" and reads the entry at its local index in that process's
buffer. -/
def Get [Inhabited α] (M : DistMatrix α) (i j : Nat) : α :=
  let q := M.Owner i j
  let rows := LocalRows M.Grid M.DistData M.Height q
  let cols := LocalCols M.Grid M.DistData M.Width q
  ((M.LocalBuffer q)[rows.indexOf i + cols.indexOf j * rows.length]?).getD default

/-- Modelled from the spec: the assignment operators `operator=` between distributions,
declared in the headers, whose bodies are not under src/. The target keeps the grid and
the shape of `A` and takes the distribution `d`; "every distributed entry must appear in
exactly the set of target-owning processes implied by the target distribution formula",
so each process packs, for the entries it owns under `d`, the values read from their
owners in `A`. -/
def assign [Inhabited α] (d : El.DistData) (A : DistMatrix α) : DistMatrix α :=
  DistMatrix.mk A.Height A.Width A.Grid d
    (fun q => Pack A.Get (LocalRows A.Grid d A.Height q) (LocalCols A.Grid d A.Width q))

end DistMatrix

end El

/-! ## Alignment of a `[*,VR]` matrix with another matrix

`include/elemental/dist_matrix/star_vr.hpp`, lines 132-165.
-/

namespace elemental

/-- An object of the class `DistMatrixBase<T,STAR,VR>`: what its base class holds (shape,
alignments, shifts and local dimensions, as in `ADM`) and its local data. -/
structure STAR_VR (T : Type) where
  adm : ADM
  localMatrix : Nat → Nat → T

namespace STAR_VR

variable {T : Type}

/-- The thirteen overloads `AlignWith( const DistMatrixBase<T,U,V>& A )` of a `[*,VR]`
matrix (star_vr.hpp lines 138-150), selected by the distribution `[U,V]` of the argument;
`none` where no overload is declared. Six overloads are only declared in the header and
their bodies are not under src/: they are the parameter `outOfLine`. The other seven
are defined in the header with the empty body. -/
def AlignWith (outOfLine : Distribution → Distribution → ADM → STAR_VR T → STAR_VR T)
    (U V : Distribution) (A : ADM) (M : STAR_VR T) : Option (STAR_VR T) :=
  match U, V with
  | Distribution.MC, Distribution.MR => some (outOfLine Distribution.MC Distribution.MR A M)
  | Distribution.MR, Distribution.MC => some (outOfLine Distribution.MR Distribution.MC A M)
  | Distribution.MR, Distribution.STAR =>
    some (outOfLine Distribution.MR Distribution.STAR A M)
  | Distribution.STAR, Distribution.MR =>
    some (outOfLine Distribution.STAR Distribution.MR A M)
  | Distribution.STAR, Distribution.VR =>
    some (outOfLine Distribution.STAR Distribution.VR A M)
  | Distribution.VR, Distribution.STAR =>
    some (outOfLine Distribution.VR Distribution.STAR A M)
  | Distribution.STAR, Distribution.MC => some M
  | Distribution.STAR, Distribution.MD => some M
  | Distribution.STAR, Distribution.VC => some M
  | Distribution.STAR, Distribution.STAR => some M
  | Distribution.MC, Distribution.STAR => some M
  | Distribution.MD, Distribution.STAR => some M
  | Distribution.VC, Distribution.STAR => some M
  | _, _ => none

/-- The eleven overloads `AlignColsWith( const DistMatrixBase<T,U,V>& A )` of a `[*,VR]`
matrix (star_vr.hpp lines 155-165), all defined in the header with the empty body; `none`
where no overload is declared. -/
def AlignColsWith (U V : Distribution) (_A : ADM) (M : STAR_VR T) : Option (STAR_VR T) :=
  match U, V with
  | Distribution.STAR, Distribution.MC => some M
  | Distribution.STAR, Distribution.MD => some M
  | Distribution.STAR, Distribution.MR => some M
  | Distribution.STAR, Distribution.VC => some M
  | Distribution.STAR, Distribution.VR => some M
  | Distribution.STAR, Distribution.STAR => some M
  | Distribution.MC, Distribution.STAR => some M
  | Distribution.MD, Distribution.STAR => some M
  | Distribution.MR, Distribution.STAR => some M
  | Distribution.VC, Distribution.STAR => some M
  | Distribution.VR, Distribution.STAR => some M
  | _, _ => none

end STAR_VR

end elemental

/-! ## Entry checks of the packed-reflector routines

`src/advanced/ApplyPackedReflectors/ApplyPackedReflectorsLLVB.cpp` and
`ApplyPackedReflectorsRUHF.cpp`. The checks are embedded statement by statement. What
follows them in each routine (the partitioning loop over the panels of `H`, whose
kernels are not under src/) is the parameter `algorithm`, which receives the offset and
the matrices and yields the outcome of the rest of the call.
-/

namespace elemental

/-- The enumeration `Conjugation` of the library, which the complex variants receive. -/
inductive Conjugation
  | UNCONJUGATED
  | CONJUGATED
deriving DecidableEq

namespace advanced

namespace internal

open elemental.basic.internal

variable {R : Type}

/-- The real variant of `advanced::internal::ApplyPackedReflectorsLLVB`
(ApplyPackedReflectorsLLVB.cpp lines 40-140): the entry checks of lines 47-58, then the
rest of the routine. -/
def ApplyPackedReflectorsLLVB (RELEASE : Bool) (offset : Int)
    (H A : DistMatrix R .MC .MR)
    (algorithm : Int → DistMatrix R .MC .MR → DistMatrix R .MC .MR →
      Outcome (DistMatrix R .MC .MR)) : Outcome (DistMatrix R .MC .MR) :=
  if !RELEASE && decide (H.Grid ≠ A.Grid) then
    Outcome.logic_error "H and A must be distributed over the same grid." A
  else if !RELEASE && decide (offset > 0) then
    Outcome.logic_error "Transforms cannot extend above matrix." A
  else if !RELEASE && decide (offset < -(H.Height : Int)) then
    Outcome.logic_error "Transforms cannot extend below matrix." A
  else if !RELEASE && decide (H.Height ≠ A.Height) then
    Outcome.logic_error "Height of transforms must equal height of target matrix." A
  else algorithm offset H A

/-- The complex variant of `advanced::internal::ApplyPackedReflectorsLLVB`
(ApplyPackedReflectorsLLVB.cpp lines 159-182 and on). `H_DiagonalLength` is the method
`H.DiagonalLength` and `t_AlignedWithDiag` the value of `t.AlignedWithDiag( H, offset )`
as a function of the offset; neither method is under src/. -/
def ApplyPackedReflectorsLLVB_complex (RELEASE : Bool) (conjugation : Conjugation)
    (offset : Int) (H : DistMatrix R .MC .MR) (t : DistMatrix R .MD .STAR)
    (A : DistMatrix R .MC .MR) (H_DiagonalLength : Int → Int)
    (t_AlignedWithDiag : Int → Bool)
    (algorithm : Conjugation → Int → DistMatrix R .MC .MR → DistMatrix R .MD .STAR →
      DistMatrix R .MC .MR → Outcome (DistMatrix R .MC .MR)) :
    Outcome (DistMatrix R .MC .MR) :=
  if !RELEASE && decide (H.Grid ≠ t.Grid ∨ t.Grid ≠ A.Grid) then
    Outcome.logic_error "H, t, and A must be distributed over the same grid." A
  else if !RELEASE && decide (offset > 0) then
    Outcome.logic_error "Transforms cannot extend above matrix." A
  else if !RELEASE && decide (offset < -(H.Height : Int)) then
    Outcome.logic_error "Transforms cannot extend below matrix." A
  else if !RELEASE && decide (H.Height ≠ A.Height) then
    Outcome.logic_error "Height of transforms must equal height of target matrix." A
  else if !RELEASE && decide ((t.Height : Int) ≠ H_DiagonalLength offset) then
    Outcome.logic_error "t must be the same length as H's 'offset' diag." A
  else if !RELEASE && !t_AlignedWithDiag offset then
    Outcome.logic_error "t must be aligned with H's 'offset' diagonal." A
  else algorithm conjugation offset H t A

/-- The real variant of `advanced::internal::ApplyPackedReflectorsRUHF`
(ApplyPackedReflectorsRUHF.cpp lines 40-133): the entry checks of lines 47-58, then the
rest of the routine. -/
def ApplyPackedReflectorsRUHF (RELEASE : Bool) (offset : Int)
    (H A : DistMatrix R .MC .MR)
    (algorithm : Int → DistMatrix R .MC .MR → DistMatrix R .MC .MR →
      Outcome (DistMatrix R .MC .MR)) : Outcome (DistMatrix R .MC .MR) :=
  if !RELEASE && decide (H.Grid ≠ A.Grid) then
    Outcome.logic_error "H and A must be distributed over the same grid." A
  else if !RELEASE && decide (offset > (H.Width : Int)) then
    Outcome.logic_error "Transforms out of bounds" A
  else if !RELEASE && decide (offset < 0) then
    Outcome.logic_error "Transforms cannot extend below matrix." A
  else if !RELEASE && decide (H.Width ≠ A.Width) then
    Outcome.logic_error "Length of transforms must equal width of target matrix." A
  else algorithm offset H A

/-- The complex variant of `advanced::internal::ApplyPackedReflectorsRUHF`
(ApplyPackedReflectorsRUHF.cpp lines 149-172 and on), with `H_DiagonalLength` and
`t_AlignedWithDiag` as for the LLVB variant. -/
def ApplyPackedReflectorsRUHF_complex (RELEASE : Bool) (conjugation : Conjugation)
    (offset : Int) (H : DistMatrix R .MC .MR) (t : DistMatrix R .MD .STAR)
    (A : DistMatrix R .MC .MR) (H_DiagonalLength : Int → Int)
    (t_AlignedWithDiag : Int → Bool)
    (algorithm : Conjugation → Int → DistMatrix R .MC .MR → DistMatrix R .MD .STAR →
      DistMatrix R .MC .MR → Outcome (DistMatrix R .MC .MR)) :
    Outcome (DistMatrix R .MC .MR) :=
  if !RELEASE && decide (H.Grid ≠ t.Grid ∨ t.Grid ≠ A.Grid) then
    Outcome.logic_error "H, t, and A must be distributed over the same grid." A
  else if !RELEASE && decide (offset < 0) then
    Outcome.logic_error "Transforms cannot extend below matrix." A
  else if !RELEASE && decide (offset > (H.Width : Int)) then
    Outcome.logic_error "Transform offset is out of bounds" A
  else if !RELEASE && decide (H.Width ≠ A.Width) then
    Outcome.logic_error "Length of transforms must equal width of target matrix" A
  else if !RELEASE && decide ((t.Height : Int) ≠ H_DiagonalLength offset) then
    Outcome.logic_error "t must be the same length as H's 'offset' diag" A
  else if !RELEASE && !t_AlignedWithDiag offset then
    Outcome.logic_error "t must be aligned with H's 'offset' diagonal" A
  else algorithm conjugation offset H t A

end internal

end advanced

end elemental

/-! ## The format and matrix-type checks of the pseudospectrum driver

`examples/lapack-like/ChunkedPseudospectrum.cpp`, lines 95-103 and 111-126.
-/

namespace elem

/-- The enumeration `FileFormat`, which is not under src/: a value of it is known by the
integer it is cast from (`static_cast<FileFormat>`). -/
structure FileFormat where
  value : Int
deriving DecidableEq

/-- The exception that `LogicError(...)` throws, kept as the list of its arguments, which
the library joins into the message. -/
structure LogicError where
  args : List String
deriving DecidableEq

/-- The `switch( matType )` of the driver (lines 111-126): the name of the matrix that
is built, and `LogicError("Invalid matrix type")` in the default case. -/
def ChunkedPseudospectrum.matName (matType : Int) : Except LogicError String :=
  if matType = 0 then Except.ok "uniform"
  else if matType = 1 then Except.ok "Haar"
  else if matType = 2 then Except.ok "Lotkin"
  else if matType = 3 then Except.ok "Grcar"
  else if matType = 4 then Except.ok "FoxLi"
  else if matType = 5 then Except.ok "HelmholtzPML"
  else if matType = 6 then Except.ok "HelmholtzPML2D"
  else Except.error (LogicError.mk ["Invalid matrix type"])

/-- What the driver has fixed once it is past the switch: the two file formats and the
name of the matrix. -/
structure ChunkedPseudospectrum.Setup where
  numerFormat : FileFormat
  imageFormat : FileFormat
  matName : String
deriving DecidableEq

/-- The part of `main` of the driver from the format checks to the switch (lines 95-126).
`FileFormat_MAX` is the constant of that name, which is not under src/. The calls
between the two (colour map, centres, construction of `A`) raise nothing that the
embedding tracks. -/
def ChunkedPseudospectrum.main (FileFormat_MAX numerFormatInt imageFormatInt matType : Int) :
    Except LogicError ChunkedPseudospectrum.Setup :=
  if numerFormatInt < 1 ∨ numerFormatInt ≥ FileFormat_MAX then
    Except.error (LogicError.mk
      ["Invalid numerical format integer, should be in [1,", toString FileFormat_MAX, ")"])
  else if imageFormatInt < 1 ∨ imageFormatInt ≥ FileFormat_MAX then
    Except.error (LogicError.mk
      ["Invalid image format integer, should be in [1,", toString FileFormat_MAX, ")"])
  else
    let numerFormat := FileFormat.mk numerFormatInt
    let imageFormat := FileFormat.mk imageFormatInt
    match ChunkedPseudospectrum.matName matType with
    | Except.error e => Except.error e
    | Except.ok name => Except.ok (ChunkedPseudospectrum.Setup.mk numerFormat imageFormat name)

end elem

/-! ## The two-sided transform `HegstLUVar5`

`src/advanced/Hegst/HegstLUVar5.cpp`. As for TrsmRUN, distributed matrices are seen
through their global entries; conjugation is the `star` of the field.
-/

namespace elemental

namespace basic

variable {F : Type} [Field F] [StarRing F]

/-- The Hermitian matrix that the upper triangle of `A` stores: below the diagonal it is
the conjugate of the mirrored entry. -/
def HermitianFromUpper (A : Nat → Nat → F) : Nat → Nat → F :=
  fun p q => if p ≤ q then A p q else star (A q p)

/-- The upper triangle of `U`, diagonal included, with zeros below it. -/
def UpperTriangle (U : Nat → Nat → F) : Nat → Nat → F :=
  fun p q => if p ≤ q then U p q else 0

/-- Modelled from the spec: `basic::Hemm` is not under src/; it is the local Hermitian
matrix multiply. HegstLUVar5 calls it with `RIGHT, UPPER` on the local matrices and
states its effect as `Y01 := U01 A11`; in general `C := alpha B A + beta C` with `A`
Hermitian and stored in its upper triangle. -/
def Hemm {U V : Distribution} (alpha : F) (A : DistMatrix F .STAR .STAR)
    (B : DistMatrix F U V) (beta : F) (C : DistMatrix F U V) : DistMatrix F U V :=
  DistMatrix.mk C.Grid C.Height C.Width
    (fun i j => alpha * (∑ q in Finset.range A.Height, B.Get i q * HermitianFromUpper A.Get q j)
      + beta * C.Get i j)

/-- Modelled from the spec: `basic::Trmm` is not under src/. HegstLUVar5 calls it with
`LEFT, UPPER, NORMAL, NON_UNIT` and states its effect as `A01 := U00 A01`; in general
`B := alpha triu(A) B`. -/
def Trmm {U V : Distribution} (alpha : F) (A : DistMatrix F .MC .MR)
    (B : DistMatrix F U V) : DistMatrix F U V :=
  DistMatrix.mk B.Grid B.Height B.Width
    (fun i j => alpha * ∑ p in Finset.range A.Width, UpperTriangle A.Get i p * B.Get p j)

/-- Modelled from the spec: `basic::Axpy` is not under src/; `Y := alpha X + Y`. -/
def Axpy {U V : Distribution} (alpha : F) (X Y : DistMatrix F U V) : DistMatrix F U V :=
  DistMatrix.mk Y.Grid Y.Height Y.Width (fun i j => alpha * X.Get i j + Y.Get i j)

namespace internal

/-- Modelled from the spec: `basic::internal::LocalTriangularRank2K` is not under src/.
HegstLUVar5 calls it with `UPPER, ADJOINT, ADJOINT` on `U01[MC,*]`, `A01[MC,*]`,
`U01[MR,*]`, `A01[MR,*]` and states its effect as `A00 := A00 + (U01 A01' + A01 U01')`:
the upper triangle of `E` becomes `alpha (A1 B2^H + A2 B1^H) + beta E`, the rest of `E`
is kept. -/
def LocalTriangularRank2K (alpha : F) (A1 A2 : DistMatrix F .MC .STAR)
    (B1 B2 : DistMatrix F .MR .STAR) (beta : F) (E : DistMatrix F .MC .MR) :
    DistMatrix F .MC .MR :=
  DistMatrix.mk E.Grid E.Height E.Width
    (fun i j =>
      if i ≤ j then
        alpha * (∑ c in Finset.range A1.Width,
          (A1.Get i c * star (B2.Get j c) + A2.Get i c * star (B1.Get j c))) + beta * E.Get i j
      else E.Get i j)

/-- Modelled from the spec: `basic::internal::LocalTrmm` is not under src/. HegstLUVar5
calls it with `RIGHT, UPPER, ADJOINT, NON_UNIT` and states its effect as
`A01 := A01 U11'`; in general `B := alpha B triu(A)^H`. -/
def LocalTrmm (alpha : F) (A : DistMatrix F .STAR .STAR) (B : DistMatrix F .VC .STAR) :
    DistMatrix F .VC .STAR :=
  DistMatrix.mk B.Grid B.Height B.Width
    (fun i j => alpha * ∑ c in Finset.range A.Width, B.Get i c * star (UpperTriangle A.Get j c))

end internal

end basic

namespace advanced

namespace internal

open elemental.basic elemental.basic.internal

variable {F : Type} [Field F] [StarRing F]

/-- Modelled from the spec: `advanced::internal::LocalHegst` is not under src/.
HegstLUVar5 calls it with `LEFT, UPPER` and states its effect as `A11 := U11 A11 U11'`:
the upper triangle of `A` becomes that of `triu(B) A triu(B)^H`, where `A` is the
Hermitian matrix its upper triangle stores; the rest of `A` is kept. -/
def LocalHegst (A B : DistMatrix F .STAR .STAR) : DistMatrix F .STAR .STAR :=
  DistMatrix.mk A.Grid A.Height A.Width
    (fun i j =>
      if i ≤ j then
        ∑ c in Finset.range A.Height, ∑ d in Finset.range A.Height,
          UpperTriangle B.Get i c * HermitianFromUpper A.Get c d * star (UpperTriangle B.Get j d)
      else A.Get i j)

/-- The body of the `while` loop of HegstLUVar5 (HegstLUVar5.cpp lines 88-157) with the
leading `k x k` blocks `ATL` and `UTL` already passed. `bsize` is the algorithmic block
size. `A` and `U` are repartitioned with the same block: the two agree whenever both are
square of the same size, which is what the entry checks demand. The temporaries are
fresh in every iteration: each of them is overwritten before it is read. -/
def HegstLUVar5.iteration (bsize : Nat) (U : DistMatrix F .MC .MR) (k : Nat)
    (A : DistMatrix F .MC .MR) : DistMatrix F .MC .MR :=
  let nb := min bsize (min (A.Height - k) (A.Width - k))
  let A00 := A.View 0 0 k k
  let A01 := A.View 0 k k nb
  let A11 := A.View k k nb nb
  let U00 := U.View 0 0 k k
  let U01 := U.View 0 k k nb
  let U11 := U.View k k nb nb
  -- Y01 := U01 A11
  let A11_STAR_STAR : DistMatrix F .STAR .STAR := A11.assign
  let U01_VC_STAR : DistMatrix F .VC .STAR := U01.assign
  let Y01_VC_STAR : DistMatrix F .VC .STAR :=
    DistMatrix.mk A.Grid A01.Height A01.Width (fun _ _ => 0)
  let Y01_VC_STAR := Hemm 1 A11_STAR_STAR U01_VC_STAR 0 Y01_VC_STAR
  let Y01 : DistMatrix F .MC .MR := Y01_VC_STAR.assign
  -- A01 := U00 A01
  let A01 := Trmm 1 U00 A01
  -- A01 := A01 + 1/2 Y01
  let A01 := Axpy (1 / 2) Y01 A01
  -- A00 := A00 + (U01 A01' + A01 U01')
  let A01_MC_STAR : DistMatrix F .MC .STAR := A01.assign
  let U01_MC_STAR : DistMatrix F .MC .STAR := U01.assign
  let A01_VC_STAR : DistMatrix F .VC .STAR := A01_MC_STAR.assign
  let A01_MR_STAR : DistMatrix F .MR .STAR := A01_VC_STAR.assign
  let U01_MR_STAR : DistMatrix F .MR .STAR := U01_MC_STAR.assign
  let A00 := LocalTriangularRank2K 1 U01_MC_STAR A01_MC_STAR U01_MR_STAR A01_MR_STAR 1 A00
  -- A01 := A01 + 1/2 Y01
  let A01_VC_STAR := Axpy (1 / 2) Y01_VC_STAR A01_VC_STAR
  -- A01 := A01 U11'
  let U11_STAR_STAR : DistMatrix F .STAR .STAR := U11.assign
  let A01_VC_STAR := LocalTrmm 1 U11_STAR_STAR A01_VC_STAR
  let A01 : DistMatrix F .MC .MR := A01_VC_STAR.assign
  -- A11 := U11 A11 U11'
  let A11_STAR_STAR := LocalHegst A11_STAR_STAR U11_STAR_STAR
  let A11 : DistMatrix F .MC .MR := A11_STAR_STAR.assign
  ((A.Store 0 0 A00).Store 0 k A01).Store k k A11

/-- The loop `while( ATL.Height() < A.Height() )` of HegstLUVar5, where `ATL` is the
leading `k x k` block; `none` when the fuel runs out before the loop ends. -/
def HegstLUVar5.loop (bsize : Nat) (U : DistMatrix F .MC .MR) :
    Nat → Nat → DistMatrix F .MC .MR → Option (DistMatrix F .MC .MR)
  | fuel, k, A =>
    if k < A.Height then
      match fuel with
      | 0 => none
      | fuel + 1 =>
        HegstLUVar5.loop bsize U fuel (k + min bsize (min (A.Height - k) (A.Width - k)))
          (HegstLUVar5.iteration bsize U k A)
    else some A

/-- The routine `advanced::internal::HegstLUVar5` (HegstLUVar5.cpp lines 38-160).
`RELEASE` tells whether the build defines the macro of that name, which compiles the
entry checks out. -/
def HegstLUVar5 (RELEASE : Bool) (bsize fuel : Nat) (A U : DistMatrix F .MC .MR) :
    Outcome (DistMatrix F .MC .MR) :=
  if !RELEASE && decide (A.Height ≠ A.Width) then
    Outcome.logic_error "A must be square." A
  else if !RELEASE && decide (U.Height ≠ U.Width) then
    Outcome.logic_error "Triangular matrices must be square." A
  else if !RELEASE && decide (A.Height ≠ U.Height) then
    Outcome.logic_error "A and U must be the same size." A
  else
    match HegstLUVar5.loop bsize U fuel 0 A with
    | some A' => Outcome.returned A'
    | none => Outcome.unfinished

end internal

end advanced

end elemental

namespace elemental

namespace advanced

namespace internal

open elemental.basic elemental.basic.internal

variable {F : Type} [Field F] [StarRing F]

/-- The entry `(i, j)` of `UTL A0_TL UTL^H` for the leading `k x k` blocks: `U` enters
through its upper triangle and `A0` as the Hermitian matrix its upper triangle stores. -/
def HegstLUVar5.Target (U A0 : Nat → Nat → F) (k i j : Nat) : F :=
  ∑ p in Finset.range k, ∑ q in Finset.range k,
    UpperTriangle U i p * HermitianFromUpper A0 p q * star (UpperTriangle U j q)

/-- The entry `(i, c)` of the intermediate panel `A01' = U00 A01 + 1/2 Y01` with
`Y01 = U01 A11`, for the block of `nb` columns that starts at column `k`. -/
def HegstLUVar5.Panel (U A0 : Nat → Nat → F) (k nb i c : Nat) : F :=
  (∑ p in Finset.range k, UpperTriangle U i p * HermitianFromUpper A0 p (k + c))
    + 1 / 2 * ∑ d in Finset.range nb,
        UpperTriangle U i (k + d) * HermitianFromUpper A0 (k + d) (k + c)

/-- The loop invariant of HegstLUVar5 with `k` rows and columns passed: `A` is `n x n`,
the upper triangle of `ATL` is that of `UTL A0_TL UTL^H`, and the upper triangle in the
columns from `k` on still holds `A0`. -/
def HegstLUVar5.Inv (n : Nat) (U : DistMatrix F .MC .MR) (A0 : Nat → Nat → F) (k : Nat)
    (A : DistMatrix F .MC .MR) : Prop :=
  A.Height = n ∧ A.Width = n
    ∧ (∀ i j, i ≤ j → j < k → A.Get i j = HegstLUVar5.Target U.Get A0 k i j)
    ∧ (∀ i j, i ≤ j → k ≤ j → j < n → A.Get i j = A0 i j)

end internal

end advanced

/-- A 2 x 2 matrix over the rationals on grid 0, whose upper triangle stores a Hermitian
matrix. -/
def exampleHermitian : DistMatrix ℚ .MC .MR :=
  DistMatrix.mk 0 2 2 (fun i j => (i : ℚ) + 2 * j + 1)

/-- The same 2 x 2 matrix on grid 1. -/
def exampleHermitianOtherGrid : DistMatrix ℚ .MC .MR :=
  DistMatrix.mk 1 2 2 (fun i j => (i : ℚ) + 2 * j + 1)

/-- A column of two scalars over the rationals in the `[MD,*]` distribution, on grid 0. -/
def exampleT : DistMatrix ℚ .MD .STAR :=
  DistMatrix.mk 0 2 1 (fun _ _ => 1)

end elemental

/-! ## The panel of the Hessenberg reduction `hessenberg::UpperPanel`

`src/lapack_like/condense/Hessenberg/UpperPanel.hpp`. The sequential overload works on
`El::Matrix`, seen here through its shape and its entries; the kernels it calls
(`Zeros`, `Conjugate`, `Trsv`, `Gemv`) are not under src/. `LeftReflector` is not under
src/ either and is a parameter of the model.
-/

namespace El

/-- The half-open index range `Range<Int>(beg, end)` of the source, written `IR(beg,end)`
there. -/
structure Range where
  beg : Nat
  end_ : Nat

/-- The shorthand `IR(beg,end)` of the source. -/
def IR (beg end_ : Nat) : Range := Range.mk beg end_

/-- Modelled from the spec: the sequential `El::Matrix` is not under src/: a shape and
the entries of the buffer. -/
structure Matrix (F : Type) where
  Height : Nat
  Width : Nat
  Get : Nat → Nat → F

namespace Matrix

variable {F : Type}

/-- Modelled from the spec: `A(I, J)`, the view of the rows `I` and the columns `J` of
`A` ("a non-owning window referencing a subrange of another matrix's storage"). -/
def View (A : Matrix F) (I J : Range) : Matrix F :=
  Matrix.mk (I.end_ - I.beg) (J.end_ - J.beg) (fun r c => A.Get (I.beg + r) (J.beg + c))

/-- Modelled from the spec: writing through the view `A(I, J)`: the window takes the
entries of `B`, every other entry of `A` is kept. -/
def Store (A : Matrix F) (I J : Range) (B : Matrix F) : Matrix F :=
  Matrix.mk A.Height A.Width
    (fun r c =>
      if I.beg ≤ r ∧ r < I.end_ ∧ J.beg ≤ c ∧ c < J.end_ then B.Get (r - I.beg) (c - J.beg)
      else A.Get r c)

/-- Modelled from the spec: the element assignment `A(i,j) = value`. -/
def Set (A : Matrix F) (i j : Nat) (value : F) : Matrix F :=
  Matrix.mk A.Height A.Width (fun r c => if r = i ∧ c = j then value else A.Get r c)

/-- Modelled from the spec: `A.Resize(height, width)` changes the shape; what the buffer
holds afterwards is not specified, the model leaves the entries as they were. -/
def Resize (A : Matrix F) (height width : Nat) : Matrix F :=
  Matrix.mk height width A.Get

/-- Entry `i` of a matrix used as a vector: a matrix of width one is a column vector,
any other one is read along its first row. -/
def vec (x : Matrix F) (i : Nat) : F :=
  if x.Width = 1 then x.Get i 0 else x.Get 0 i

/-- The vector `x` with its entries replaced by those of `v`. -/
def setVec (x : Matrix F) (v : Nat → F) : Matrix F :=
  Matrix.mk x.Height x.Width
    (fun r c =>
      if x.Width = 1 then (if c = 0 then v r else x.Get r c)
      else (if r = 0 then v c else x.Get r c))

end Matrix

/-- The values of `Orientation` that UpperPanel.hpp passes to the kernels. -/
inductive Orientation
  | NORMAL
  | ADJOINT
deriving DecidableEq

/-- Modelled from the spec: `Zeros(A, m, n)` makes `A` the `m x n` zero matrix. -/
def Zeros {F : Type} [Zero F] (m n : Nat) : Matrix F :=
  Matrix.mk m n (fun _ _ => 0)

/-- Modelled from the spec: `Conjugate(A, B)` sets `B` to the entrywise conjugate of `A`,
and `Conjugate(A)` does so in place. -/
def Conjugate {F : Type} [Star F] (A : Matrix F) : Matrix F :=
  Matrix.mk A.Height A.Width (fun r c => star (A.Get r c))

section kernels

variable {F : Type} [Field F] [StarRing F]

/-- Forward substitution in place: after `m` steps the first `m` entries of `x` solve the
leading `m x m` lower triangular system with the lower triangle of `L`. -/
def Trsv.forward (L : Nat → Nat → F) (b : Nat → F) : Nat → Nat → F
  | 0 => b
  | m + 1 =>
    let x := Trsv.forward L b m
    fun i => if i = m then (x m - ∑ j in Finset.range m, L m j * x j) / L m m else x i

/-- Back substitution in place with the conjugate transpose of the lower triangle of the
`m x m` matrix `L`: after `s` steps the last `s` entries of `x` are solved. -/
def Trsv.backward (L : Nat → Nat → F) (b : Nat → F) (m : Nat) : Nat → Nat → F
  | 0 => b
  | s + 1 =>
    let x := Trsv.backward L b m s
    let i := m - 1 - s
    fun r =>
      if r = i then
        (x i - ∑ j in Finset.range s, star (L (i + 1 + j) i) * x (i + 1 + j)) / star (L i i)
      else x r

/-- Modelled from the spec: `Trsv(LOWER, orientation, NON_UNIT, A, x)` is the local
triangular solve; it is not under src/. UpperPanel calls it with `LOWER` and `NON_UNIT`
only: `x := inv(tril(A)) x` for `NORMAL` and `x := inv(tril(A))^H x` for `ADJOINT`, by
substitution, reading the lower triangle of `A` only. -/
def Trsv (orientation : Orientation) (A x : Matrix F) : Matrix F :=
  match orientation with
  | Orientation.NORMAL => x.setVec (Trsv.forward A.Get x.vec A.Height)
  | Orientation.ADJOINT => x.setVec (Trsv.backward A.Get x.vec A.Height A.Height)

/-- Modelled from the spec: `Gemv(orientation, alpha, A, x, beta, y)` is the local
matrix-vector product `y := alpha op(A) x + beta y`; it is not under src/. -/
def Gemv (orientation : Orientation) (alpha : F) (A x : Matrix F) (beta : F)
    (y : Matrix F) : Matrix F :=
  match orientation with
  | Orientation.NORMAL =>
    y.setVec (fun i => alpha * (∑ j in Finset.range A.Width, A.Get i j * x.vec j)
      + beta * y.vec i)
  | Orientation.ADJOINT =>
    y.setVec (fun j => alpha * (∑ i in Finset.range A.Height, star (A.Get i j) * x.vec i)
      + beta * y.vec j)

end kernels

namespace hessenberg

open elemental.basic.internal

variable {F : Type} [Field F] [StarRing F]

/-- The five matrices that the sequential UpperPanel works on. -/
structure UpperPanel.State (F : Type) where
  A : Matrix F
  householderScalars : Matrix F
  U : Matrix F
  V : Matrix F
  G : Matrix F

/-- Column `k` of `A` after the first part of iteration `k` (UpperPanel.hpp lines 79-88),
as the `n x 1` view `a1`:
`a1 := (I - U0 inv(G00) U0^H) (a1 - V0 inv(G00)^H u10^H)`. -/
def UpperPanel.a1 (n k : Nat) (s : UpperPanel.State F) : Matrix F :=
  let ind0 := Range.mk 0 k
  let ind1 := Range.mk k (k + 1)
  let a1 := s.A.View (IR 0 n) ind1
  let U0 := s.U.View (IR 0 n) ind0
  let u10 := s.U.View ind1 ind0
  let V0 := s.V.View (IR 0 n) ind0
  let G00 := s.G.View ind0 ind0
  -- a1 := a1 - V0 inv(G00)^H u10^H
  let y10 := Conjugate u10
  let y10 := Trsv Orientation.ADJOINT G00 y10
  let a1 := Gemv Orientation.NORMAL (-1) V0 y10 1 a1
  -- a1 := a1 - U0 (inv(G00) (U0^H a1))
  let y10 := Gemv Orientation.ADJOINT 1 U0 a1 0 y10
  let y10 := Trsv Orientation.NORMAL G00 y10
  Gemv Orientation.NORMAL (-1) U0 y10 1 a1

/-- The matrix `A` after the first part of iteration `k`: the view `a1` aliases column
`k` of `A`, which therefore holds the updated column. -/
def UpperPanel.column (n k : Nat) (s : UpperPanel.State F) : Matrix F :=
  s.A.Store (IR 0 n) (Range.mk k (k + 1)) (UpperPanel.a1 n k s)

/-- What `LeftReflector( alpha21T, a21B )` does in iteration `k` (UpperPanel.hpp line 93):
the scalar `tau` it returns and what it leaves in `alpha21T` and in `a21B`, as given by
the parameter `LeftReflector`. -/
def UpperPanel.reflector (LeftReflector : Matrix F → Matrix F → F × Matrix F × Matrix F)
    (n k : Nat) (s : UpperPanel.State F) : F × Matrix F × Matrix F :=
  let ind1 := Range.mk k (k + 1)
  let A := UpperPanel.column n k s
  let alpha21T := A.View (IR (k + 1) (k + 2)) ind1
  let a21B := A.View (IR (k + 2) n) ind1
  LeftReflector alpha21T a21B

/-- The body of the loop `for( Int k=0; k<nU; ++k )` of the sequential UpperPanel
(UpperPanel.hpp lines 56-109). The views alias their matrix, so each of them is taken
where it is used. -/
def UpperPanel.iteration (LeftReflector : Matrix F → Matrix F → F × Matrix F × Matrix F)
    (n k : Nat) (s : UpperPanel.State F) : UpperPanel.State F :=
  let ind0 := Range.mk 0 k
  let ind1 := Range.mk k (k + 1)
  let ind2 := Range.mk (k + 1) n
  -- a1 := (I - U0 inv(G00) U0^H) (a1 - V0 inv(G00)^H u10^H)
  let A := UpperPanel.column n k s
  -- tau = LeftReflector( alpha21T, a21B )
  let r := UpperPanel.reflector LeftReflector n k s
  let tau := r.1
  let A := A.Store (IR (k + 1) (k + 2)) ind1 r.2.1
  let A := A.Store (IR (k + 2) n) ind1 r.2.2
  let householderScalars := s.householderScalars.Set k 0 tau
  -- u21 := [1; v]
  let a21 := A.View ind2 ind1
  let u21 := a21
  let u21 := u21.Set 0 0 1
  let U := s.U.Store ind2 ind1 u21
  -- v1 := A2 u21
  let A2 := A.View (IR 0 n) ind2
  let v1 := Gemv Orientation.NORMAL 1 A2 u21 0 (s.V.View (IR 0 n) ind1)
  let V := s.V.Store (IR 0 n) ind1 v1
  -- g10 := u21^H U20 = (U20^H u21)^H
  let U20 := U.View ind2 ind0
  let g10 := Gemv Orientation.ADJOINT 1 U20 u21 0 (s.G.View ind1 ind0)
  let g10 := Conjugate g10
  let G := s.G.Store ind1 ind0 g10
  -- gamma11 := 1/tau
  let gamma11 := (G.View ind1 ind1).Set 0 0 (1 / tau)
  let G := G.Store ind1 ind1 gamma11
  UpperPanel.State.mk A householderScalars U V G

/-- The first `m` iterations of the loop `for( Int k=0; k<nU; ++k )`. -/
def UpperPanel.loop (LeftReflector : Matrix F → Matrix F → F × Matrix F × Matrix F)
    (n : Nat) : Nat → UpperPanel.State F → UpperPanel.State F
  | 0, s => s
  | m + 1, s => UpperPanel.iteration LeftReflector n m (UpperPanel.loop LeftReflector n m s)

/-- The state after `householderScalars.Resize`, and the three calls of `Zeros`
(UpperPanel.hpp lines 45-50). -/
def UpperPanel.init (A householderScalars U : Matrix F) : UpperPanel.State F :=
  let nU := U.Width
  let n := A.Height
  let householderScalarsHeight := max nU 0
  UpperPanel.State.mk A (householderScalars.Resize householderScalarsHeight 1)
    (Zeros n nU) (Zeros n nU) (Zeros nU nU)

/-- The sequential `hessenberg::UpperPanel` (UpperPanel.hpp lines 24-111). `debug` tells
whether the build is a debug build, in which `EL_DEBUG_ONLY` keeps the entry checks. An
error carries the five matrices as they are when it is raised. -/
def UpperPanel (debug : Bool)
    (LeftReflector : Matrix F → Matrix F → F × Matrix F × Matrix F)
    (A householderScalars U V G : Matrix F) : Outcome (UpperPanel.State F) :=
  let nU := U.Width
  let n := A.Height
  if debug && decide (nU ≥ n) then
    Outcome.logic_error "V is too wide for the panel factorization"
      (UpperPanel.State.mk A householderScalars U V G)
  else if debug && decide (U.Height ≠ A.Height) then
    Outcome.logic_error "U must be the same height as A"
      (UpperPanel.State.mk A householderScalars U V G)
  else if debug && decide (V.Height ≠ A.Height) then
    Outcome.logic_error "V must be the same height as A"
      (UpperPanel.State.mk A householderScalars U V G)
  else if debug && decide (V.Width ≠ nU) then
    Outcome.logic_error "V must be the same width as U"
      (UpperPanel.State.mk A householderScalars U V G)
  else
    Outcome.returned
      (UpperPanel.loop LeftReflector n nU (UpperPanel.init A householderScalars U))

/-- The six distributed matrices that the distributed UpperPanel works on. -/
structure UpperPanel.DistState (F : Type) where
  A : DistMatrix F
  householderScalars : DistMatrix F
  U_MC_STAR : DistMatrix F
  U_MR_STAR : DistMatrix F
  V_MC_STAR : DistMatrix F
  G_STAR_STAR : DistMatrix F

/-- Modelled from the spec: `Zeros(A, m, n)` on a distributed matrix, which keeps its
grid and its distribution. -/
def UpperPanel.DistZeros (A : DistMatrix F) (m n : Nat) : DistMatrix F :=
  DistMatrix.FromGlobal A.Grid A.DistData m n (fun _ _ => 0)

/-- The distributed `hessenberg::UpperPanel` (UpperPanel.hpp lines 113-230) up to its
loop. `AssertSameGrids` is not under src/; by the specification an "operation between
two matrices on different grids" is an error, and the message it raises is the parameter
`gridsWhat`. The loop is the parameter `loop`. -/
def UpperPanel_DistMatrix (debug : Bool) (gridsWhat : String)
    (loop : UpperPanel.DistState F → UpperPanel.DistState F)
    (A householderScalars U_MC_STAR U_MR_STAR V_MC_STAR G_STAR_STAR : DistMatrix F) :
    Outcome (UpperPanel.DistState F) :=
  let s := UpperPanel.DistState.mk A householderScalars U_MC_STAR U_MR_STAR V_MC_STAR
    G_STAR_STAR
  let nU := U_MC_STAR.Width
  let n := A.Height
  if debug && !(decide (A.Grid = householderScalars.Grid) && decide (A.Grid = U_MC_STAR.Grid)
      && decide (A.Grid = U_MR_STAR.Grid) && decide (A.Grid = V_MC_STAR.Grid)
      && decide (A.Grid = G_STAR_STAR.Grid)) then
    Outcome.logic_error gridsWhat s
  else if debug && decide (A.DistData.colAlign ≠ U_MC_STAR.DistData.colAlign) then
    Outcome.logic_error "A and U[MC,* ] must be aligned" s
  else if debug && decide (A.DistData.rowAlign ≠ U_MR_STAR.DistData.colAlign) then
    Outcome.logic_error "A and U[MR,* ] must be aligned" s
  else if debug && decide (A.DistData.colAlign ≠ V_MC_STAR.DistData.colAlign) then
    Outcome.logic_error "A and V[MC,* ] must be aligned" s
  else if debug && decide (nU ≥ n) then
    Outcome.logic_error "V is too wide for the panel factorization" s
  else if debug && decide (U_MC_STAR.Height ≠ A.Height) then
    Outcome.logic_error "U[MC,* ] must be the same height as A" s
  else if debug && decide (U_MR_STAR.Height ≠ A.Height) then
    Outcome.logic_error "U[MR,* ] must be the same height as A" s
  else if debug && decide (U_MR_STAR.Width ≠ nU) then
    Outcome.logic_error "U[MR,* ] must be the same width as U[MC,* ]" s
  else if debug && decide (V_MC_STAR.Height ≠ A.Height) then
    Outcome.logic_error "V[MC,* ] must be the same height as A" s
  else if debug && decide (V_MC_STAR.Width ≠ nU) then
    Outcome.logic_error "V[MC,* ] must be the same width as U" s
  else
    Outcome.returned (loop (UpperPanel.DistState.mk A householderScalars
      (UpperPanel.DistZeros U_MC_STAR n nU) (UpperPanel.DistZeros U_MR_STAR n nU)
      (UpperPanel.DistZeros V_MC_STAR n nU) (UpperPanel.DistZeros G_STAR_STAR nU nU)))

/-- A stand-in for `LeftReflector` that returns `tau = 2` and leaves its arguments as
they are. -/
def exampleReflector : Matrix ℚ → Matrix ℚ → ℚ × Matrix ℚ × Matrix ℚ :=
  fun chi x => (2, chi, x)

/-- A 3 x 3 matrix over the rationals. -/
def examplePanelA : Matrix ℚ :=
  Matrix.mk 3 3 (fun i j => (i : ℚ) + 2 * j + 1)

/-- A 3 x 2 matrix over the rationals, the shape of `U` and `V` for a panel of width 2. -/
def examplePanelU : Matrix ℚ :=
  Matrix.mk 3 2 (fun _ _ => 7)

/-- An empty matrix over the rationals. -/
def examplePanelEmpty : Matrix ℚ :=
  Matrix.mk 0 0 (fun _ _ => 0)

/-- A distributed matrix of zeros on a 1 x 1 grid, with the given distribution and
shape. -/
def exampleDistPanel (d : DistData) (height width : Nat) : DistMatrix ℚ :=
  DistMatrix.FromGlobal (Grid.mk 1 1) d height width (fun _ _ => 0)

end hessenberg

end El

/-! ## The view requests of `hessenberg::UpperPanel`

`src/lapack_like/condense/Hessenberg/UpperPanel.hpp`, lines 56-77.
-/

namespace El

/-- Modelled from the spec: a view request `A(I, J)` "fails with `RangeError` if the
requested window exceeds the parent's bounds". The request is in bounds when both ranges
are well formed (`beg <= end`) and end inside the matrix. -/
def Matrix.InBounds {F : Type} (A : Matrix F) (I J : Range) : Bool :=
  decide (I.beg ≤ I.end_ ∧ I.end_ ≤ A.Height ∧ J.beg ≤ J.end_ ∧ J.end_ ≤ A.Width)

namespace hessenberg

variable {F : Type}

/-- The view requests of iteration `k` of the sequential UpperPanel (UpperPanel.hpp lines
60-77) in the order of the source, each with the matrix it indexes: `a21`, `a1`, `A2`,
`alpha21T`, `a21B`, then `U0`, `u10`, `u21`, `U20`, then `V0`, `v1`, then `G00`, `g10`,
`gamma11`. -/
def UpperPanel.views (n k : Nat) (s : UpperPanel.State F) : List (Matrix F × Range × Range) :=
  let ind0 := Range.mk 0 k
  let ind1 := Range.mk k (k + 1)
  let ind2 := Range.mk (k + 1) n
  [(s.A, ind2, ind1),
    (s.A, IR 0 n, ind1),
    (s.A, IR 0 n, ind2),
    (s.A, IR (k + 1) (k + 2), ind1),
    (s.A, IR (k + 2) n, ind1),
    (s.U, IR 0 n, ind0),
    (s.U, ind1, ind0),
    (s.U, ind2, ind1),
    (s.U, ind2, ind0),
    (s.V, IR 0 n, ind0),
    (s.V, IR 0 n, ind1),
    (s.G, ind0, ind0),
    (s.G, ind1, ind0),
    (s.G, ind1, ind1)]

/-- Whether every view request of iteration `k` is in bounds. -/
def UpperPanel.viewsInBounds (n k : Nat) (s : UpperPanel.State F) : Bool :=
  (UpperPanel.views n k s).all (fun r => r.1.InBounds r.2.1 r.2.2)

/-- A 3 x 2 matrix over the rationals: as high as `examplePanelA`, with fewer columns
than rows. -/
def examplePanelNarrow : Matrix ℚ :=
  Matrix.mk 3 2 (fun i j => (i : ℚ) + 2 * j + 1)

/-- A 3 x 1 matrix over the rationals, the shape of `U` and `V` for a panel of width 1. -/
def examplePanelColumn : Matrix ℚ :=
  Matrix.mk 3 1 (fun _ _ => 7)

end hessenberg

end El

/-! ## The panel loops of the packed-reflector routines

`src/advanced/ApplyPackedReflectors/ApplyPackedReflectorsLLVB.cpp`, lines 77-151, and
`ApplyPackedReflectorsRUHF.cpp`, lines 76-141. The loops walk a partition of `H` along
its diagonal and view one panel `HPan` of `H` per iteration. The partitioning routines are
not under src/.
-/

namespace elemental

/-- The four views `ATL`, `ATR`, `ABL`, `ABR` that a diagonal partition of a matrix hands
out. -/
structure Partition2x2 (F : Type) (U V : Distribution) where
  ATL : DistMatrix F U V
  ATR : DistMatrix F U V
  ABL : DistMatrix F U V
  ABR : DistMatrix F U V

/-- The nine views `A00`, ..., `A22` that a diagonal repartition hands out. -/
structure Partition3x3 (F : Type) (U V : Distribution) where
  A00 : DistMatrix F U V
  A01 : DistMatrix F U V
  A02 : DistMatrix F U V
  A10 : DistMatrix F U V
  A11 : DistMatrix F U V
  A12 : DistMatrix F U V
  A20 : DistMatrix F U V
  A21 : DistMatrix F U V
  A22 : DistMatrix F U V

/-- The four views tile the matrix `A`: neighbours agree on the side they share, and the
heights and the widths add up to those of `A`. -/
def Partition2x2.Tiles {F : Type} {U V : Distribution} (A : DistMatrix F U V)
    (P : Partition2x2 F U V) : Prop :=
  P.ATL.Height = P.ATR.Height ∧ P.ABL.Height = P.ABR.Height
    ∧ P.ATL.Width = P.ABL.Width ∧ P.ATR.Width = P.ABR.Width
    ∧ P.ATL.Height + P.ABL.Height = A.Height ∧ P.ATL.Width + P.ATR.Width = A.Width

namespace DistMatrix

variable {F : Type} {U V : Distribution}

/-- Modelled from the spec: `LockedView( A, i, j, height, width )` "constructs a
non-owning window; fails with `RangeError` if the requested window exceeds the parent's
bounds". The arguments are C++ `int`s; `none` is the failure. -/
def LockedView (A : DistMatrix F U V) (i j height width : Int) : Option (DistMatrix F U V) :=
  if 0 ≤ i ∧ 0 ≤ j ∧ 0 ≤ height ∧ 0 ≤ width
      ∧ i + height ≤ (A.Height : Int) ∧ j + width ≤ (A.Width : Int) then
    some (A.View i.toNat j.toNat height.toNat width.toNat)
  else none

/-- Modelled from the spec: the view of two views that lie side by side. -/
def View1x2 (AL AR : DistMatrix F U V) : DistMatrix F U V :=
  DistMatrix.mk AL.Grid AL.Height (AL.Width + AR.Width)
    (fun r c => if c < AL.Width then AL.Get r c else AR.Get r (c - AL.Width))

/-- Modelled from the spec: the view of two views that lie one above the other. -/
def View2x1 (AT AB : DistMatrix F U V) : DistMatrix F U V :=
  DistMatrix.mk AT.Grid (AT.Height + AB.Height) AT.Width
    (fun r c => if r < AT.Height then AT.Get r c else AB.Get (r - AT.Height) c)

/-- Modelled from the spec: the view of four views that form a 2 x 2 block. -/
def View2x2 (ATL ATR ABL ABR : DistMatrix F U V) : DistMatrix F U V :=
  View2x1 (View1x2 ATL ATR) (View1x2 ABL ABR)

end DistMatrix

section partitions

variable {F : Type} {U V : Distribution}

/-- Modelled from the spec: `LockedPartitionUpDiagonal( A, ATL, ATR, ABL, ABR, diagABR )`
is not under src/. It splits `A` along its main diagonal with `ABR` taking `diagABR`
diagonal entries; for a matrix that is not square the diagonal is the one that starts at
the top-left corner, so `ATL` is square. ApplyPackedReflectorsLLVB relies on this: it
partitions `A` with `AB` of height `max(0,H.Height()-H.Width())`, the height `HBR` has
here for `diagABR = 0`. -/
def LockedPartitionUpDiagonal (A : DistMatrix F U V) (diagABR : Nat) : Partition2x2 F U V :=
  let minDim := min A.Height A.Width
  let diagABR := min diagABR minDim
  let sizeATL := minDim - diagABR
  let remHeight := A.Height - sizeATL
  let remWidth := A.Width - sizeATL
  Partition2x2.mk (A.View 0 0 sizeATL sizeATL) (A.View 0 sizeATL sizeATL remWidth)
    (A.View sizeATL 0 remHeight sizeATL) (A.View sizeATL sizeATL remHeight remWidth)

/-- Modelled from the spec: `LockedRepartitionUpDiagonal` is not under src/. It exposes
the block `A11` at the bottom-right corner of `ATL`, of order the block size, cut down to
what `ATL` holds. -/
def LockedRepartitionUpDiagonal (bsize : Nat) (P : Partition2x2 F U V) : Partition3x3 F U V :=
  let bsize := min bsize (min P.ATL.Height P.ATL.Width)
  let vOffset := P.ATL.Height - bsize
  let hOffset := P.ATL.Width - bsize
  Partition3x3.mk
    (P.ATL.View 0 0 vOffset hOffset) (P.ATL.View 0 hOffset vOffset bsize)
    (P.ATR.View 0 0 vOffset P.ATR.Width)
    (P.ATL.View vOffset 0 bsize hOffset) (P.ATL.View vOffset hOffset bsize bsize)
    (P.ATR.View vOffset 0 bsize P.ATR.Width)
    (P.ABL.View 0 0 P.ABL.Height hOffset) (P.ABL.View 0 hOffset P.ABL.Height bsize)
    (P.ABR.View 0 0 P.ABR.Height P.ABR.Width)

/-- Modelled from the spec: `SlideLockedPartitionUpDiagonal` is not under src/. It moves
the boundary up and left past the block row and column of `A11`: `ATL` becomes `A00` and
`ABR` takes `A11`, `A12`, `A21` and `A22`. -/
def SlideLockedPartitionUpDiagonal (P : Partition3x3 F U V) : Partition2x2 F U V :=
  Partition2x2.mk P.A00 (DistMatrix.View1x2 P.A01 P.A02) (DistMatrix.View2x1 P.A10 P.A20)
    (DistMatrix.View2x2 P.A11 P.A12 P.A21 P.A22)

/-- Modelled from the spec: `LockedPartitionDownDiagonal( A, ATL, ATR, ABL, ABR, diagATL )`
is not under src/. It splits `A` along the diagonal that starts at the top-left corner,
with `ATL` taking `diagATL` diagonal entries. -/
def LockedPartitionDownDiagonal (A : DistMatrix F U V) (diagATL : Nat) :
    Partition2x2 F U V :=
  let minDim := min A.Height A.Width
  let diagATL := min diagATL minDim
  let heightABR := A.Height - diagATL
  let widthABR := A.Width - diagATL
  Partition2x2.mk (A.View 0 0 diagATL diagATL) (A.View 0 diagATL diagATL widthABR)
    (A.View diagATL 0 heightABR diagATL) (A.View diagATL diagATL heightABR widthABR)

/-- Modelled from the spec: `LockedRepartitionDownDiagonal` is not under src/. It exposes
the block `A11` at the top-left corner of `ABR`, of order the block size, cut down to
what `ABR` holds. -/
def LockedRepartitionDownDiagonal (bsize : Nat) (P : Partition2x2 F U V) :
    Partition3x3 F U V :=
  let bsize := min bsize (min P.ABR.Height P.ABR.Width)
  let vOffset := P.ABR.Height - bsize
  let hOffset := P.ABR.Width - bsize
  Partition3x3.mk
    (P.ATL.View 0 0 P.ATL.Height P.ATL.Width) (P.ATR.View 0 0 P.ATL.Height bsize)
    (P.ATR.View 0 bsize P.ATL.Height hOffset)
    (P.ABL.View 0 0 bsize P.ABL.Width) (P.ABR.View 0 0 bsize bsize)
    (P.ABR.View 0 bsize bsize hOffset)
    (P.ABL.View bsize 0 vOffset P.ABL.Width) (P.ABR.View bsize 0 vOffset bsize)
    (P.ABR.View bsize bsize vOffset hOffset)

/-- Modelled from the spec: `SlideLockedPartitionDownDiagonal` is not under src/. It moves
the boundary down and right past the block row and column of `A11`: `ATL` takes `A00`,
`A01`, `A10` and `A11`, and `ABR` becomes `A22`. -/
def SlideLockedPartitionDownDiagonal (P : Partition3x3 F U V) : Partition2x2 F U V :=
  Partition2x2.mk (DistMatrix.View2x2 P.A00 P.A01 P.A10 P.A11) (DistMatrix.View2x1 P.A02 P.A12)
    (DistMatrix.View1x2 P.A20 P.A21) P.A22

end partitions

namespace advanced

namespace internal

open elemental.basic.internal

variable {R : Type}

/-- The height of the panel in ApplyPackedReflectorsLLVB (line 97):
`HPanHeight = H11.Height() + H21.Height()`. -/
def ApplyPackedReflectorsLLVB.HPanHeight (P : Partition3x3 R .MC .MR) : Int :=
  (P.A11.Height : Int) + (P.A21.Height : Int)

/-- The width of the panel in ApplyPackedReflectorsLLVB (line 98):
`HPanWidth = min( H11.Width(), max(HPanHeight+offset,0) )`. -/
def ApplyPackedReflectorsLLVB.HPanWidth (offset : Int) (P : Partition3x3 R .MC .MR) : Int :=
  min (P.A11.Width : Int) (max (ApplyPackedReflectorsLLVB.HPanHeight P + offset) 0)

/-- The partition of `H` after `m` iterations of the loop of ApplyPackedReflectorsLLVB:
the initial partition of line 77, then one repartition and one slide per iteration. -/
def ApplyPackedReflectorsLLVB.partition (bsize : Nat) (H : DistMatrix R .MC .MR) :
    Nat → Partition2x2 R .MC .MR
  | 0 => LockedPartitionUpDiagonal H 0
  | m + 1 =>
    SlideLockedPartitionUpDiagonal
      (LockedRepartitionUpDiagonal bsize (ApplyPackedReflectorsLLVB.partition bsize H m))

/-- The loop `while( HBR.Height() < H.Height() && HBR.Width() < H.Width() )` of the real
ApplyPackedReflectorsLLVB (lines 83-151). `bsize` is the algorithmic block size. What an
iteration does to `A` (the repartition of `A` and the update of `ABottom` between the
dashed lines, whose kernels are not under src/) is the parameter `panel`; `rangeWhat` is
the message of the error that a failing `LockedView` raises. -/
def ApplyPackedReflectorsLLVB.loop (bsize : Nat) (rangeWhat : String)
    (panel : Int → DistMatrix R .MC .MR → Partition3x3 R .MC .MR → DistMatrix R .MC .MR →
      DistMatrix R .MC .MR)
    (offset : Int) (H : DistMatrix R .MC .MR) :
    Nat → Partition2x2 R .MC .MR → DistMatrix R .MC .MR → Outcome (DistMatrix R .MC .MR)
  | fuel, P, A =>
    if P.ABR.Height < H.Height ∧ P.ABR.Width < H.Width then
      match fuel with
      | 0 => Outcome.unfinished
      | fuel + 1 =>
        let P3 := LockedRepartitionUpDiagonal bsize P
        let HPanHeight := ApplyPackedReflectorsLLVB.HPanHeight P3
        let HPanWidth := ApplyPackedReflectorsLLVB.HPanWidth offset P3
        match H.LockedView P3.A00.Height P3.A00.Width HPanHeight HPanWidth with
        | none => Outcome.logic_error rangeWhat A
        | some HPan =>
          ApplyPackedReflectorsLLVB.loop bsize rangeWhat panel offset H fuel
            (SlideLockedPartitionUpDiagonal P3) (panel offset HPan P3 A)
    else Outcome.returned A

/-- The part of the real ApplyPackedReflectorsLLVB that follows the entry checks (lines
59-151), in the shape of the parameter `algorithm` of `ApplyPackedReflectorsLLVB`. -/
def ApplyPackedReflectorsLLVB.algorithm (bsize fuel : Nat) (rangeWhat : String)
    (panel : Int → DistMatrix R .MC .MR → Partition3x3 R .MC .MR → DistMatrix R .MC .MR →
      DistMatrix R .MC .MR) :
    Int → DistMatrix R .MC .MR → DistMatrix R .MC .MR → Outcome (DistMatrix R .MC .MR) :=
  fun offset H A =>
    ApplyPackedReflectorsLLVB.loop bsize rangeWhat panel offset H fuel
      (LockedPartitionUpDiagonal H 0) A

/-- The width of the panel in ApplyPackedReflectorsRUHF (line 91):
`HPanWidth = H11.Width() + H12.Width()`. -/
def ApplyPackedReflectorsRUHF.HPanWidth (P : Partition3x3 R .MC .MR) : Int :=
  (P.A11.Width : Int) + (P.A12.Width : Int)

/-- The height of the panel in ApplyPackedReflectorsRUHF (line 92):
`HPanHeight = min( H11.Height(), max(HPanWidth-offset,0) )`. -/
def ApplyPackedReflectorsRUHF.HPanHeight (offset : Int) (P : Partition3x3 R .MC .MR) : Int :=
  min (P.A11.Height : Int) (max (ApplyPackedReflectorsRUHF.HPanWidth P - offset) 0)

/-- The partition of `H` after `m` iterations of the loop of ApplyPackedReflectorsRUHF:
the initial partition of line 76, then one repartition and one slide per iteration. -/
def ApplyPackedReflectorsRUHF.partition (bsize : Nat) (H : DistMatrix R .MC .MR) :
    Nat → Partition2x2 R .MC .MR
  | 0 => LockedPartitionDownDiagonal H 0
  | m + 1 =>
    SlideLockedPartitionDownDiagonal
      (LockedRepartitionDownDiagonal bsize (ApplyPackedReflectorsRUHF.partition bsize H m))

/-- The loop `while( HTL.Height() < H.Height() && HTL.Width() < H.Width() )` of the real
ApplyPackedReflectorsRUHF (lines 79-141), with the parameters of the LLVB loop. -/
def ApplyPackedReflectorsRUHF.loop (bsize : Nat) (rangeWhat : String)
    (panel : Int → DistMatrix R .MC .MR → Partition3x3 R .MC .MR → DistMatrix R .MC .MR →
      DistMatrix R .MC .MR)
    (offset : Int) (H : DistMatrix R .MC .MR) :
    Nat → Partition2x2 R .MC .MR → DistMatrix R .MC .MR → Outcome (DistMatrix R .MC .MR)
  | fuel, P, A =>
    if P.ATL.Height < H.Height ∧ P.ATL.Width < H.Width then
      match fuel with
      | 0 => Outcome.unfinished
      | fuel + 1 =>
        let P3 := LockedRepartitionDownDiagonal bsize P
        let HPanWidth := ApplyPackedReflectorsRUHF.HPanWidth P3
        let HPanHeight := ApplyPackedReflectorsRUHF.HPanHeight offset P3
        match H.LockedView P3.A00.Height P3.A00.Width HPanHeight HPanWidth with
        | none => Outcome.logic_error rangeWhat A
        | some HPan =>
          ApplyPackedReflectorsRUHF.loop bsize rangeWhat panel offset H fuel
            (SlideLockedPartitionDownDiagonal P3) (panel offset HPan P3 A)
    else Outcome.returned A

/-- The part of the real ApplyPackedReflectorsRUHF that follows the entry checks (lines
59-141), in the shape of the parameter `algorithm` of `ApplyPackedReflectorsRUHF`. -/
def ApplyPackedReflectorsRUHF.algorithm (bsize fuel : Nat) (rangeWhat : String)
    (panel : Int → DistMatrix R .MC .MR → Partition3x3 R .MC .MR → DistMatrix R .MC .MR →
      DistMatrix R .MC .MR) :
    Int → DistMatrix R .MC .MR → DistMatrix R .MC .MR → Outcome (DistMatrix R .MC .MR) :=
  fun offset H A =>
    ApplyPackedReflectorsRUHF.loop bsize rangeWhat panel offset H fuel
      (LockedPartitionDownDiagonal H 0) A

end internal

end advanced

end elemental

/-! ## The views of `HegstLUVar5` and the grid they are built on

`src/advanced/Hegst/HegstLUVar5.cpp`, lines 52-82: every view of `A` and of `U` is
constructed on the grid `g = A.Grid()` and then made a window of its matrix.
-/

namespace elemental

/-- Modelled from the spec: `LockedPartitionDownDiagonal( A, ATL, ATR, ABL, ABR, diagATL )`
where the four views were constructed on the grid `g`. The routine is not under src/; by
the spec "every DistributedMatrix referencing [a grid] must reference the same grid
instance for operations between them (cross-grid operations are an error)", and such an
"operation between two matrices on different grids" is "detected synchronously, locally,
before any communication is issued". `none` is that error. -/
def LockedPartitionDownDiagonal.onGrid {F : Type} {U V : Distribution} (g : Nat)
    (A : DistMatrix F U V) (diagATL : Nat) : Option (Partition2x2 F U V) :=
  if A.Grid = g then some (LockedPartitionDownDiagonal A diagATL) else none

namespace advanced

namespace internal

open elemental.basic elemental.basic.internal

variable {F : Type} [Field F] [StarRing F]

/-- The routine `advanced::internal::HegstLUVar5` (HegstLUVar5.cpp lines 38-160) with the
grid of its views tracked: after the entry checks, line 52 takes `g = A.Grid()`, lines
54-63 construct the views of `A` and of `U` on `g`, and lines 77-82 partition `A` and
`U` into them, before the loop issues its first redistribution. `mismatchWhat` is the
message of the error that a partition across grids raises. -/
def HegstLUVar5.onGrids (RELEASE : Bool) (mismatchWhat : String) (bsize fuel : Nat)
    (A U : DistMatrix F .MC .MR) : Outcome (DistMatrix F .MC .MR) :=
  if !RELEASE && decide (A.Height ≠ A.Width) then
    Outcome.logic_error "A must be square." A
  else if !RELEASE && decide (U.Height ≠ U.Width) then
    Outcome.logic_error "Triangular matrices must be square." A
  else if !RELEASE && decide (A.Height ≠ U.Height) then
    Outcome.logic_error "A and U must be the same size." A
  else
    let g := A.Grid
    match LockedPartitionDownDiagonal.onGrid g A 0,
      LockedPartitionDownDiagonal.onGrid g U 0 with
    | some _, some _ =>
      match HegstLUVar5.loop bsize U fuel 0 A with
      | some A' => Outcome.returned A'
      | none => Outcome.unfinished
    | _, _ => Outcome.logic_error mismatchWhat A

end internal

end advanced

end elemental

namespace El

namespace hessenberg

/-- The state that the first iteration leaves for a panel of width 2 of the 3 x 3 matrix
`examplePanelA`, with `exampleReflector` for LeftReflector. -/
def examplePanelState : UpperPanel.State ℚ :=
  UpperPanel.loop exampleReflector 3 1
    (UpperPanel.init examplePanelA examplePanelEmpty examplePanelU)

end hessenberg

end El

/-! ## Index arithmetic of the cyclic distribution -/

namespace elemental.utilities

theorem Owner_nonneg (i a s : Int) (hs : 0 < s) : 0 ≤ Owner i a s :=
  Int.emod_nonneg _ (ne_of_gt hs)

theorem Owner_lt (i a s : Int) (hs : 0 < s) : Owner i a s < s :=
  Int.emod_lt_of_pos _ hs

theorem Owns_iff (c a s : Int) (i : Nat) : Owns c a s i = true ↔ Owner i a s = c := by
  simp [Owns]

/-- Searching `range n` returns the least index satisfying the predicate. -/
theorem range_find_first (P : Nat → Bool) (n k : Nat) (hk : k < n) (hP : P k = true)
    (hmin : ∀ j, j < k → P j = false) : (List.range n).find? P = some k := by
  induction n with
  | zero => omega
  | succ n ih =>
    rw [List.range_succ, List.find?_append]
    rcases Nat.lt_or_ge k n with h | h
    · rw [ih h]; rfl
    · have hkn : k = n := by omega
      subst hkn
      have hnone : (List.range k).find? P = none := by
        rw [List.find?_eq_none]
        intro x hx
        have := hmin x (List.mem_range.mp hx)
        simp [this]
      rw [hnone]
      simp [List.find?, hP]

/-- The coordinate `c` owns index `(c - a) mod s`. -/
theorem Owner_closed_shift (c a s : Int) (hc0 : 0 ≤ c) (hc : c < s) :
    Owner ((c + s - a) % s) a s = c := by
  rw [Owner, Int.add_emod_emod]
  have : a + (c + s - a) = c + s := by ring
  rw [this, Int.add_emod_self, Int.emod_eq_of_lt hc0 hc]

/-- No index below `(c - a) mod s` is owned by the coordinate `c`. -/
theorem Owner_below_closed_shift (c a s j : Int) (hj0 : 0 ≤ j) (hj : j < (c + s - a) % s)
    (hs : 0 < s) : Owner j a s ≠ c := by
  intro hO
  rw [Owner] at hO
  have hklt : (c + s - a) % s < s := Int.emod_lt_of_pos _ hs
  have hjs : j < s := by omega
  have h1 : (c + s - a) % s = j := by
    rw [← hO, Int.add_sub_assoc, Int.emod_add_emod]
    have : a + j + (s - a) = j + s := by ring
    rw [this, Int.add_emod_self, Int.emod_eq_of_lt hj0 hjs]
  omega

/-- The closed form of the shift: the coordinate `c` first owns index `(c - a) mod s`. -/
theorem Shift_closed (c a s : Int) (hs : 0 < s) (hc0 : 0 ≤ c) (hc : c < s) :
    Shift c a s = (c + s - a) % s := by
  have hk0 : 0 ≤ (c + s - a) % s := Int.emod_nonneg _ (ne_of_gt hs)
  have hklt : (c + s - a) % s < s := Int.emod_lt_of_pos _ hs
  have hcast : (((c + s - a) % s).toNat : Int) = (c + s - a) % s := Int.toNat_of_nonneg hk0
  have hfind : (List.range s.toNat).find? (Owns c a s) = some ((c + s - a) % s).toNat := by
    apply range_find_first
    · omega
    · rw [Owns_iff, hcast]
      exact Owner_closed_shift c a s hc0 hc
    · intro j hj
      cases hO : Owns c a s j with
      | false => rfl
      | true =>
        exfalso
        rw [Owns_iff] at hO
        exact Owner_below_closed_shift c a s j (Int.ofNat_zero_le j) (by omega) hs hO
  unfold Shift
  rw [hfind]
  exact hcast

/-- Ownership is membership in the shift's residue class. -/
theorem Owner_eq_iff_shift (i c a s : Int) (hs : 0 < s) (hc0 : 0 ≤ c) (hc : c < s) :
    Owner i a s = c ↔ (i - Shift c a s) % s = 0 := by
  rw [Shift_closed c a s hs hc0 hc, Owner]
  constructor
  · intro h
    have hd1 : s ∣ (a + i) - c := Int.dvd_sub_of_emod_eq h
    have hd2 : s ∣ (c + s - a) - (c + s - a) % s := Int.dvd_sub_of_emod_eq rfl
    have : i - (c + s - a) % s = ((a + i) - c) + ((c + s - a) - (c + s - a) % s) - s := by ring
    rw [this]
    exact Int.emod_eq_zero_of_dvd (dvd_sub (dvd_add hd1 hd2) (dvd_refl s))
  · intro h
    have hd : s ∣ i - (c + s - a) % s := Int.dvd_of_emod_eq_zero h
    have hd2 : s ∣ (c + s - a) - (c + s - a) % s := Int.dvd_sub_of_emod_eq rfl
    have hd3 : s ∣ (a + i) - c := by
      have : (a + i) - c = (i - (c + s - a) % s) - ((c + s - a) - (c + s - a) % s) + s := by ring
      rw [this]
      exact dvd_add (dvd_sub hd hd2) (dvd_refl s)
    obtain ⟨q, hq⟩ := hd3
    have : a + i = c + s * q := by linarith
    rw [this, Int.add_mul_emod_self_left, Int.emod_eq_of_lt hc0 hc]

/-- Every global index below `n` has exactly one owner, so the counts add up to `n`. -/
theorem countP_Owns_sum (n p : Nat) (a : Int) (hp : 0 < p) :
    (∑ r in Finset.range p, (List.range n).countP (Owns (r : Int) a (p : Int))) = n := by
  induction n with
  | zero => simp
  | succ n ih =>
    simp only [List.range_succ, List.countP_append, Finset.sum_add_distrib, ih,
      List.countP_singleton]
    congr 1
    have hps : (0 : Int) < (p : Int) := by exact_mod_cast hp
    have h0 := Owner_nonneg n a p hps
    have hlt := Owner_lt n a p hps
    rw [Finset.sum_eq_single (Owner n a p).toNat]
    · simp [Owns, Int.toNat_of_nonneg h0]
    · intro b _ hb
      have : Owns (b : Int) a (p : Int) n = false := by
        simp only [Owns, decide_eq_false_iff_not]
        intro h
        apply hb
        rw [h]
        simp
      simp [this]
    · intro hnot
      exfalso
      apply hnot
      rw [Finset.mem_range]
      omega

end elemental.utilities

namespace elemental.utilities

/-- Counting the owned indices for stride 3: the count grows by one at every third index. -/
theorem countP_three (a c : Int) (k : Nat) (hk : k < 3)
    (h : ∀ n : Nat, (a + (n : Int)) % 3 = c ↔ (n + k) % 3 = 2) (n : Nat) :
    (List.range n).countP (Owns c a 3) = (n + k) / 3 := by
  induction n with
  | zero => simp; omega
  | succ n ih =>
    rw [List.range_succ, List.countP_append, ih, List.countP_singleton]
    by_cases hn : (n + k) % 3 = 2
    · have : Owns c a 3 n = true := by rw [Owns_iff, Owner]; exact (h n).mpr hn
      rw [this]
      simp
      omega
    · have : Owns c a 3 n = false := by
        cases hO : Owns c a 3 n with
        | false => rfl
        | true => rw [Owns_iff, Owner] at hO; exact absurd ((h n).mp hO) hn
      rw [this]
      simp
      omega

theorem LocalLength_natCast (n : Nat) (c a s : Int) :
    LocalLength n c a s = (((List.range n).countP (Owns c a s) : Nat) : Int) := by
  simp [LocalLength]

/-- Integer division steps by one exactly at the multiples of the divisor. -/
theorem ediv_succ (x s : Int) (hs : 0 < s) :
    (x + 1) / s = x / s + (if (x + 1) % s = 0 then 1 else 0) := by
  have hx : s * (x / s) + x % s = x := Int.ediv_add_emod x s
  have hr0 : 0 ≤ x % s := Int.emod_nonneg _ (ne_of_gt hs)
  have hr1 : x % s < s := Int.emod_lt_of_pos _ hs
  have hx1 : x + 1 = (x % s + 1) + s * (x / s) := by linarith
  by_cases hr : x % s + 1 = s
  · have hmod : (x + 1) % s = 0 := by
      rw [hx1, hr]
      simp
    have hdiv : (x + 1) / s = x / s + 1 := by
      rw [hx1, hr, Int.add_mul_ediv_left _ _ (ne_of_gt hs), Int.ediv_self (ne_of_gt hs)]
      ring
    rw [hdiv, if_pos hmod]
  · have hlt : x % s + 1 < s := by omega
    have hmod : (x + 1) % s = x % s + 1 := by
      rw [hx1, Int.add_mul_emod_self_left, Int.emod_eq_of_lt (by omega) hlt]
    have hdiv : (x + 1) / s = x / s := by
      rw [hx1, Int.add_mul_ediv_left _ _ (ne_of_gt hs), Int.ediv_eq_zero_of_lt (by omega) hlt]
      ring
    rw [hdiv, if_neg (by omega)]
    ring

/-- The closed form of the local length: when `n` exceeds the shift the process owns
`(n - shift - 1) / s + 1` indices below `n`, else none. -/
theorem LocalLength_closed (n : Nat) (c a s : Int) (hs : 0 < s) (hc0 : 0 ≤ c) (hc : c < s) :
    LocalLength n c a s
      = if Shift c a s < (n : Int) then ((n : Int) - Shift c a s - 1) / s + 1 else 0 := by
  have hσ : Shift c a s = (c + s - a) % s := Shift_closed c a s hs hc0 hc
  have hσ0 : 0 ≤ Shift c a s := by rw [hσ]; exact Int.emod_nonneg _ (ne_of_gt hs)
  induction n with
  | zero =>
    rw [if_neg (by push_cast; omega)]
    rfl
  | succ n ih =>
    have hstep : LocalLength ((n + 1 : Nat) : Int) c a s
        = LocalLength (n : Int) c a s + (if Owner n a s = c then 1 else 0) := by
      simp only [LocalLength_natCast, List.range_succ, List.countP_append,
        List.countP_singleton, Owns]
      push_cast
      congr 1
      by_cases h : Owner n a s = c <;> simp [h]
    rw [hstep, ih]
    rcases lt_trichotomy (n : Int) (Shift c a s) with hlt | heq | hgt
    · have hne : Owner n a s ≠ c :=
        Owner_below_closed_shift c a s n (Int.ofNat_zero_le n) (by rw [← hσ]; exact hlt) hs
      have h1 : ¬ Shift c a s < (n : Int) := by omega
      have h2 : ¬ Shift c a s < ((n + 1 : Nat) : Int) := by push_cast; omega
      rw [if_neg h1, if_neg hne, if_neg h2]
      rfl
    · have hown : Owner n a s = c := by
        rw [heq, hσ]
        exact Owner_closed_shift c a s hc0 hc
      have h1 : ¬ Shift c a s < (n : Int) := by omega
      have h2 : Shift c a s < ((n + 1 : Nat) : Int) := by push_cast; omega
      rw [if_neg h1, if_pos hown, if_pos h2]
      have : ((n + 1 : Nat) : Int) - Shift c a s - 1 = 0 := by push_cast; omega
      rw [this]
      simp
    · have h2 : Shift c a s < ((n + 1 : Nat) : Int) := by push_cast; omega
      rw [if_pos hgt, if_pos h2]
      have e : ((n + 1 : Nat) : Int) - Shift c a s - 1 = ((n : Int) - Shift c a s - 1) + 1 := by
        push_cast
        ring
      rw [e, ediv_succ _ s hs]
      have hiff : (Owner n a s = c) ↔ ((n : Int) - Shift c a s - 1 + 1) % s = 0 := by
        rw [Owner_eq_iff_shift n c a s hs hc0 hc]
        have : (n : Int) - Shift c a s - 1 + 1 = (n : Int) - Shift c a s := by ring
        rw [this]
      by_cases h : Owner n a s = c
      · rw [if_pos h, if_pos (hiff.mp h)]
      · rw [if_neg h, if_neg (fun h' => h (hiff.mpr h'))]
        ring

end elemental.utilities

/-! ## The blocked triangular solve -/

namespace elemental.basic.internal

variable {F : Type} [Field F]

/-- Substitution over `w` columns solves the first `w` columns of `X triu(U) = B` and
leaves the other columns as they were. -/
theorem TrsmColumns_spec (diagonal : Diagonal) (U B : Nat → Nat → F) (w : Nat)
    (hd : ∀ c, c < w → diag diagonal U c ≠ 0) :
    (∀ i c, w ≤ c → TrsmColumns diagonal U B w i c = B i c) ∧
    (∀ i c, c < w →
      (∑ l in Finset.range c, TrsmColumns diagonal U B w i l * U l c)
        + TrsmColumns diagonal U B w i c * diag diagonal U c = B i c) := by
  induction w with
  | zero => exact ⟨fun i c _ => rfl, fun i c hc => absurd hc (Nat.not_lt_zero c)⟩
  | succ w ih =>
    obtain ⟨ih1, ih2⟩ := ih (fun c hc => hd c (Nat.lt_succ_of_lt hc))
    constructor
    · intro i c hc
      have hne : c ≠ w := by omega
      simp only [TrsmColumns, TrsmColumn, if_neg hne]
      exact ih1 i c (by omega)
    · intro i c hc
      have hsum : ∀ c', c' ≤ w → (∑ l in Finset.range c', TrsmColumns diagonal U B (w + 1) i l * U l c)
          = ∑ l in Finset.range c', TrsmColumns diagonal U B w i l * U l c := by
        intro c' hc'
        apply Finset.sum_congr rfl
        intro l hl
        have hne : l ≠ w := by have := Finset.mem_range.mp hl; omega
        simp only [TrsmColumns, TrsmColumn, if_neg hne]
      rcases Nat.lt_or_ge c w with h | h
      · rw [hsum c (by omega)]
        have hne : c ≠ w := by omega
        simp only [TrsmColumns, TrsmColumn, if_neg hne]
        exact ih2 i c h
      · have hcw : c = w := by omega
        subst hcw
        rw [hsum c (le_refl c)]
        have hdc : diag diagonal U c ≠ 0 := hd c (Nat.lt_succ_self c)
        simp only [TrsmColumns, TrsmColumn, if_true]
        rw [ih1 i c (le_refl c)]
        rw [div_mul_cancel₀ _ hdc]
        ring

/-- The entries of `X` after one iteration: the columns left of the block are kept, the
block holds the local solve, the columns right of it are updated by the product. -/
theorem iteration_zones (bsize : Nat) (diagonal : Diagonal) (U : DistMatrix F .MC .MR)
    (check : Bool) (k : Nat) (X : DistMatrix F .MC .MR) (hk : k < X.Width) :
    (TrsmRUN.iteration bsize diagonal U check k X).Height = X.Height ∧
    (TrsmRUN.iteration bsize diagonal U check k X).Width = X.Width ∧
    (∀ i j, j < k → (TrsmRUN.iteration bsize diagonal U check k X).Get i j = X.Get i j) ∧
    (∀ i j, i < X.Height → k ≤ j → j < k + min bsize (X.Width - k) →
      (TrsmRUN.iteration bsize diagonal U check k X).Get i j
        = TrsmColumns diagonal (fun r c => U.Get (k + r) (k + c)) (fun r c => X.Get r (k + c))
            (min bsize (X.Width - k)) i (j - k)) ∧
    (∀ i j, i < X.Height → k + min bsize (X.Width - k) ≤ j → j < X.Width →
      (TrsmRUN.iteration bsize diagonal U check k X).Get i j
        = X.Get i j - ∑ l in Finset.range (min bsize (X.Width - k)),
            TrsmColumns diagonal (fun r c => U.Get (k + r) (k + c)) (fun r c => X.Get r (k + c))
              (min bsize (X.Width - k)) i l * U.Get (k + l) j) := by
  have hnb : k + min bsize (X.Width - k) ≤ X.Width := by omega
  refine ⟨rfl, rfl, ?_, ?_, ?_⟩
  · intro i j hj
    simp only [TrsmRUN.iteration, DistMatrix.Store, DistMatrix.View, DistMatrix.assign,
      LocalTrsm, LocalGemm]
    rw [if_neg (by omega), if_neg (by omega)]
  · intro i j hi hj1 hj2
    simp only [TrsmRUN.iteration, DistMatrix.Store, DistMatrix.View, DistMatrix.assign,
      LocalTrsm, LocalGemm]
    rw [if_neg (by omega), if_pos (by omega)]
    simp
  · intro i j hi hj1 hj2
    simp only [TrsmRUN.iteration, DistMatrix.Store, DistMatrix.View, DistMatrix.assign,
      LocalTrsm, LocalGemm]
    rw [if_pos (by omega), if_neg (by omega)]
    have hj : k + min bsize (X.Width - k) + (j - (k + min bsize (X.Width - k))) = j := by omega
    simp only [hj, Nat.sub_zero, Nat.zero_add, one_mul]
    ring

/-- One iteration of the loop carries the invariant from `k` to `k + nb` columns. -/
theorem iteration_Inv (m n bsize : Nat) (diagonal : Diagonal) (U : DistMatrix F .MC .MR)
    (B : Nat → Nat → F) (check : Bool) (k : Nat) (X : DistMatrix F .MC .MR)
    (hd : ∀ j, j < n → diag diagonal U.Get j ≠ 0)
    (hk : k < n) (hI : TrsmRUN.Inv m n diagonal U.Get B k X) :
    TrsmRUN.Inv m n diagonal U.Get B (k + min bsize (n - k))
      (TrsmRUN.iteration bsize diagonal U check k X) := by
  obtain ⟨hH, hW, hS, hP⟩ := hI
  subst hH hW
  obtain ⟨zH, zW, z1, z2, z3⟩ := iteration_zones bsize diagonal U check k X hk
  have hnb : k + min bsize (X.Width - k) ≤ X.Width := by omega
  have hdY : ∀ c, c < min bsize (X.Width - k) →
      diag diagonal (fun r c => U.Get (k + r) (k + c)) c ≠ 0 := by
    intro c hc
    have := hd (k + c) (by omega)
    simpa [diag] using this
  obtain ⟨_, hY⟩ := TrsmColumns_spec diagonal (fun r c => U.Get (k + r) (k + c))
    (fun r c => X.Get r (k + c)) (min bsize (X.Width - k)) hdY
  refine ⟨zH, zW, ?_, ?_⟩
  · intro i j hi hj
    rcases Nat.lt_or_ge j k with hjk | hjk
    · rw [z1 i j hjk, ← hS i j hi hjk]
      congr 1
      apply Finset.sum_congr rfl
      intro l hl
      rw [z1 i l (by have := Finset.mem_range.mp hl; omega)]
    · have hjc : k + (j - k) = j := by omega
      have h2 := hY i (j - k) (by omega)
      simp only [hjc] at h2
      have hX := hP i j hi hjk (by omega)
      rw [← hjc, Finset.sum_range_add, hjc]
      have e1 : (∑ l in Finset.range k,
          (TrsmRUN.iteration bsize diagonal U check k X).Get i l * U.Get l j)
          = ∑ l in Finset.range k, X.Get i l * U.Get l j := by
        apply Finset.sum_congr rfl
        intro l hl
        rw [z1 i l (Finset.mem_range.mp hl)]
      have e2 : (∑ l in Finset.range (j - k),
          (TrsmRUN.iteration bsize diagonal U check k X).Get i (k + l) * U.Get (k + l) j)
          = ∑ l in Finset.range (j - k),
              TrsmColumns diagonal (fun r c => U.Get (k + r) (k + c))
                (fun r c => X.Get r (k + c)) (min bsize (X.Width - k)) i l * U.Get (k + l) j := by
        apply Finset.sum_congr rfl
        intro l hl
        have hl' := Finset.mem_range.mp hl
        rw [z2 i (k + l) hi (by omega) (by omega)]
        simp
      rw [e1, e2, z2 i j hi hjk (by omega)]
      have hdj : diag diagonal (fun r c => U.Get (k + r) (k + c)) (j - k)
          = diag diagonal U.Get j := by
        simp [diag, hjc]
      rw [hdj] at h2
      rw [hX] at h2
      linear_combination h2
  · intro i j hi hjk hjn
    rw [z3 i j hi hjk hjn, hP i j hi (by omega) hjn, Finset.sum_range_add]
    have e1 : (∑ l in Finset.range k,
        (TrsmRUN.iteration bsize diagonal U check k X).Get i l * U.Get l j)
        = ∑ l in Finset.range k, X.Get i l * U.Get l j := by
      apply Finset.sum_congr rfl
      intro l hl
      rw [z1 i l (Finset.mem_range.mp hl)]
    have e2 : (∑ l in Finset.range (min bsize (X.Width - k)),
        (TrsmRUN.iteration bsize diagonal U check k X).Get i (k + l) * U.Get (k + l) j)
        = ∑ l in Finset.range (min bsize (X.Width - k)),
            TrsmColumns diagonal (fun r c => U.Get (k + r) (k + c))
              (fun r c => X.Get r (k + c)) (min bsize (X.Width - k)) i l * U.Get (k + l) j := by
      apply Finset.sum_congr rfl
      intro l hl
      have hl' := Finset.mem_range.mp hl
      rw [z2 i (k + l) hi (by omega) (by omega)]
      simp
    rw [e1, e2]
    ring

/-- With a block size of at least one and fuel for every remaining column the loop ends,
and it ends with the invariant at `n` columns. -/
theorem loop_Inv (m n bsize : Nat) (hb : 1 ≤ bsize) (diagonal : Diagonal)
    (U : DistMatrix F .MC .MR) (B : Nat → Nat → F) (check : Bool)
    (hd : ∀ j, j < n → diag diagonal U.Get j ≠ 0) :
    ∀ (fuel k : Nat) (X : DistMatrix F .MC .MR), n ≤ k + fuel → k ≤ n →
      TrsmRUN.Inv m n diagonal U.Get B k X →
      ∃ X', TrsmRUN.loop bsize diagonal U check fuel k X = some X' ∧
        TrsmRUN.Inv m n diagonal U.Get B n X' := by
  intro fuel
  induction fuel with
  | zero =>
    intro k X hf hk hI
    have hkn : k = n := by omega
    subst hkn
    refine ⟨X, ?_, hI⟩
    rw [TrsmRUN.loop, if_neg (by rw [hI.width]; omega)]
  | succ fuel ih =>
    intro k X hf hk hI
    rcases Nat.lt_or_ge k n with hlt | hge
    · rw [TrsmRUN.loop, if_pos (by rw [hI.width]; omega)]
      simp only [hI.width]
      apply ih
      · omega
      · omega
      · exact iteration_Inv m n bsize diagonal U B check k X hd hlt hI
    · have hkn : k = n := by omega
      subst hkn
      refine ⟨X, ?_, hI⟩
      rw [TrsmRUN.loop, if_neg (by rw [hI.width]; omega)]

/-- The invariant at `n` columns says `X triu(U) = B` for the leading blocks. -/
theorem Inv_mul_triu (m n : Nat) (diagonal : Diagonal) (U B : Nat → Nat → F)
    (X : DistMatrix F .MC .MR) (hI : TrsmRUN.Inv m n diagonal U B n X) :
    toMatrix m n X.Get * triu diagonal U n = toMatrix m n B := by
  ext i j
  rw [Matrix.mul_apply]
  have hj : (j : Nat) < n := j.isLt
  have key : (∑ l : Fin n, toMatrix m n X.Get i l * triu diagonal U n l j)
      = ∑ l in Finset.range n, X.Get i l *
          (if l < (j : Nat) then U l j else if l = (j : Nat) then diag diagonal U j else 0) := by
    rw [← Fin.sum_univ_eq_sum_range
      (fun l => X.Get i l *
        (if l < (j : Nat) then U l j else if l = (j : Nat) then diag diagonal U j else 0)) n]
    rfl
  rw [key]
  have hsplit : ∀ f : Nat → F, (∑ l in Finset.range n, f l)
      = (∑ l in Finset.range (j : Nat), f l) + f (j : Nat)
        + ∑ l in Finset.range (n - ((j : Nat) + 1)), f ((j : Nat) + 1 + l) := by
    intro f
    rw [← Finset.sum_range_succ, ← Finset.sum_range_add]
    congr 2
    omega
  rw [hsplit]
  have e1 : (∑ l in Finset.range (j : Nat), X.Get i l *
      (if l < (j : Nat) then U l j else if l = (j : Nat) then diag diagonal U j else 0))
      = ∑ l in Finset.range (j : Nat), X.Get i l * U l j := by
    apply Finset.sum_congr rfl
    intro l hl
    rw [if_pos (Finset.mem_range.mp hl)]
  have e2 : (∑ l in Finset.range (n - ((j : Nat) + 1)), X.Get i ((j : Nat) + 1 + l) *
      (if (j : Nat) + 1 + l < (j : Nat) then U ((j : Nat) + 1 + l) j
        else if (j : Nat) + 1 + l = (j : Nat) then diag diagonal U j else 0)) = 0 := by
    apply Finset.sum_eq_zero
    intro l _
    rw [if_neg (by omega), if_neg (by omega), mul_zero]
  rw [e1, e2, if_neg (Nat.lt_irrefl _), if_pos rfl, add_zero]
  have := hI.solved i j i.isLt hj
  rw [this]
  rfl

/-- The matrix `triu(U)` is invertible when its diagonal has no zero. -/
theorem triu_det_isUnit (n : Nat) (diagonal : Diagonal) (U : Nat → Nat → F)
    (hd : ∀ j, j < n → diag diagonal U j ≠ 0) : IsUnit (triu diagonal U n).det := by
  have htri : (triu diagonal U n).BlockTriangular id := by
    intro l j hlj
    have h : (j : Nat) < (l : Nat) := hlj
    simp only [triu, Matrix.of_apply]
    rw [if_neg (by omega), if_neg (by omega)]
  rw [Matrix.det_of_upperTriangular htri, isUnit_iff_ne_zero, Finset.prod_ne_zero_iff]
  intro j _
  simpa [triu] using hd j j.isLt

end elemental.basic.internal

/-! ## Redistribution preserves the global entries -/

namespace El

/-- The packed buffer has one entry per owned row and column. -/
theorem Pack_length {α : Type} (A : Nat → Nat → α) (rows cols : List Nat) :
    (Pack A rows cols).length = cols.length * rows.length := by
  induction cols with
  | nil => simp [Pack]
  | cons c cs ih =>
    simp only [Pack, List.map_cons, List.flatten_cons, List.length_append, List.length_map,
      List.length_cons] at ih ⊢
    rw [ih]
    ring

/-- Column-major addressing of the packed buffer. -/
theorem Pack_getElem? {α : Type} (A : Nat → Nat → α) (rows : List Nat) :
    ∀ (cols : List Nat) (il jl : Nat) (hil : il < rows.length) (hjl : jl < cols.length),
      (Pack A rows cols)[il + jl * rows.length]? = some (A (rows.get ⟨il, hil⟩) (cols.get ⟨jl, hjl⟩)) := by
  intro cols
  induction cols with
  | nil => intro il jl _ hjl; simp at hjl
  | cons c cs ih =>
    intro il jl hil hjl
    have hP : Pack A rows (c :: cs) = rows.map (fun i => A i c) ++ Pack A rows cs := by
      simp [Pack]
    rw [hP]
    cases jl with
    | zero =>
      rw [Nat.zero_mul, Nat.add_zero, List.getElem?_append_left (by simpa using hil)]
      simp [List.getElem?_eq_getElem hil]
    | succ jl =>
      have hlen : (rows.map (fun i => A i c)).length ≤ il + (jl + 1) * rows.length := by
        simp only [List.length_map]
        nlinarith
      rw [List.getElem?_append_right hlen]
      have : il + (jl + 1) * rows.length - (rows.map (fun i => A i c)).length
          = il + jl * rows.length := by
        simp only [List.length_map]
        rw [Nat.add_mul, Nat.one_mul, ← Nat.add_assoc, Nat.add_sub_cancel]
      rw [this, ih il jl hil (by simpa using hjl)]
      simp

/-- Packing reads only the entries at the given rows and columns. -/
theorem Pack_congr {α : Type} (A B : Nat → Nat → α) (rows cols : List Nat)
    (h : ∀ i, i ∈ rows → ∀ j, j ∈ cols → A i j = B i j) : Pack A rows cols = Pack B rows cols := by
  unfold Pack
  congr 1
  apply List.map_congr_left
  intro j hj
  apply List.map_congr_left
  intro i hi
  exact h i hi j hj

/-- Every grid coordinate belongs to a process of the grid. -/
theorem exists_rank (g : Grid) (row col : Nat) (hrow : row < g.Height) (hcol : col < g.Width) :
    ∃ q, q < g.Size ∧ g.Row q = row ∧ g.Col q = col := by
  refine ⟨row + col * g.Height, ?_, ?_, ?_⟩
  · unfold Grid.Size
    calc row + col * g.Height < g.Height + col * g.Height := by omega
      _ = (col + 1) * g.Height := by ring
      _ ≤ g.Width * g.Height := Nat.mul_le_mul_right _ hcol
      _ = g.Height * g.Width := Nat.mul_comm _ _
  · unfold Grid.Row
    rw [Nat.add_mul_mod_self_right, Nat.mod_eq_of_lt hrow]
  · unfold Grid.Col
    rw [Nat.add_mul_div_right _ _ (by omega), Nat.div_eq_of_lt hrow, Nat.zero_add]

/-- Every entry has an owner under each of the fourteen distributions. -/
theorem Legal_covers (g : Grid) (hr : 0 < g.Height) (hc : 0 < g.Width) (d : DistData)
    (hl : d.Legal = true) (hroot : d.colDist = Dist.CIRC → d.root < g.Size) (i j : Nat) :
    ∃ q, q < g.Size ∧ Stores g d q i j = true := by
  have hs : 0 < g.Size := Nat.mul_pos hr hc
  have hlcm : 0 < Nat.lcm g.Height g.Width := Nat.lcm_pos hr hc
  have hVC : ∀ x, ∃ q, q < g.Size ∧ g.Row q + g.Col q * g.Height = x % g.Size := by
    intro x
    refine ⟨x % g.Size, Nat.mod_lt _ hs, ?_⟩
    unfold Grid.Row Grid.Col
    exact Nat.mod_add_div' _ _
  have hVR : ∀ x, ∃ q, q < g.Size ∧ g.Col q + g.Row q * g.Width = x % g.Size := by
    intro x
    have hlt : x % g.Size < g.Height * g.Width := Nat.mod_lt _ hs
    obtain ⟨q, hq, h1, h2⟩ := exists_rank g (x % g.Size / g.Width) (x % g.Size % g.Width)
      (Nat.div_lt_of_lt_mul (by rw [Nat.mul_comm]; exact hlt)) (Nat.mod_lt _ hc)
    refine ⟨q, hq, ?_⟩
    rw [h1, h2]
    exact Nat.mod_add_div' _ _
  have hMD : ∀ x, ∃ q, q < g.Size ∧ g.Row q = x % Nat.lcm g.Height g.Width % g.Height ∧
      g.Col q = x % Nat.lcm g.Height g.Width % g.Width := by
    intro x
    exact exists_rank g _ _ (Nat.mod_lt _ hr) (Nat.mod_lt _ hc)
  rcases d with ⟨cd, rd, ca, ra, root⟩
  cases cd <;> cases rd <;> simp [DistData.Legal] at hl
  · obtain ⟨q, hq, h1, h2⟩ := exists_rank g ((i + ca) % g.Height) ((j + ra) % g.Width)
      (Nat.mod_lt _ hr) (Nat.mod_lt _ hc)
    exact ⟨q, hq, by simp [Stores, Owns, h1, h2]⟩
  · obtain ⟨q, hq, h1, _⟩ := exists_rank g ((i + ca) % g.Height) 0 (Nat.mod_lt _ hr) hc
    exact ⟨q, hq, by simp [Stores, Owns, h1]⟩
  · obtain ⟨q, hq, h1, h2⟩ := hMD (i + ca)
    exact ⟨q, hq, by simp [Stores, Owns, h1, h2]⟩
  · obtain ⟨q, hq, h1, h2⟩ := exists_rank g ((j + ra) % g.Height) ((i + ca) % g.Width)
      (Nat.mod_lt _ hr) (Nat.mod_lt _ hc)
    exact ⟨q, hq, by simp [Stores, Owns, h1, h2]⟩
  · obtain ⟨q, hq, _, h2⟩ := exists_rank g 0 ((i + ca) % g.Width) hr (Nat.mod_lt _ hc)
    exact ⟨q, hq, by simp [Stores, Owns, h2]⟩
  · obtain ⟨q, hq, h⟩ := hVC (i + ca)
    exact ⟨q, hq, by simp [Stores, Owns, h]⟩
  · obtain ⟨q, hq, h⟩ := hVR (i + ca)
    exact ⟨q, hq, by simp [Stores, Owns, h]⟩
  · obtain ⟨q, hq, h1, _⟩ := exists_rank g ((j + ra) % g.Height) 0 (Nat.mod_lt _ hr) hc
    exact ⟨q, hq, by simp [Stores, Owns, h1]⟩
  · obtain ⟨q, hq, h1, h2⟩ := hMD (j + ra)
    exact ⟨q, hq, by simp [Stores, Owns, h1, h2]⟩
  · obtain ⟨q, hq, _, h2⟩ := exists_rank g 0 ((j + ra) % g.Width) hr (Nat.mod_lt _ hc)
    exact ⟨q, hq, by simp [Stores, Owns, h2]⟩
  · obtain ⟨q, hq, h⟩ := hVC (j + ra)
    exact ⟨q, hq, by simp [Stores, Owns, h]⟩
  · obtain ⟨q, hq, h⟩ := hVR (j + ra)
    exact ⟨q, hq, by simp [Stores, Owns, h]⟩
  · exact ⟨0, hs, by simp [Stores, Owns]⟩
  · exact ⟨root, hroot rfl, by simp [Stores, Owns]⟩

/-- Reading a freshly distributed matrix returns the global entry. -/
theorem Get_FromGlobal {α : Type} [Inhabited α] (g : Grid) (d : DistData) (m n : Nat)
    (A : Nat → Nat → α) (i j : Nat) (hi : i < m) (hj : j < n)
    (hcov : ∃ q, q < g.Size ∧ Stores g d q i j = true) :
    (DistMatrix.FromGlobal g d m n A).Get i j = A i j := by
  obtain ⟨q0, hq0, hS0⟩ := hcov
  have hfind : ∃ q, (List.range g.Size).find? (fun q => Stores g d q i j) = some q ∧
      Stores g d q i j = true := by
    cases h : (List.range g.Size).find? (fun q => Stores g d q i j) with
    | none =>
      rw [List.find?_eq_none] at h
      exact absurd hS0 (h q0 (List.mem_range.mpr hq0))
    | some q =>
      have hq := List.find?_some h
      exact ⟨q, rfl, hq⟩
  obtain ⟨q, hq, hS⟩ := hfind
  simp only [Stores, Bool.and_eq_true] at hS
  have hrow : i ∈ LocalRows g d m q := by
    simp only [LocalRows, List.mem_filter, List.mem_range]
    exact ⟨hi, hS.1⟩
  have hcol : j ∈ LocalCols g d n q := by
    simp only [LocalCols, List.mem_filter, List.mem_range]
    exact ⟨hj, hS.2⟩
  have hil := List.indexOf_lt_length.mpr hrow
  have hjl := List.indexOf_lt_length.mpr hcol
  have hget := Pack_getElem? A (LocalRows g d m q) (LocalCols g d n q) _ _ hil hjl
  rw [List.indexOf_get, List.indexOf_get] at hget
  simp only [DistMatrix.Get, DistMatrix.Owner, DistMatrix.FromGlobal, hq, Option.getD_some, hget]

/-- Assignment delivers the distribution of the same global matrix. -/
theorem assign_FromGlobal {α : Type} [Inhabited α] (g : Grid) (d d' : DistData) (m n : Nat)
    (A : Nat → Nat → α)
    (hcov : ∀ i j, ∃ q, q < g.Size ∧ Stores g d q i j = true) :
    (DistMatrix.FromGlobal g d m n A).assign d' = DistMatrix.FromGlobal g d' m n A := by
  unfold DistMatrix.assign
  simp only [DistMatrix.FromGlobal, DistMatrix.mk.injEq, true_and]
  funext q
  apply Pack_congr
  intro i hi j hj
  have hi' : i < m := by
    simp only [LocalRows, List.mem_filter, List.mem_range] at hi
    exact hi.1
  have hj' : j < n := by
    simp only [LocalCols, List.mem_filter, List.mem_range] at hj
    exact hj.1
  exact Get_FromGlobal g d m n A i j hi' hj' (hcov i j)

end El

/-! ## The two-sided transform -/

namespace elemental.advanced.internal

open elemental.basic elemental.basic.internal

variable {F : Type} [Field F] [StarRing F]

/-- The stored upper triangle determines a Hermitian matrix when its diagonal is real. -/
theorem HermitianFromUpper_star (A0 : Nat → Nat → F) (n p q : Nat) (hp : p < n)
    (hdiag : ∀ r, r < n → star (A0 r r) = A0 r r) :
    star (HermitianFromUpper A0 p q) = HermitianFromUpper A0 q p := by
  unfold HermitianFromUpper
  rcases lt_trichotomy p q with h | h | h
  · rw [if_pos (le_of_lt h), if_neg (by omega)]
  · subst h
    rw [if_pos (le_refl p), hdiag p hp]
  · rw [if_neg (by omega), if_pos (le_of_lt h), star_star]

theorem star_half : star (1 / 2 : F) = 1 / 2 := by
  simp

/-- The Hermitian matrix stored in the diagonal block `A11` is the block of the Hermitian
matrix stored in `A0`, as long as the upper triangle right of column `k` is untouched. -/
theorem Hermitian_block (n k : Nat) (A : DistMatrix F .MC .MR) (A0 : Nat → Nat → F)
    (hrest : ∀ i j, i ≤ j → k ≤ j → j < n → A.Get i j = A0 i j)
    (d c : Nat) (hd : k + d < n) (hc : k + c < n) :
    HermitianFromUpper (fun r s => A.Get (k + r) (k + s)) d c
      = HermitianFromUpper A0 (k + d) (k + c) := by
  unfold HermitianFromUpper
  by_cases h : d ≤ c
  · rw [if_pos h, if_pos (by omega)]
    exact hrest (k + d) (k + c) (by omega) (by omega) hc
  · rw [if_neg h, if_neg (by omega)]
    exact congrArg star (hrest (k + c) (k + d) (by omega) (by omega) hd)

/-- The entries of `A` above the block row are those of the Hermitian matrix. -/
theorem above_block (n k : Nat) (A : DistMatrix F .MC .MR) (A0 : Nat → Nat → F)
    (hrest : ∀ i j, i ≤ j → k ≤ j → j < n → A.Get i j = A0 i j)
    (p c : Nat) (hp : p < k) (hc : k + c < n) :
    A.Get p (k + c) = HermitianFromUpper A0 p (k + c) := by
  unfold HermitianFromUpper
  rw [if_pos (by omega), hrest _ _ (by omega) (by omega) hc]

/-- The panel `A01' = U00 A01 + 1/2 U01 A11` as the iteration computes it. -/
theorem Panel_raw (n k nb : Nat) (U A : DistMatrix F .MC .MR) (A0 : Nat → Nat → F)
    (hrest : ∀ i j, i ≤ j → k ≤ j → j < n → A.Get i j = A0 i j)
    (hnb : k + nb ≤ n) (i c : Nat) (hi : i < k) (hc : c < nb) :
    1 / 2 * ∑ d in Finset.range nb,
        U.Get i (k + d) * HermitianFromUpper (fun r s => A.Get (k + r) (k + s)) d c
      + ∑ p in Finset.range k, UpperTriangle (fun r s => U.Get r s) i p * A.Get p (k + c)
      = HegstLUVar5.Panel U.Get A0 k nb i c := by
  unfold HegstLUVar5.Panel
  rw [add_comm]
  congr 1
  · apply Finset.sum_congr rfl
    intro p hp
    rw [above_block n k A A0 hrest p c (Finset.mem_range.mp hp) (by omega)]
  · congr 1
    apply Finset.sum_congr rfl
    intro d hd
    have hd' := Finset.mem_range.mp hd
    rw [Hermitian_block n k A A0 hrest d c (by omega) (by omega)]
    congr 1
    unfold UpperTriangle
    rw [if_pos (by omega)]

/-- The block `A00` after one iteration: `A00 + U01 A01'^H + A01' U01^H`. -/
theorem HegstLUVar5_iteration_A00 (n bsize : Nat) (U A : DistMatrix F .MC .MR)
    (A0 : Nat → Nat → F)
    (k : Nat) (hH : A.Height = n) (hW : A.Width = n) (hk : k < n)
    (hrest : ∀ i j, i ≤ j → k ≤ j → j < n → A.Get i j = A0 i j)
    (i j : Nat) (hij : i ≤ j) (hj : j < k) :
    (HegstLUVar5.iteration bsize U k A).Get i j
      = A.Get i j + ∑ c in Finset.range (min bsize (n - k)),
          (UpperTriangle U.Get i (k + c)
              * star (HegstLUVar5.Panel U.Get A0 k (min bsize (n - k)) j c)
            + HegstLUVar5.Panel U.Get A0 k (min bsize (n - k)) i c
              * star (UpperTriangle U.Get j (k + c))) := by
  have hnb : min bsize (min (A.Height - k) (A.Width - k)) = min bsize (n - k) := by
    rw [hH, hW, Nat.min_self]
  simp only [HegstLUVar5.iteration, DistMatrix.Store, DistMatrix.View, DistMatrix.assign,
    Hemm, Trmm, Axpy, LocalTriangularRank2K, LocalTrmm, LocalHegst, hnb]
  have c1 : ¬ (k ≤ i ∧ i < k + min bsize (n - k) ∧ k ≤ j ∧ j < k + min bsize (n - k)) := by
    omega
  have c2 : ¬ (0 ≤ i ∧ i < 0 + k ∧ k ≤ j ∧ j < k + min bsize (n - k)) := by omega
  have c3 : (0 ≤ i ∧ i < 0 + k ∧ 0 ≤ j ∧ j < 0 + k) := by omega
  rw [if_neg c1, if_neg c2, if_pos c3]
  simp only [Nat.sub_zero, Nat.zero_add, one_mul, mul_zero, add_zero]
  rw [if_pos hij, add_comm]
  congr 1
  apply Finset.sum_congr rfl
  intro c hc
  have hc' := Finset.mem_range.mp hc
  rw [Panel_raw n k (min bsize (n - k)) U A A0 hrest (by omega) i c (by omega) hc',
    Panel_raw n k (min bsize (n - k)) U A A0 hrest (by omega) j c hj hc']
  unfold UpperTriangle
  rw [if_pos (by omega), if_pos (by omega)]

/-- The diagonal block of `triu(U)` is the upper triangle of the block `U11`. -/
theorem UpperTriangle_block (U : Nat → Nat → F) (k r s : Nat) :
    UpperTriangle (fun a b => U (k + a) (k + b)) r s = UpperTriangle U (k + r) (k + s) := by
  unfold UpperTriangle
  by_cases h : r ≤ s
  · rw [if_pos h, if_pos (by omega)]
  · rw [if_neg h, if_neg (by omega)]

/-- The block `A01` after one iteration: `(A01' + 1/2 Y01) U11^H`. -/
theorem HegstLUVar5_iteration_A01 (n bsize : Nat) (U A : DistMatrix F .MC .MR)
    (A0 : Nat → Nat → F)
    (k : Nat) (hH : A.Height = n) (hW : A.Width = n) (hk : k < n)
    (hrest : ∀ i j, i ≤ j → k ≤ j → j < n → A.Get i j = A0 i j)
    (i j : Nat) (hi : i < k) (hkj : k ≤ j) (hj : j < k + min bsize (n - k)) :
    (HegstLUVar5.iteration bsize U k A).Get i j
      = ∑ c in Finset.range (min bsize (n - k)),
          (1 / 2 * (∑ d in Finset.range (min bsize (n - k)),
              UpperTriangle U.Get i (k + d) * HermitianFromUpper A0 (k + d) (k + c))
            + HegstLUVar5.Panel U.Get A0 k (min bsize (n - k)) i c)
          * star (UpperTriangle U.Get j (k + c)) := by
  have hnb : min bsize (min (A.Height - k) (A.Width - k)) = min bsize (n - k) := by
    rw [hH, hW, Nat.min_self]
  simp only [HegstLUVar5.iteration, DistMatrix.Store, DistMatrix.View, DistMatrix.assign,
    Hemm, Trmm, Axpy, LocalTriangularRank2K, LocalTrmm, LocalHegst, hnb]
  have c1 : ¬ (k ≤ i ∧ i < k + min bsize (n - k) ∧ k ≤ j ∧ j < k + min bsize (n - k)) := by
    omega
  have c2 : (0 ≤ i ∧ i < 0 + k ∧ k ≤ j ∧ j < k + min bsize (n - k)) := by omega
  rw [if_neg c1, if_pos c2]
  simp only [Nat.sub_zero, Nat.zero_add, one_mul, mul_zero, add_zero]
  apply Finset.sum_congr rfl
  intro c hc
  have hc' := Finset.mem_range.mp hc
  rw [Panel_raw n k (min bsize (n - k)) U A A0 hrest (by omega) i c hi hc',
    UpperTriangle_block U.Get k (j - k) c]
  have hjk : k + (j - k) = j := by omega
  rw [hjk]
  congr 3
  apply Finset.sum_congr rfl
  intro d hd
  have hd' := Finset.mem_range.mp hd
  rw [Hermitian_block n k A A0 hrest d c (by omega) (by omega)]
  congr 1
  unfold UpperTriangle
  rw [if_pos (by omega)]

/-- The block `A11` after one iteration: the upper triangle of `U11 A11 U11^H`. -/
theorem HegstLUVar5_iteration_A11 (n bsize : Nat) (U A : DistMatrix F .MC .MR)
    (A0 : Nat → Nat → F)
    (k : Nat) (hH : A.Height = n) (hW : A.Width = n) (hk : k < n)
    (hrest : ∀ i j, i ≤ j → k ≤ j → j < n → A.Get i j = A0 i j)
    (i j : Nat) (hki : k ≤ i) (hij : i ≤ j) (hj : j < k + min bsize (n - k)) :
    (HegstLUVar5.iteration bsize U k A).Get i j
      = ∑ c in Finset.range (min bsize (n - k)), ∑ d in Finset.range (min bsize (n - k)),
          UpperTriangle U.Get i (k + c) * HermitianFromUpper A0 (k + c) (k + d)
            * star (UpperTriangle U.Get j (k + d)) := by
  have hnb : min bsize (min (A.Height - k) (A.Width - k)) = min bsize (n - k) := by
    rw [hH, hW, Nat.min_self]
  simp only [HegstLUVar5.iteration, DistMatrix.Store, DistMatrix.View, DistMatrix.assign,
    Hemm, Trmm, Axpy, LocalTriangularRank2K, LocalTrmm, LocalHegst, hnb]
  have c1 : (k ≤ i ∧ i < k + min bsize (n - k) ∧ k ≤ j ∧ j < k + min bsize (n - k)) := by
    omega
  have c0 : i - k ≤ j - k := by omega
  rw [if_pos c1, if_pos c0]
  have hik : k + (i - k) = i := by omega
  have hjk : k + (j - k) = j := by omega
  apply Finset.sum_congr rfl
  intro c hc
  have hc' := Finset.mem_range.mp hc
  apply Finset.sum_congr rfl
  intro d hd
  have hd' := Finset.mem_range.mp hd
  rw [UpperTriangle_block U.Get k (i - k) c, UpperTriangle_block U.Get k (j - k) d,
    Hermitian_block n k A A0 hrest c d (by omega) (by omega), hik, hjk]

/-- The upper triangle right of the block is not touched by the iteration. -/
theorem HegstLUVar5_iteration_rest (n bsize : Nat) (U A : DistMatrix F .MC .MR)
    (k : Nat) (hH : A.Height = n) (hW : A.Width = n)
    (i j : Nat) (hkj : k + min bsize (n - k) ≤ j) :
    (HegstLUVar5.iteration bsize U k A).Get i j = A.Get i j := by
  have hnb : min bsize (min (A.Height - k) (A.Width - k)) = min bsize (n - k) := by
    rw [hH, hW, Nat.min_self]
  simp only [HegstLUVar5.iteration, DistMatrix.Store, DistMatrix.View, DistMatrix.assign,
    Hemm, Trmm, Axpy, LocalTriangularRank2K, LocalTrmm, LocalHegst, hnb]
  have c1 : ¬ (k ≤ i ∧ i < k + min bsize (n - k) ∧ k ≤ j ∧ j < k + min bsize (n - k)) := by
    omega
  have c2 : ¬ (0 ≤ i ∧ i < 0 + k ∧ k ≤ j ∧ j < k + min bsize (n - k)) := by omega
  have c3 : ¬ (0 ≤ i ∧ i < 0 + k ∧ 0 ≤ j ∧ j < 0 + k) := by omega
  rw [if_neg c1, if_neg c2, if_neg c3]

end elemental.advanced.internal

namespace elemental.advanced.internal

open elemental.basic elemental.basic.internal

variable {F : Type} [Field F] [StarRing F]

/-- A double sum over a leading `(k + nb) x (k + nb)` block splits into its four blocks. -/
theorem sum_block_split (f : Nat → Nat → F) (k nb : Nat) :
    ∑ p in Finset.range (k + nb), ∑ q in Finset.range (k + nb), f p q
      = (∑ p in Finset.range k, ∑ q in Finset.range k, f p q)
        + (∑ p in Finset.range k, ∑ c in Finset.range nb, f p (k + c))
        + (∑ d in Finset.range nb, ∑ q in Finset.range k, f (k + d) q)
        + (∑ d in Finset.range nb, ∑ c in Finset.range nb, f (k + d) (k + c)) := by
  simp only [Finset.sum_range_add, Finset.sum_add_distrib]
  ring

theorem half_add_half (h2 : (2 : F) ≠ 0) (x : F) : 1 / 2 * x + 1 / 2 * x = x := by
  field_simp
  ring

/-- The conjugate of an entry of the panel `A01'`. -/
theorem star_Panel (U A0 : Nat → Nat → F) (n k nb : Nat) (hnb : k + nb ≤ n)
    (hdiag : ∀ r, r < n → star (A0 r r) = A0 r r) (j c : Nat) :
    star (HegstLUVar5.Panel U A0 k nb j c)
      = (∑ q in Finset.range k, HermitianFromUpper A0 (k + c) q * star (UpperTriangle U j q))
        + 1 / 2 * ∑ d in Finset.range nb,
            HermitianFromUpper A0 (k + c) (k + d) * star (UpperTriangle U j (k + d)) := by
  unfold HegstLUVar5.Panel
  rw [star_add, star_mul', star_half, star_sum, star_sum]
  congr 1
  · apply Finset.sum_congr rfl
    intro q hq
    have hq' := Finset.mem_range.mp hq
    rw [star_mul', HermitianFromUpper_star A0 n q (k + c) (by omega) hdiag, mul_comm]
  · congr 1
    apply Finset.sum_congr rfl
    intro d hd
    have hd' := Finset.mem_range.mp hd
    rw [star_mul', HermitianFromUpper_star A0 n (k + d) (k + c) (by omega) hdiag, mul_comm]

/-- The rank-2k update of `A00` extends the transform of the leading block from order
`k` to order `k + nb`. -/
theorem Target_step_A00 (U A0 : Nat → Nat → F) (n k nb : Nat) (hnb : k + nb ≤ n)
    (h2 : (2 : F) ≠ 0) (hdiag : ∀ r, r < n → star (A0 r r) = A0 r r) (i j : Nat) :
    HegstLUVar5.Target U A0 k i j
      + ∑ c in Finset.range nb,
          (UpperTriangle U i (k + c) * star (HegstLUVar5.Panel U A0 k nb j c)
            + HegstLUVar5.Panel U A0 k nb i c * star (UpperTriangle U j (k + c)))
      = HegstLUVar5.Target U A0 (k + nb) i j := by
  have hstar := star_Panel U A0 n k nb hnb hdiag j
  simp only [hstar]
  unfold HegstLUVar5.Target HegstLUVar5.Panel
  rw [sum_block_split _ k nb]
  have e1 : ∑ c in Finset.range nb, UpperTriangle U i (k + c)
        * ∑ q in Finset.range k, HermitianFromUpper A0 (k + c) q * star (UpperTriangle U j q)
      = ∑ d in Finset.range nb, ∑ q in Finset.range k,
          UpperTriangle U i (k + d) * HermitianFromUpper A0 (k + d) q
            * star (UpperTriangle U j q) := by
    apply Finset.sum_congr rfl
    intro c _
    rw [Finset.mul_sum]
    apply Finset.sum_congr rfl
    intro q _
    ring
  have e2 : ∑ c in Finset.range nb, UpperTriangle U i (k + c)
        * (1 / 2 * ∑ d in Finset.range nb,
            HermitianFromUpper A0 (k + c) (k + d) * star (UpperTriangle U j (k + d)))
      = 1 / 2 * ∑ d in Finset.range nb, ∑ c in Finset.range nb,
          UpperTriangle U i (k + d) * HermitianFromUpper A0 (k + d) (k + c)
            * star (UpperTriangle U j (k + c)) := by
    rw [Finset.mul_sum]
    apply Finset.sum_congr rfl
    intro c _
    rw [Finset.mul_sum, Finset.mul_sum, Finset.mul_sum]
    apply Finset.sum_congr rfl
    intro d _
    ring
  have e3 : ∑ c in Finset.range nb,
        (∑ p in Finset.range k, UpperTriangle U i p * HermitianFromUpper A0 p (k + c))
          * star (UpperTriangle U j (k + c))
      = ∑ p in Finset.range k, ∑ c in Finset.range nb,
          UpperTriangle U i p * HermitianFromUpper A0 p (k + c)
            * star (UpperTriangle U j (k + c)) := by
    rw [Finset.sum_comm]
    apply Finset.sum_congr rfl
    intro c _
    rw [Finset.sum_mul]
  have e4 : ∑ c in Finset.range nb,
        (1 / 2 * ∑ d in Finset.range nb,
            UpperTriangle U i (k + d) * HermitianFromUpper A0 (k + d) (k + c))
          * star (UpperTriangle U j (k + c))
      = 1 / 2 * ∑ d in Finset.range nb, ∑ c in Finset.range nb,
          UpperTriangle U i (k + d) * HermitianFromUpper A0 (k + d) (k + c)
            * star (UpperTriangle U j (k + c)) := by
    rw [Finset.sum_comm, Finset.mul_sum]
    apply Finset.sum_congr rfl
    intro c _
    rw [mul_assoc, Finset.sum_mul]
  simp only [mul_add, add_mul, Finset.sum_add_distrib]
  rw [e1, e2, e3, e4]
  have hh := half_add_half h2 (∑ d in Finset.range nb, ∑ c in Finset.range nb,
          UpperTriangle U i (k + d) * HermitianFromUpper A0 (k + d) (k + c)
            * star (UpperTriangle U j (k + c)))
  linear_combination hh

end elemental.advanced.internal

namespace elemental.advanced.internal

open elemental.basic elemental.basic.internal

variable {F : Type} [Field F] [StarRing F]

/-- Left of the diagonal the conjugated row of the upper triangle vanishes. -/
theorem star_UpperTriangle_zero (U : Nat → Nat → F) (j q : Nat) (h : q < j) :
    star (UpperTriangle U j q) = 0 := by
  unfold UpperTriangle
  rw [if_neg (by omega), star_zero]

theorem UpperTriangle_zero (U : Nat → Nat → F) (i p : Nat) (h : p < i) :
    UpperTriangle U i p = 0 := by
  unfold UpperTriangle
  rw [if_neg (by omega)]

/-- The update of `A01` yields the block of the transform of order `k + nb` in the
columns of the current block. -/
theorem Target_step_A01 (U A0 : Nat → Nat → F) (k nb : Nat)
    (h2 : (2 : F) ≠ 0) (i j : Nat) (hkj : k ≤ j) :
    ∑ c in Finset.range nb,
        (1 / 2 * (∑ d in Finset.range nb,
            UpperTriangle U i (k + d) * HermitianFromUpper A0 (k + d) (k + c))
          + HegstLUVar5.Panel U A0 k nb i c) * star (UpperTriangle U j (k + c))
      = HegstLUVar5.Target U A0 (k + nb) i j := by
  unfold HegstLUVar5.Target HegstLUVar5.Panel
  rw [sum_block_split _ k nb]
  have z0 : ∑ p in Finset.range k, ∑ q in Finset.range k,
      UpperTriangle U i p * HermitianFromUpper A0 p q * star (UpperTriangle U j q) = 0 := by
    apply Finset.sum_eq_zero
    intro p _
    apply Finset.sum_eq_zero
    intro q hq
    rw [star_UpperTriangle_zero U j q (by have := Finset.mem_range.mp hq; omega), mul_zero]
  have z2 : ∑ d in Finset.range nb, ∑ q in Finset.range k,
      UpperTriangle U i (k + d) * HermitianFromUpper A0 (k + d) q
        * star (UpperTriangle U j q) = 0 := by
    apply Finset.sum_eq_zero
    intro p _
    apply Finset.sum_eq_zero
    intro q hq
    rw [star_UpperTriangle_zero U j q (by have := Finset.mem_range.mp hq; omega), mul_zero]
  rw [z0, z2]
  have e3 : ∑ c in Finset.range nb,
        (∑ p in Finset.range k, UpperTriangle U i p * HermitianFromUpper A0 p (k + c))
          * star (UpperTriangle U j (k + c))
      = ∑ p in Finset.range k, ∑ c in Finset.range nb,
          UpperTriangle U i p * HermitianFromUpper A0 p (k + c)
            * star (UpperTriangle U j (k + c)) := by
    rw [Finset.sum_comm]
    apply Finset.sum_congr rfl
    intro c _
    rw [Finset.sum_mul]
  have e4 : ∑ c in Finset.range nb,
        (∑ d in Finset.range nb,
            UpperTriangle U i (k + d) * HermitianFromUpper A0 (k + d) (k + c))
          * star (UpperTriangle U j (k + c))
      = ∑ d in Finset.range nb, ∑ c in Finset.range nb,
          UpperTriangle U i (k + d) * HermitianFromUpper A0 (k + d) (k + c)
            * star (UpperTriangle U j (k + c)) := by
    rw [Finset.sum_comm]
    apply Finset.sum_congr rfl
    intro c _
    rw [Finset.sum_mul]
  have e5 : ∀ c, (1 / 2 * (∑ d in Finset.range nb,
            UpperTriangle U i (k + d) * HermitianFromUpper A0 (k + d) (k + c))
          + ((∑ p in Finset.range k, UpperTriangle U i p * HermitianFromUpper A0 p (k + c))
            + 1 / 2 * ∑ d in Finset.range nb,
              UpperTriangle U i (k + d) * HermitianFromUpper A0 (k + d) (k + c)))
          * star (UpperTriangle U j (k + c))
      = (∑ p in Finset.range k, UpperTriangle U i p * HermitianFromUpper A0 p (k + c))
          * star (UpperTriangle U j (k + c))
        + (∑ d in Finset.range nb,
            UpperTriangle U i (k + d) * HermitianFromUpper A0 (k + d) (k + c))
          * star (UpperTriangle U j (k + c)) := by
    intro c
    have hh := half_add_half h2 (∑ d in Finset.range nb,
            UpperTriangle U i (k + d) * HermitianFromUpper A0 (k + d) (k + c))
    linear_combination star (UpperTriangle U j (k + c)) * hh
  simp only [e5, Finset.sum_add_distrib]
  rw [e3, e4]
  ring

/-- The update of `A11` yields the diagonal block of the transform of order `k + nb`. -/
theorem Target_step_A11 (U A0 : Nat → Nat → F) (k nb : Nat) (i j : Nat) (hki : k ≤ i)
    (hkj : k ≤ j) :
    ∑ c in Finset.range nb, ∑ d in Finset.range nb,
        UpperTriangle U i (k + c) * HermitianFromUpper A0 (k + c) (k + d)
          * star (UpperTriangle U j (k + d))
      = HegstLUVar5.Target U A0 (k + nb) i j := by
  unfold HegstLUVar5.Target
  rw [sum_block_split _ k nb]
  have z0 : ∑ p in Finset.range k, ∑ q in Finset.range k,
      UpperTriangle U i p * HermitianFromUpper A0 p q * star (UpperTriangle U j q) = 0 := by
    apply Finset.sum_eq_zero
    intro p hp
    apply Finset.sum_eq_zero
    intro q _
    rw [UpperTriangle_zero U i p (by have := Finset.mem_range.mp hp; omega), zero_mul,
      zero_mul]
  have z1 : ∑ p in Finset.range k, ∑ c in Finset.range nb,
      UpperTriangle U i p * HermitianFromUpper A0 p (k + c)
        * star (UpperTriangle U j (k + c)) = 0 := by
    apply Finset.sum_eq_zero
    intro p hp
    apply Finset.sum_eq_zero
    intro q _
    rw [UpperTriangle_zero U i p (by have := Finset.mem_range.mp hp; omega), zero_mul,
      zero_mul]
  have z2 : ∑ d in Finset.range nb, ∑ q in Finset.range k,
      UpperTriangle U i (k + d) * HermitianFromUpper A0 (k + d) q
        * star (UpperTriangle U j q) = 0 := by
    apply Finset.sum_eq_zero
    intro p _
    apply Finset.sum_eq_zero
    intro q hq
    rw [star_UpperTriangle_zero U j q (by have := Finset.mem_range.mp hq; omega), mul_zero]
  rw [z0, z1, z2]
  ring

theorem HegstLUVar5_iteration_shape (bsize : Nat) (U A : DistMatrix F .MC .MR) (k : Nat) :
    (HegstLUVar5.iteration bsize U k A).Height = A.Height
      ∧ (HegstLUVar5.iteration bsize U k A).Width = A.Width :=
  ⟨rfl, rfl⟩

/-- One iteration carries the invariant from `k` to `k + nb`. -/
theorem HegstLUVar5_iteration_Inv (n bsize : Nat) (U A : DistMatrix F .MC .MR)
    (A0 : Nat → Nat → F)
    (k : Nat) (h2 : (2 : F) ≠ 0) (hdiag : ∀ r, r < n → star (A0 r r) = A0 r r)
    (hk : k < n) (h : HegstLUVar5.Inv n U A0 k A) :
    HegstLUVar5.Inv n U A0 (k + min bsize (n - k)) (HegstLUVar5.iteration bsize U k A) := by
  obtain ⟨hH, hW, hdone, hrest⟩ := h
  refine ⟨hH, hW, ?_, ?_⟩
  · intro i j hij hj
    by_cases hjk : j < k
    · rw [HegstLUVar5_iteration_A00 n bsize U A A0 k hH hW hk hrest i j hij hjk, hdone i j hij hjk]
      exact Target_step_A00 U.Get A0 n k (min bsize (n - k)) (by omega) h2 hdiag i j
    · by_cases hik : i < k
      · rw [HegstLUVar5_iteration_A01 n bsize U A A0 k hH hW hk hrest i j hik (by omega) hj]
        exact Target_step_A01 U.Get A0 k (min bsize (n - k)) h2 i j (by omega)
      · rw [HegstLUVar5_iteration_A11 n bsize U A A0 k hH hW hk hrest i j (by omega) hij hj]
        exact Target_step_A11 U.Get A0 k (min bsize (n - k)) i j (by omega) (by omega)
  · intro i j hij hkj hj
    rw [HegstLUVar5_iteration_rest n bsize U A k hH hW i j hkj]
    exact hrest i j hij (by omega) hj

/-- With enough fuel the loop ends, and it ends with the invariant at `k = n`. -/
theorem HegstLUVar5_loop_Inv (n bsize : Nat) (U : DistMatrix F .MC .MR)
    (A0 : Nat → Nat → F)
    (h2 : (2 : F) ≠ 0) (hdiag : ∀ r, r < n → star (A0 r r) = A0 r r) (hb : 1 ≤ bsize) :
    ∀ (fuel k : Nat) (A : DistMatrix F .MC .MR), k ≤ n → n ≤ k + fuel →
      HegstLUVar5.Inv n U A0 k A →
      ∃ A', HegstLUVar5.loop bsize U fuel k A = some A' ∧ HegstLUVar5.Inv n U A0 n A' := by
  intro fuel
  induction fuel with
  | zero =>
    intro k A hkn hfuel h
    have hk : k = n := by omega
    subst hk
    refine ⟨A, ?_, h⟩
    unfold HegstLUVar5.loop
    rw [if_neg (by rw [h.1]; omega)]
  | succ fuel ih =>
    intro k A hkn hfuel h
    by_cases hk : k < n
    · have hstep := HegstLUVar5_iteration_Inv n bsize U A A0 k h2 hdiag hk h
      have hnb : min bsize (min (A.Height - k) (A.Width - k)) = min bsize (n - k) := by
        rw [h.1, h.2.1, Nat.min_self]
      obtain ⟨A', hA', hInv⟩ := ih (k + min bsize (n - k))
        (HegstLUVar5.iteration bsize U k A) (by omega) (by omega) hstep
      refine ⟨A', ?_, hInv⟩
      unfold HegstLUVar5.loop
      rw [if_pos (by rw [h.1]; exact hk)]
      simp only [hnb]
      exact hA'
    · have hk' : k = n := by omega
      subst hk'
      refine ⟨A, ?_, h⟩
      unfold HegstLUVar5.loop
      rw [if_neg (by rw [h.1]; omega)]

end elemental.advanced.internal

namespace elemental.advanced.internal

open elemental.basic elemental.basic.internal

variable {F : Type} [Field F] [StarRing F]

/-- The transform of order `n` is the entry of the matrix product `T H T^H`. -/
theorem Target_eq_mul (T H : Nat → Nat → F) (n : Nat) (i j : Fin n) :
    (toMatrix n n T * toMatrix n n H * (toMatrix n n T).conjTranspose) i j
      = ∑ p in Finset.range n, ∑ q in Finset.range n, T i p * H p q * star (T j q) := by
  rw [Matrix.mul_apply, Finset.sum_comm]
  rw [← Fin.sum_univ_eq_sum_range (fun q => ∑ p in Finset.range n, T i p * H p q * star (T j q))]
  apply Finset.sum_congr rfl
  intro q _
  rw [Matrix.mul_apply, Finset.sum_mul,
    ← Fin.sum_univ_eq_sum_range (fun p => T i p * H p q * star (T j q))]
  rfl

/-- Before the first iteration the invariant holds with the stored upper triangle. -/
theorem HegstLUVar5_Inv_zero (n : Nat) (U A : DistMatrix F .MC .MR) (hH : A.Height = n)
    (hW : A.Width = n) : HegstLUVar5.Inv n U A.Get 0 A :=
  ⟨hH, hW, fun _ _ _ hj => absurd hj (Nat.not_lt_zero _), fun _ _ _ _ _ => rfl⟩

/-- The routine returns, and the upper triangle of the result is that of
`triu(U) A0 triu(U)^H`, whatever the strictly lower triangle of `U` holds. -/
theorem HegstLUVar5_upper (RELEASE : Bool) (n bsize fuel : Nat) (A U : DistMatrix F .MC .MR)
    (h2 : (2 : F) ≠ 0) (hAH : A.Height = n) (hAW : A.Width = n) (hUH : U.Height = n)
    (hUW : U.Width = n) (hdiag : ∀ r, r < n → star (A.Get r r) = A.Get r r)
    (hb : 1 ≤ bsize) (hfuel : n ≤ fuel) :
    ∃ A', HegstLUVar5 RELEASE bsize fuel A U = Outcome.returned A'
      ∧ A'.Height = n ∧ A'.Width = n
      ∧ ∀ i j : Fin n, i ≤ j →
          A'.Get i j = (toMatrix n n (UpperTriangle U.Get)
            * toMatrix n n (HermitianFromUpper A.Get)
            * (toMatrix n n (UpperTriangle U.Get)).conjTranspose) i j := by
  obtain ⟨A', hA', hInv⟩ := HegstLUVar5_loop_Inv n bsize U A.Get h2 hdiag hb fuel 0 A
    (Nat.zero_le n) (by omega) (HegstLUVar5_Inv_zero n U A hAH hAW)
  refine ⟨A', ?_, hInv.1, hInv.2.1, ?_⟩
  · unfold HegstLUVar5
    have e1 : decide (A.Height ≠ A.Width) = false := by
      rw [hAH, hAW]; exact decide_eq_false (fun h => h rfl)
    have e2 : decide (U.Height ≠ U.Width) = false := by
      rw [hUH, hUW]; exact decide_eq_false (fun h => h rfl)
    have e3 : decide (A.Height ≠ U.Height) = false := by
      rw [hAH, hUH]; exact decide_eq_false (fun h => h rfl)
    simp only [e1, e2, e3, Bool.and_false, Bool.false_eq_true, if_false, hA']
  · intro i j hij
    rw [Target_eq_mul]
    exact hInv.2.2.1 i j hij j.isLt

/-- An upper triangular matrix is its own upper triangle. -/
theorem UpperTriangle_of_upper (U : Nat → Nat → F) (hU : ∀ p q, q < p → U p q = 0) :
    UpperTriangle U = U := by
  funext p q
  unfold UpperTriangle
  by_cases h : p ≤ q
  · rw [if_pos h]
  · rw [if_neg h, hU p q (by omega)]

end elemental.advanced.internal

/-! ## The panel of the Hessenberg reduction -/

section hessenberg_lemmas

open El El.hessenberg

variable {F : Type} [Field F] [StarRing F]

/-- Forward substitution does not touch the entries that are not solved yet. -/
theorem Trsv_forward_ge (L : Nat → Nat → F) (b : Nat → F) :
    ∀ m i, m ≤ i → Trsv.forward L b m i = b i := by
  intro m
  induction m with
  | zero => intro i _; rfl
  | succ m ih =>
    intro i hi
    simp only [Trsv.forward]
    rw [if_neg (by omega)]
    exact ih i (by omega)

/-- Forward substitution does not change an entry once it is solved. -/
theorem Trsv_forward_stable (L : Nat → Nat → F) (b : Nat → F) (i : Nat) :
    ∀ d, Trsv.forward L b (i + 1 + d) i = Trsv.forward L b (i + 1) i := by
  intro d
  induction d with
  | zero => rfl
  | succ d ih =>
    have e : i + 1 + (d + 1) = (i + 1 + d) + 1 := by omega
    rw [e]
    simp only [Trsv.forward] at ih ⊢
    rw [if_neg (by omega)]
    exact ih

/-- Row `i` of the lower triangular system holds for the forward substitution. -/
theorem Trsv_forward_row (L : Nat → Nat → F) (b : Nat → F) (m i : Nat) (hi : i < m)
    (hd : L i i ≠ 0) :
    ∑ j in Finset.range (i + 1), L i j * Trsv.forward L b m j = b i := by
  have hst : ∀ j, j ≤ i → Trsv.forward L b m j = Trsv.forward L b (j + 1) j := by
    intro j hj
    have e : m = j + 1 + (m - (j + 1)) := by omega
    rw [e]
    exact Trsv_forward_stable L b j _
  have hst2 : ∀ j, j < i → Trsv.forward L b i j = Trsv.forward L b (j + 1) j := by
    intro j hj
    have e : i = j + 1 + (i - (j + 1)) := by omega
    rw [e]
    exact Trsv_forward_stable L b j _
  rw [Finset.sum_range_succ, hst i (le_refl i)]
  have hsum : ∑ j in Finset.range i, L i j * Trsv.forward L b m j
      = ∑ j in Finset.range i, L i j * Trsv.forward L b i j := by
    apply Finset.sum_congr rfl
    intro j hj
    have hj' := Finset.mem_range.mp hj
    rw [hst j (by omega), hst2 j hj']
  rw [hsum]
  simp only [Trsv.forward]
  rw [if_pos trivial, Trsv_forward_ge L b i i (le_refl i)]
  field_simp

/-- Back substitution does not touch the entries that are not solved yet. -/
theorem Trsv_backward_lt (L : Nat → Nat → F) (b : Nat → F) (m : Nat) :
    ∀ s r, r + s < m → Trsv.backward L b m s r = b r := by
  intro s
  induction s with
  | zero => intro r _; rfl
  | succ s ih =>
    intro r hr
    simp only [Trsv.backward]
    rw [if_neg (by omega)]
    exact ih r (by omega)

/-- Back substitution does not change an entry once it is solved. -/
theorem Trsv_backward_stable (L : Nat → Nat → F) (b : Nat → F) (m r : Nat) (hr : r < m) :
    ∀ d, d ≤ r → Trsv.backward L b m (m - r + d) r = Trsv.backward L b m (m - r) r := by
  intro d
  induction d with
  | zero => intro _; rfl
  | succ d ih =>
    intro hd
    have e : m - r + (d + 1) = (m - r + d) + 1 := by omega
    rw [e]
    have ih := ih (by omega)
    simp only [Trsv.backward] at ih ⊢
    rw [if_neg (by omega)]
    exact ih

/-- Row `i` of the conjugate transposed system holds for the back substitution. -/
theorem Trsv_backward_row (L : Nat → Nat → F) (b : Nat → F) (m i : Nat) (hi : i < m)
    (hd : L i i ≠ 0) :
    star (L i i) * Trsv.backward L b m m i
      + ∑ j in Finset.range (m - 1 - i),
          star (L (i + 1 + j) i) * Trsv.backward L b m m (i + 1 + j) = b i := by
  have hst : ∀ r, r < m → i ≤ r →
      Trsv.backward L b m m r = Trsv.backward L b m (m - r) r := by
    intro r hr _
    have e : m = m - r + r := by omega
    nth_rewrite 2 [e]
    exact Trsv_backward_stable L b m r hr r (le_refl r)
  have hst2 : ∀ r, r < m → i < r →
      Trsv.backward L b m (m - 1 - i) r = Trsv.backward L b m (m - r) r := by
    intro r hr hir
    have e : m - 1 - i = m - r + (r - 1 - i) := by omega
    rw [e]
    exact Trsv_backward_stable L b m r hr _ (by omega)
  have hsum : ∑ j in Finset.range (m - 1 - i),
        star (L (i + 1 + j) i) * Trsv.backward L b m m (i + 1 + j)
      = ∑ j in Finset.range (m - 1 - i),
        star (L (i + 1 + j) i) * Trsv.backward L b m (m - 1 - i) (i + 1 + j) := by
    apply Finset.sum_congr rfl
    intro j hj
    have hj' := Finset.mem_range.mp hj
    rw [hst (i + 1 + j) (by omega) (by omega), hst2 (i + 1 + j) (by omega) (by omega)]
  rw [hsum, hst i hi (le_refl i)]
  have e : m - i = (m - 1 - i) + 1 := by omega
  rw [e]
  simp only [Trsv.backward]
  have e2 : m - 1 - (m - 1 - i) = i := by omega
  rw [e2, if_pos rfl, Trsv_backward_lt L b m (m - 1 - i) i (by omega)]
  have hd' : star (L i i) ≠ 0 := by
    intro h
    exact hd (by simpa using h)
  field_simp

end hessenberg_lemmas

section hessenberg_solve

open El El.hessenberg elemental

variable {F : Type} [Field F] [StarRing F]

/-- A lower triangular matrix with a unit determinant has a nonzero diagonal. -/
theorem lower_diag_ne_zero (L : Nat → Nat → F) (k : Nat)
    (hupper : ∀ i j, i < j → j < k → L i j = 0) (hdet : IsUnit (toMatrix k k L).det)
    (i : Nat) (hi : i < k) : L i i ≠ 0 := by
  have htri : (toMatrix k k L).BlockTriangular (⇑OrderDual.toDual) := by
    intro a b hab
    exact hupper a.val b.val (by simpa using hab) b.isLt
  rw [Matrix.det_of_lowerTriangular _ htri] at hdet
  have hne := (Finset.prod_ne_zero_iff.mp (isUnit_iff_ne_zero.mp hdet)) ⟨i, hi⟩
    (Finset.mem_univ _)
  exact hne

/-- A sum over `range k` splits at any `a ≤ k`. -/
theorem sum_range_split (f : Nat → F) (k a : Nat) (h : a ≤ k) :
    ∑ j in Finset.range k, f j
      = ∑ j in Finset.range a, f j + ∑ d in Finset.range (k - a), f (a + d) := by
  have e : k = a + (k - a) := by omega
  conv_lhs => rw [e]
  exact Finset.sum_range_add f a (k - a)

/-- A vector that solves the system is the inverse applied to the right-hand side. -/
theorem eq_inv_mulVec (k : Nat) (M : Matrix (Fin k) (Fin k) F) (hdet : IsUnit M.det)
    (x b : Fin k → F) (h : M.mulVec x = b) : x = M⁻¹.mulVec b := by
  rw [← h, Matrix.mulVec_mulVec, Matrix.nonsing_inv_mul _ hdet, Matrix.one_mulVec]

/-- Forward substitution computes `inv(L) b` for an invertible lower triangular `L`. -/
theorem Trsv_forward_inv (L : Nat → Nat → F) (b : Nat → F) (k : Nat)
    (hupper : ∀ i j, i < j → j < k → L i j = 0) (hdet : IsUnit (toMatrix k k L).det) :
    (fun j : Fin k => Trsv.forward L b k j)
      = (toMatrix k k L)⁻¹.mulVec (fun j : Fin k => b j) := by
  apply eq_inv_mulVec k _ hdet
  funext i
  have hrow := Trsv_forward_row L b k i.val i.isLt
    (lower_diag_ne_zero L k hupper hdet i.val i.isLt)
  show ∑ j : Fin k, L i.val j.val * Trsv.forward L b k j.val = b i.val
  rw [Fin.sum_univ_eq_sum_range (fun j => L i.val j * Trsv.forward L b k j) k]
  rw [sum_range_split _ k (i.val + 1) i.isLt, hrow]
  have hz : ∑ d in Finset.range (k - (i.val + 1)),
      L i.val (i.val + 1 + d) * Trsv.forward L b k (i.val + 1 + d) = 0 := by
    apply Finset.sum_eq_zero
    intro d hd
    have hd' := Finset.mem_range.mp hd
    rw [hupper i.val (i.val + 1 + d) (by omega) (by omega), zero_mul]
  rw [hz, add_zero]

/-- Back substitution computes `inv(L)^H b` for an invertible lower triangular `L`. -/
theorem Trsv_backward_inv (L : Nat → Nat → F) (b : Nat → F) (k : Nat)
    (hupper : ∀ i j, i < j → j < k → L i j = 0) (hdet : IsUnit (toMatrix k k L).det) :
    (fun j : Fin k => Trsv.backward L b k k j)
      = ((toMatrix k k L)⁻¹).conjTranspose.mulVec (fun j : Fin k => b j) := by
  rw [Matrix.conjTranspose_nonsing_inv]
  have hdet' : IsUnit ((toMatrix k k L).conjTranspose).det := by
    rw [Matrix.det_conjTranspose]
    exact hdet.star
  apply eq_inv_mulVec k _ hdet'
  funext i
  have hrow := Trsv_backward_row L b k i.val i.isLt
    (lower_diag_ne_zero L k hupper hdet i.val i.isLt)
  show ∑ j : Fin k, star (L j.val i.val) * Trsv.backward L b k k j.val = b i.val
  rw [Fin.sum_univ_eq_sum_range (fun j => star (L j i.val) * Trsv.backward L b k k j) k]
  rw [sum_range_split _ k i.val (le_of_lt i.isLt),
    sum_range_split _ (k - i.val) 1 (by have := i.isLt; omega)]
  have hz : ∑ j in Finset.range i.val,
      star (L j i.val) * Trsv.backward L b k k j = 0 := by
    apply Finset.sum_eq_zero
    intro j hj
    have hj' := Finset.mem_range.mp hj
    rw [hupper j i.val hj' i.isLt, star_zero, zero_mul]
  rw [hz, zero_add, Finset.sum_range_one, Nat.add_zero, ← hrow]
  have e : k - i.val - 1 = k - 1 - i.val := by omega
  rw [e]
  congr 1
  apply Finset.sum_congr rfl
  intro j _
  rw [Nat.add_assoc]

end hessenberg_solve

section hessenberg_column

open El El.hessenberg elemental

variable {F : Type} [Field F] [StarRing F]

/-- Reading a vector after its entries were set gives the entries set. -/
theorem vec_setVec (x : El.Matrix F) (v : Nat → F) (i : Nat) : (x.setVec v).vec i = v i := by
  unfold El.Matrix.vec El.Matrix.setVec
  by_cases h : x.Width = 1
  · simp only [h, if_true]
  · simp only [h, if_false, if_true]

theorem vec_Trsv_NORMAL (A x : El.Matrix F) (i : Nat) :
    (Trsv Orientation.NORMAL A x).vec i = Trsv.forward A.Get x.vec A.Height i :=
  vec_setVec x _ i

theorem vec_Trsv_ADJOINT (A x : El.Matrix F) (i : Nat) :
    (Trsv Orientation.ADJOINT A x).vec i = Trsv.backward A.Get x.vec A.Height A.Height i :=
  vec_setVec x _ i

theorem vec_Gemv_NORMAL (alpha beta : F) (A x y : El.Matrix F) (i : Nat) :
    (Gemv Orientation.NORMAL alpha A x beta y).vec i
      = alpha * (∑ j in Finset.range A.Width, A.Get i j * x.vec j) + beta * y.vec i :=
  vec_setVec y _ i

theorem vec_Gemv_ADJOINT (alpha beta : F) (A x y : El.Matrix F) (j : Nat) :
    (Gemv Orientation.ADJOINT alpha A x beta y).vec j
      = alpha * (∑ i in Finset.range A.Height, star (A.Get i j) * x.vec i) + beta * y.vec j :=
  vec_setVec y _ j

/-- A vector of width one is read down its column. -/
theorem vec_of_Width_one (x : El.Matrix F) (h : x.Width = 1) (i : Nat) :
    x.vec i = x.Get i 0 := by
  unfold El.Matrix.vec
  rw [if_pos h]

/-- A vector of height one is read along its row. -/
theorem vec_of_Height_one (x : El.Matrix F) (i : Nat) (hi : i < x.Width) :
    x.vec i = x.Get 0 i := by
  unfold El.Matrix.vec
  by_cases h : x.Width = 1
  · rw [if_pos h]
    have : i = 0 := by omega
    rw [this]
  · rw [if_neg h]

/-- The column `a1` keeps width one through the first part of the iteration. -/
theorem UpperPanel_a1_Width (n k : Nat) (s : UpperPanel.State F) :
    (UpperPanel.a1 n k s).Width = 1 := by
  show k + 1 - k = 1
  omega

/-- The Conjugate/Trsv/Gemv sequence of iteration `k` in closed form, for a state whose
`G00` is lower triangular and invertible. -/
theorem UpperPanel_a1_closed (n k : Nat) (s : UpperPanel.State F)
    (hupper : ∀ i j, i < j → j < k → s.G.Get i j = 0)
    (hdet : IsUnit (toMatrix k k s.G.Get).det) :
    (fun i : Fin n => (UpperPanel.a1 n k s).Get i 0)
      = (1 - toMatrix n k s.U.Get * (toMatrix k k s.G.Get)⁻¹
            * (toMatrix n k s.U.Get).conjTranspose).mulVec
          ((fun i : Fin n => s.A.Get i k)
            - (toMatrix n k s.V.Get).mulVec
                (((toMatrix k k s.G.Get)⁻¹).conjTranspose.mulVec
                  (fun j : Fin k => star (s.U.Get k j)))) := by
  -- the right-hand side of the first solve
  have hy0 : ∀ j, j < k →
      (Conjugate (s.U.View (Range.mk k (k + 1)) (Range.mk 0 k))).vec j
        = star (s.U.Get k j) := by
    intro j hj
    rw [vec_of_Height_one _ j (by show j < k - 0; omega)]
    show star (s.U.Get (k + 0) (0 + j)) = star (s.U.Get k j)
    rw [Nat.add_zero, Nat.zero_add]
  have hG : (s.G.View (Range.mk 0 k) (Range.mk 0 k)).Get = s.G.Get := by
    funext r c
    show s.G.Get (0 + r) (0 + c) = s.G.Get r c
    rw [Nat.zero_add, Nat.zero_add]
  have hGH : (s.G.View (Range.mk 0 k) (Range.mk 0 k)).Height = k := by
    show k - 0 = k
    omega
  -- y1 := inv(G00)^H u10^H
  have hy1 := Trsv_backward_inv s.G.Get
    (Conjugate (s.U.View (Range.mk k (k + 1)) (Range.mk 0 k))).vec k hupper hdet
  have hy0' : (fun j : Fin k =>
      (Conjugate (s.U.View (Range.mk k (k + 1)) (Range.mk 0 k))).vec j)
        = fun j : Fin k => star (s.U.Get k j) := by
    funext j
    exact hy0 j.val j.isLt
  rw [hy0'] at hy1
  -- a1' := a1 - V0 y1
  have ha1 : ∀ i, (s.A.View (IR 0 n) (Range.mk k (k + 1))).vec i = s.A.Get i k := by
    intro i
    rw [vec_of_Width_one _ (by show k + 1 - k = 1; omega)]
    show s.A.Get (0 + i) (k + 0) = s.A.Get i k
    rw [Nat.zero_add, Nat.add_zero]
  have hU : (s.U.View (IR 0 n) (Range.mk 0 k)).Get = s.U.Get := by
    funext r c
    show s.U.Get (0 + r) (0 + c) = s.U.Get r c
    rw [Nat.zero_add, Nat.zero_add]
  have hUW : (s.U.View (IR 0 n) (Range.mk 0 k)).Width = k := Nat.sub_zero k
  have hUH : (s.U.View (IR 0 n) (Range.mk 0 k)).Height = n := Nat.sub_zero n
  have hV : (s.V.View (IR 0 n) (Range.mk 0 k)).Get = s.V.Get := by
    funext r c
    show s.V.Get (0 + r) (0 + c) = s.V.Get r c
    rw [Nat.zero_add, Nat.zero_add]
  have hVW : (s.V.View (IR 0 n) (Range.mk 0 k)).Width = k := Nat.sub_zero k
  have ha1' : (fun r : Fin n =>
      -1 * (∑ x in Finset.range k, s.V.Get r x * Trsv.backward s.G.Get
          (Conjugate (s.U.View (Range.mk k (k + 1)) (Range.mk 0 k))).vec k k x)
        + 1 * s.A.Get r k)
      = (fun i : Fin n => s.A.Get i k)
        - (toMatrix n k s.V.Get).mulVec
            (((toMatrix k k s.G.Get)⁻¹).conjTranspose.mulVec
              (fun j : Fin k => star (s.U.Get k j))) := by
    funext r
    rw [← hy1]
    show _ = s.A.Get r k - ∑ x : Fin k, s.V.Get r x * Trsv.backward s.G.Get
          (Conjugate (s.U.View (Range.mk k (k + 1)) (Range.mk 0 k))).vec k k x
    rw [Fin.sum_univ_eq_sum_range (fun x => s.V.Get r x * Trsv.backward s.G.Get
          (Conjugate (s.U.View (Range.mk k (k + 1)) (Range.mk 0 k))).vec k k x) k]
    ring
  have hy3 := Trsv_forward_inv s.G.Get
    (Gemv Orientation.ADJOINT 1 (s.U.View (IR 0 n) (Range.mk 0 k))
      (Gemv Orientation.NORMAL (-1) (s.V.View (IR 0 n) (Range.mk 0 k))
        (Trsv Orientation.ADJOINT (s.G.View (Range.mk 0 k) (Range.mk 0 k))
          (Conjugate (s.U.View (Range.mk k (k + 1)) (Range.mk 0 k))))
        1 (s.A.View (IR 0 n) (Range.mk k (k + 1))))
      0
      (Trsv Orientation.ADJOINT (s.G.View (Range.mk 0 k) (Range.mk 0 k))
        (Conjugate (s.U.View (Range.mk k (k + 1)) (Range.mk 0 k))))).vec k hupper hdet
  have hy2 : (fun j : Fin k =>
      (Gemv Orientation.ADJOINT 1 (s.U.View (IR 0 n) (Range.mk 0 k))
      (Gemv Orientation.NORMAL (-1) (s.V.View (IR 0 n) (Range.mk 0 k))
        (Trsv Orientation.ADJOINT (s.G.View (Range.mk 0 k) (Range.mk 0 k))
          (Conjugate (s.U.View (Range.mk k (k + 1)) (Range.mk 0 k))))
        1 (s.A.View (IR 0 n) (Range.mk k (k + 1))))
      0
      (Trsv Orientation.ADJOINT (s.G.View (Range.mk 0 k) (Range.mk 0 k))
        (Conjugate (s.U.View (Range.mk k (k + 1)) (Range.mk 0 k))))).vec j)
      = (toMatrix n k s.U.Get).conjTranspose.mulVec
          ((fun i : Fin n => s.A.Get i k)
            - (toMatrix n k s.V.Get).mulVec
                (((toMatrix k k s.G.Get)⁻¹).conjTranspose.mulVec
                  (fun j : Fin k => star (s.U.Get k j)))) := by
    funext j
    rw [← ha1']
    simp only [vec_Gemv_NORMAL, vec_Gemv_ADJOINT, vec_Trsv_ADJOINT, hG, hGH, ha1, hU, hUH,
      hV, hVW]
    show _ = ∑ r : Fin n, star (s.U.Get r j) * (-1 * (∑ x in Finset.range k,
        s.V.Get r x * Trsv.backward s.G.Get
          (Conjugate (s.U.View (Range.mk k (k + 1)) (Range.mk 0 k))).vec k k x)
        + 1 * s.A.Get r k)
    rw [Fin.sum_univ_eq_sum_range (fun r => star (s.U.Get r j) * (-1 * (∑ x in Finset.range k,
        s.V.Get r x * Trsv.backward s.G.Get
          (Conjugate (s.U.View (Range.mk k (k + 1)) (Range.mk 0 k))).vec k k x)
        + 1 * s.A.Get r k)) n]
    ring
  rw [hy2] at hy3
  funext i
  rw [← vec_of_Width_one _ (UpperPanel_a1_Width n k s)]
  unfold UpperPanel.a1
  simp only [vec_Gemv_NORMAL, vec_Trsv_NORMAL, vec_Trsv_ADJOINT, hG, hGH, ha1, hU, hUW,
    hV, hVW]
  rw [Matrix.sub_mulVec, Matrix.one_mulVec, ← Matrix.mulVec_mulVec, ← Matrix.mulVec_mulVec,
    ← hy3, ← ha1']
  show _ = (-1 * (∑ x in Finset.range k, s.V.Get i x * Trsv.backward s.G.Get
          (Conjugate (s.U.View (Range.mk k (k + 1)) (Range.mk 0 k))).vec k k x)
        + 1 * s.A.Get i k) - ∑ x : Fin k, s.U.Get i x * Trsv.forward s.G.Get _ k x
  rw [Fin.sum_univ_eq_sum_range (fun x => s.U.Get i x * Trsv.forward s.G.Get _ k x) k]
  ring

end hessenberg_column

section hessenberg_loop

open El El.hessenberg elemental

variable {F : Type} [Field F] [StarRing F]

/-- Iteration `k` writes row `k` of `G` up to the diagonal and nothing else of `G`. -/
theorem UpperPanel_iteration_G_frame
    (LeftReflector : El.Matrix F → El.Matrix F → F × El.Matrix F × El.Matrix F)
    (n k : Nat) (s : UpperPanel.State F) (r c : Nat) (h : r ≠ k ∨ k < c) :
    (UpperPanel.iteration LeftReflector n k s).G.Get r c = s.G.Get r c := by
  simp only [UpperPanel.iteration, El.Matrix.Store]
  have c1 : ¬ (k ≤ r ∧ r < k + 1 ∧ k ≤ c ∧ c < k + 1) := by omega
  have c2 : ¬ (k ≤ r ∧ r < k + 1 ∧ 0 ≤ c ∧ c < k) := by omega
  rw [if_neg c1, if_neg c2]

/-- Iteration `k` sets the diagonal entry `G(k,k)` to `1/tau`. -/
theorem UpperPanel_iteration_G_diag
    (LeftReflector : El.Matrix F → El.Matrix F → F × El.Matrix F × El.Matrix F)
    (n k : Nat) (s : UpperPanel.State F) :
    (UpperPanel.iteration LeftReflector n k s).G.Get k k
      = 1 / (UpperPanel.reflector LeftReflector n k s).1 := by
  simp only [UpperPanel.iteration, El.Matrix.Store, El.Matrix.Set]
  have c1 : (k ≤ k ∧ k < k + 1 ∧ k ≤ k ∧ k < k + 1) := by omega
  rw [if_pos c1, Nat.sub_self, if_pos ⟨rfl, rfl⟩]

/-- Iteration `k` sets `householderScalars(k)` to `tau` and nothing else of it. -/
theorem UpperPanel_iteration_householderScalars
    (LeftReflector : El.Matrix F → El.Matrix F → F × El.Matrix F × El.Matrix F)
    (n k : Nat) (s : UpperPanel.State F) (r : Nat) :
    (UpperPanel.iteration LeftReflector n k s).householderScalars.Get r 0
      = if r = k then (UpperPanel.reflector LeftReflector n k s).1
        else s.householderScalars.Get r 0 := by
  simp only [UpperPanel.iteration, El.Matrix.Set, and_true]

/-- The loop never writes above the diagonal of `G`. -/
theorem UpperPanel_loop_G_upper
    (LeftReflector : El.Matrix F → El.Matrix F → F × El.Matrix F × El.Matrix F)
    (n : Nat) (s : UpperPanel.State F) (r c : Nat) (h : r < c) :
    ∀ m, (UpperPanel.loop LeftReflector n m s).G.Get r c = s.G.Get r c := by
  intro m
  induction m with
  | zero => rfl
  | succ m ih =>
    show (UpperPanel.iteration LeftReflector n m (UpperPanel.loop LeftReflector n m s)).G.Get
      r c = s.G.Get r c
    rw [UpperPanel_iteration_G_frame LeftReflector n m _ r c (by omega)]
    exact ih

/-- After `m` iterations, `householderScalars(k)` and `G(k,k)` hold `tau_k` and
`1/tau_k` for each iteration `k < m` passed. -/
theorem UpperPanel_loop_tau
    (LeftReflector : El.Matrix F → El.Matrix F → F × El.Matrix F × El.Matrix F)
    (n : Nat) (s : UpperPanel.State F) (k : Nat) :
    ∀ m, k < m →
      (UpperPanel.loop LeftReflector n m s).householderScalars.Get k 0
          = (UpperPanel.reflector LeftReflector n k (UpperPanel.loop LeftReflector n k s)).1
      ∧ (UpperPanel.loop LeftReflector n m s).G.Get k k
          = 1 / (UpperPanel.reflector LeftReflector n k
              (UpperPanel.loop LeftReflector n k s)).1 := by
  intro m
  induction m with
  | zero => intro h; exact absurd h (Nat.not_lt_zero k)
  | succ m ih =>
    intro hk
    show (UpperPanel.iteration LeftReflector n m
        (UpperPanel.loop LeftReflector n m s)).householderScalars.Get k 0 = _
      ∧ (UpperPanel.iteration LeftReflector n m
        (UpperPanel.loop LeftReflector n m s)).G.Get k k = _
    by_cases hkm : k = m
    · subst hkm
      rw [UpperPanel_iteration_householderScalars, if_pos rfl, UpperPanel_iteration_G_diag]
      exact ⟨rfl, rfl⟩
    · rw [UpperPanel_iteration_householderScalars, if_neg hkm,
        UpperPanel_iteration_G_frame LeftReflector n m _ k k (Or.inl hkm)]
      exact ih (by omega)

/-- Column `k` of `A` after the first part of iteration `k` is the view `a1`. -/
theorem UpperPanel_column_Get (n k : Nat) (s : UpperPanel.State F) (i : Nat) (hi : i < n) :
    (UpperPanel.column n k s).Get i k = (UpperPanel.a1 n k s).Get i 0 := by
  simp only [UpperPanel.column, El.Matrix.Store, IR]
  have c1 : (0 ≤ i ∧ i < n ∧ k ≤ k ∧ k < k + 1) := by omega
  rw [if_pos c1, Nat.sub_zero, Nat.sub_self]

end hessenberg_loop

section hessenberg_frames

open El El.hessenberg

variable {F : Type} [Field F] [StarRing F]

/-- An iteration keeps the shapes of `A`, `U`, `V` and `G`. -/
theorem UpperPanel_iteration_shapes
    (LeftReflector : El.Matrix F → El.Matrix F → F × El.Matrix F × El.Matrix F)
    (n k : Nat) (s : UpperPanel.State F) :
    (UpperPanel.iteration LeftReflector n k s).A.Height = s.A.Height
      ∧ (UpperPanel.iteration LeftReflector n k s).A.Width = s.A.Width
      ∧ (UpperPanel.iteration LeftReflector n k s).U.Height = s.U.Height
      ∧ (UpperPanel.iteration LeftReflector n k s).U.Width = s.U.Width
      ∧ (UpperPanel.iteration LeftReflector n k s).V.Height = s.V.Height
      ∧ (UpperPanel.iteration LeftReflector n k s).V.Width = s.V.Width
      ∧ (UpperPanel.iteration LeftReflector n k s).G.Height = s.G.Height
      ∧ (UpperPanel.iteration LeftReflector n k s).G.Width = s.G.Width :=
  ⟨rfl, rfl, rfl, rfl, rfl, rfl, rfl, rfl⟩

/-- The loop keeps the shapes of `A`, `U`, `V` and `G`. -/
theorem UpperPanel_loop_shapes
    (LeftReflector : El.Matrix F → El.Matrix F → F × El.Matrix F × El.Matrix F)
    (n : Nat) (s : UpperPanel.State F) :
    ∀ m, (UpperPanel.loop LeftReflector n m s).A.Height = s.A.Height
      ∧ (UpperPanel.loop LeftReflector n m s).A.Width = s.A.Width
      ∧ (UpperPanel.loop LeftReflector n m s).U.Height = s.U.Height
      ∧ (UpperPanel.loop LeftReflector n m s).U.Width = s.U.Width
      ∧ (UpperPanel.loop LeftReflector n m s).V.Height = s.V.Height
      ∧ (UpperPanel.loop LeftReflector n m s).V.Width = s.V.Width
      ∧ (UpperPanel.loop LeftReflector n m s).G.Height = s.G.Height
      ∧ (UpperPanel.loop LeftReflector n m s).G.Width = s.G.Width := by
  intro m
  induction m with
  | zero => exact ⟨rfl, rfl, rfl, rfl, rfl, rfl, rfl, rfl⟩
  | succ m ih => exact ih

/-- The view requests of an iteration are in bounds exactly when the fourteen ranges fit
the four shapes. -/
theorem UpperPanel_viewsInBounds_iff (n k : Nat) (s : UpperPanel.State F) :
    UpperPanel.viewsInBounds n k s = true
      ↔ (k + 2 ≤ n ∧ n ≤ s.A.Height ∧ n ≤ s.A.Width)
        ∧ (n ≤ s.U.Height ∧ k + 1 ≤ s.U.Width)
        ∧ (n ≤ s.V.Height ∧ k + 1 ≤ s.V.Width)
        ∧ (k + 1 ≤ s.G.Height ∧ k + 1 ≤ s.G.Width) := by
  simp only [UpperPanel.viewsInBounds, UpperPanel.views, El.Matrix.InBounds, IR,
    List.all_cons, List.all_nil, Bool.and_true, Bool.and_eq_true, decide_eq_true_eq]
  omega

end hessenberg_frames

/-! ## The panel loops of the packed-reflector routines -/

namespace elemental.advanced.internal

open elemental.basic.internal

variable {R : Type}

/-- The partition that `LockedPartitionUpDiagonal` hands out tiles the matrix. -/
theorem LockedPartitionUpDiagonal_Tiles (H : DistMatrix R .MC .MR) (diagABR : Nat) :
    (LockedPartitionUpDiagonal H diagABR).Tiles H := by
  simp only [Partition2x2.Tiles, LockedPartitionUpDiagonal, DistMatrix.View, true_and]
  omega

/-- The partition that `LockedPartitionDownDiagonal` hands out tiles the matrix. -/
theorem LockedPartitionDownDiagonal_Tiles (H : DistMatrix R .MC .MR) (diagATL : Nat) :
    (LockedPartitionDownDiagonal H diagATL).Tiles H := by
  simp only [Partition2x2.Tiles, LockedPartitionDownDiagonal, DistMatrix.View, true_and]
  omega

/-- A repartition up the diagonal followed by the slide keeps the tiling. -/
theorem SlideLockedPartitionUpDiagonal_Tiles (bsize : Nat) (H : DistMatrix R .MC .MR)
    (P : Partition2x2 R .MC .MR) (h : P.Tiles H) :
    (SlideLockedPartitionUpDiagonal (LockedRepartitionUpDiagonal bsize P)).Tiles H := by
  simp only [Partition2x2.Tiles] at h
  simp only [Partition2x2.Tiles, SlideLockedPartitionUpDiagonal, LockedRepartitionUpDiagonal,
    DistMatrix.View, DistMatrix.View1x2, DistMatrix.View2x1, DistMatrix.View2x2, true_and]
  omega

/-- A repartition down the diagonal followed by the slide keeps the tiling. -/
theorem SlideLockedPartitionDownDiagonal_Tiles (bsize : Nat) (H : DistMatrix R .MC .MR)
    (P : Partition2x2 R .MC .MR) (h : P.Tiles H) :
    (SlideLockedPartitionDownDiagonal (LockedRepartitionDownDiagonal bsize P)).Tiles H := by
  simp only [Partition2x2.Tiles] at h
  simp only [Partition2x2.Tiles, SlideLockedPartitionDownDiagonal,
    LockedRepartitionDownDiagonal, DistMatrix.View, DistMatrix.View1x2, DistMatrix.View2x1,
    DistMatrix.View2x2, true_and]
  omega

/-- Every partition that the loop of ApplyPackedReflectorsLLVB reaches tiles `H`. -/
theorem ApplyPackedReflectorsLLVB_partition_Tiles (bsize : Nat) (H : DistMatrix R .MC .MR) :
    ∀ m, (ApplyPackedReflectorsLLVB.partition bsize H m).Tiles H := by
  intro m
  induction m with
  | zero => exact LockedPartitionUpDiagonal_Tiles H 0
  | succ m ih => exact SlideLockedPartitionUpDiagonal_Tiles bsize H _ ih

/-- Every partition that the loop of ApplyPackedReflectorsRUHF reaches tiles `H`. -/
theorem ApplyPackedReflectorsRUHF_partition_Tiles (bsize : Nat) (H : DistMatrix R .MC .MR) :
    ∀ m, (ApplyPackedReflectorsRUHF.partition bsize H m).Tiles H := by
  intro m
  induction m with
  | zero => exact LockedPartitionDownDiagonal_Tiles H 0
  | succ m ih => exact SlideLockedPartitionDownDiagonal_Tiles bsize H _ ih

/-- For a partition that tiles `H`, the panel that ApplyPackedReflectorsLLVB requests has
non-negative dimensions and lies inside `H`. -/
theorem ApplyPackedReflectorsLLVB_HPan_bounds (bsize : Nat) (offset : Int)
    (H : DistMatrix R .MC .MR) (P : Partition2x2 R .MC .MR) (h : P.Tiles H) :
    0 ≤ ApplyPackedReflectorsLLVB.HPanHeight (LockedRepartitionUpDiagonal bsize P)
      ∧ 0 ≤ ApplyPackedReflectorsLLVB.HPanWidth offset (LockedRepartitionUpDiagonal bsize P)
      ∧ ((LockedRepartitionUpDiagonal bsize P).A00.Height : Int)
          + ApplyPackedReflectorsLLVB.HPanHeight (LockedRepartitionUpDiagonal bsize P)
          ≤ (H.Height : Int)
      ∧ ((LockedRepartitionUpDiagonal bsize P).A00.Width : Int)
          + ApplyPackedReflectorsLLVB.HPanWidth offset (LockedRepartitionUpDiagonal bsize P)
          ≤ (H.Width : Int) := by
  simp only [Partition2x2.Tiles] at h
  simp only [ApplyPackedReflectorsLLVB.HPanHeight, ApplyPackedReflectorsLLVB.HPanWidth,
    LockedRepartitionUpDiagonal, DistMatrix.View]
  omega

/-- For a partition that tiles `H`, the panel that ApplyPackedReflectorsRUHF requests has
non-negative dimensions and lies inside `H`. -/
theorem ApplyPackedReflectorsRUHF_HPan_bounds (bsize : Nat) (offset : Int)
    (H : DistMatrix R .MC .MR) (P : Partition2x2 R .MC .MR) (h : P.Tiles H) :
    0 ≤ ApplyPackedReflectorsRUHF.HPanHeight offset (LockedRepartitionDownDiagonal bsize P)
      ∧ 0 ≤ ApplyPackedReflectorsRUHF.HPanWidth (LockedRepartitionDownDiagonal bsize P)
      ∧ ((LockedRepartitionDownDiagonal bsize P).A00.Height : Int)
          + ApplyPackedReflectorsRUHF.HPanHeight offset (LockedRepartitionDownDiagonal bsize P)
          ≤ (H.Height : Int)
      ∧ ((LockedRepartitionDownDiagonal bsize P).A00.Width : Int)
          + ApplyPackedReflectorsRUHF.HPanWidth (LockedRepartitionDownDiagonal bsize P)
          ≤ (H.Width : Int) := by
  simp only [Partition2x2.Tiles] at h
  simp only [ApplyPackedReflectorsRUHF.HPanHeight, ApplyPackedReflectorsRUHF.HPanWidth,
    LockedRepartitionDownDiagonal, DistMatrix.View]
  omega

/-- A view request inside the bounds does not fail. -/
theorem LockedView_isSome (H : DistMatrix R .MC .MR) (i j height width : Int)
    (h : 0 ≤ i ∧ 0 ≤ j ∧ 0 ≤ height ∧ 0 ≤ width
      ∧ i + height ≤ (H.Height : Int) ∧ j + width ≤ (H.Width : Int)) :
    ∃ HPan, H.LockedView i j height width = some HPan :=
  ⟨_, if_pos h⟩

/-- With enough fuel the loop of ApplyPackedReflectorsLLVB ends, and no panel view
fails on the way. -/
theorem ApplyPackedReflectorsLLVB_loop_returns (bsize : Nat) (rangeWhat : String)
    (panel : Int → DistMatrix R .MC .MR → Partition3x3 R .MC .MR → DistMatrix R .MC .MR →
      DistMatrix R .MC .MR)
    (offset : Int) (H : DistMatrix R .MC .MR) (hb : 1 ≤ bsize) :
    ∀ (fuel : Nat) (P : Partition2x2 R .MC .MR) (A : DistMatrix R .MC .MR),
      P.Tiles H → P.ATL.Height ≤ fuel →
      ∃ A', ApplyPackedReflectorsLLVB.loop bsize rangeWhat panel offset H fuel P A
        = Outcome.returned A' := by
  intro fuel
  induction fuel with
  | zero =>
    intro P A hT hfuel
    unfold ApplyPackedReflectorsLLVB.loop
    have hT' := hT
    simp only [Partition2x2.Tiles] at hT'
    rw [if_neg (by omega)]
    exact ⟨A, rfl⟩
  | succ fuel ih =>
    intro P A hT hfuel
    unfold ApplyPackedReflectorsLLVB.loop
    by_cases hc : P.ABR.Height < H.Height ∧ P.ABR.Width < H.Width
    · rw [if_pos hc]
      have hbd := ApplyPackedReflectorsLLVB_HPan_bounds bsize offset H P hT
      obtain ⟨HPan, hHPan⟩ := LockedView_isSome H
        ((LockedRepartitionUpDiagonal bsize P).A00.Height : Int)
        ((LockedRepartitionUpDiagonal bsize P).A00.Width : Int)
        (ApplyPackedReflectorsLLVB.HPanHeight (LockedRepartitionUpDiagonal bsize P))
        (ApplyPackedReflectorsLLVB.HPanWidth offset (LockedRepartitionUpDiagonal bsize P))
        ⟨Int.natCast_nonneg _, Int.natCast_nonneg _, hbd.1, hbd.2.1, hbd.2.2.1, hbd.2.2.2⟩
      simp only [hHPan]
      apply ih _ _ (SlideLockedPartitionUpDiagonal_Tiles bsize H P hT)
      have hT' := hT
      simp only [Partition2x2.Tiles] at hT'
      simp only [SlideLockedPartitionUpDiagonal, LockedRepartitionUpDiagonal, DistMatrix.View]
      omega
    · rw [if_neg hc]
      exact ⟨A, rfl⟩

/-- With enough fuel the loop of ApplyPackedReflectorsRUHF ends, and no panel view
fails on the way. -/
theorem ApplyPackedReflectorsRUHF_loop_returns (bsize : Nat) (rangeWhat : String)
    (panel : Int → DistMatrix R .MC .MR → Partition3x3 R .MC .MR → DistMatrix R .MC .MR →
      DistMatrix R .MC .MR)
    (offset : Int) (H : DistMatrix R .MC .MR) (hb : 1 ≤ bsize) :
    ∀ (fuel : Nat) (P : Partition2x2 R .MC .MR) (A : DistMatrix R .MC .MR),
      P.Tiles H → P.ABR.Height ≤ fuel →
      ∃ A', ApplyPackedReflectorsRUHF.loop bsize rangeWhat panel offset H fuel P A
        = Outcome.returned A' := by
  intro fuel
  induction fuel with
  | zero =>
    intro P A hT hfuel
    unfold ApplyPackedReflectorsRUHF.loop
    have hT' := hT
    simp only [Partition2x2.Tiles] at hT'
    rw [if_neg (by omega)]
    exact ⟨A, rfl⟩
  | succ fuel ih =>
    intro P A hT hfuel
    unfold ApplyPackedReflectorsRUHF.loop
    by_cases hc : P.ATL.Height < H.Height ∧ P.ATL.Width < H.Width
    · rw [if_pos hc]
      have hbd := ApplyPackedReflectorsRUHF_HPan_bounds bsize offset H P hT
      obtain ⟨HPan, hHPan⟩ := LockedView_isSome H
        ((LockedRepartitionDownDiagonal bsize P).A00.Height : Int)
        ((LockedRepartitionDownDiagonal bsize P).A00.Width : Int)
        (ApplyPackedReflectorsRUHF.HPanHeight offset (LockedRepartitionDownDiagonal bsize P))
        (ApplyPackedReflectorsRUHF.HPanWidth (LockedRepartitionDownDiagonal bsize P))
        ⟨Int.natCast_nonneg _, Int.natCast_nonneg _, hbd.1, hbd.2.1, hbd.2.2.1, hbd.2.2.2⟩
      simp only [hHPan]
      apply ih _ _ (SlideLockedPartitionDownDiagonal_Tiles bsize H P hT)
      have hT' := hT
      simp only [Partition2x2.Tiles] at hT'
      simp only [SlideLockedPartitionDownDiagonal, LockedRepartitionDownDiagonal,
        DistMatrix.View]
      omega
    · rw [if_neg hc]
      exact ⟨A, rfl⟩

end elemental.advanced.internal

namespace elemental.advanced.internal

open elemental.basic elemental.basic.internal

variable {F : Type} [Field F] [StarRing F]

/-- On one grid the partitions succeed, and tracking the grid of the views changes
nothing. -/
theorem HegstLUVar5_onGrids_same_grid (RELEASE : Bool) (mismatchWhat : String)
    (bsize fuel : Nat) (A U : DistMatrix F .MC .MR) (h : A.Grid = U.Grid) :
    HegstLUVar5.onGrids RELEASE mismatchWhat bsize fuel A U
      = HegstLUVar5 RELEASE bsize fuel A U := by
  have hU : LockedPartitionDownDiagonal.onGrid A.Grid U 0
      = some (LockedPartitionDownDiagonal U 0) := if_pos h.symm
  have hA : LockedPartitionDownDiagonal.onGrid A.Grid A 0
      = some (LockedPartitionDownDiagonal A 0) := if_pos rfl
  unfold HegstLUVar5.onGrids HegstLUVar5
  simp only [hU, hA] <;> rfl

end elemental.advanced.internal

section hessenberg_iteration

open El El.hessenberg elemental

variable {F : Type} [Field F] [StarRing F]

/-- The call of LeftReflector in iteration `k`: its arguments are the views `alpha21T`
and `a21B` of column `k` of `A` as the first part of the iteration leaves it. -/
theorem UpperPanel_reflector_call
    (LeftReflector : El.Matrix F → El.Matrix F → F × El.Matrix F × El.Matrix F)
    (n k : Nat) (s : UpperPanel.State F) :
    UpperPanel.reflector LeftReflector n k s
      = LeftReflector
          ((UpperPanel.column n k s).View (IR (k + 1) (k + 2)) (Range.mk k (k + 1)))
          ((UpperPanel.column n k s).View (IR (k + 2) n) (Range.mk k (k + 1))) :=
  rfl

/-- Iteration `k` leaves the rows of column `k` of `A` down to the diagonal as the first
part of the iteration wrote them. -/
theorem UpperPanel_iteration_A_top
    (LeftReflector : El.Matrix F → El.Matrix F → F × El.Matrix F × El.Matrix F)
    (n k : Nat) (s : UpperPanel.State F) (r : Nat) (h : r ≤ k) :
    (UpperPanel.iteration LeftReflector n k s).A.Get r k
      = (UpperPanel.column n k s).Get r k := by
  simp only [UpperPanel.iteration, El.Matrix.Store, IR]
  have c1 : ¬ (k + 2 ≤ r ∧ r < n ∧ k ≤ k ∧ k < k + 1) := by omega
  have c2 : ¬ (k + 1 ≤ r ∧ r < k + 2 ∧ k ≤ k ∧ k < k + 1) := by omega
  rw [if_neg c1, if_neg c2]

/-- Iteration `k` leaves in `A(k+1,k)` what LeftReflector leaves in `alpha21T`. -/
theorem UpperPanel_iteration_A_alpha
    (LeftReflector : El.Matrix F → El.Matrix F → F × El.Matrix F × El.Matrix F)
    (n k : Nat) (s : UpperPanel.State F) :
    (UpperPanel.iteration LeftReflector n k s).A.Get (k + 1) k
      = (UpperPanel.reflector LeftReflector n k s).2.1.Get 0 0 := by
  simp only [UpperPanel.iteration, El.Matrix.Store, IR]
  have c1 : ¬ (k + 2 ≤ k + 1 ∧ k + 1 < n ∧ k ≤ k ∧ k < k + 1) := by omega
  have c2 : (k + 1 ≤ k + 1 ∧ k + 1 < k + 2 ∧ k ≤ k ∧ k < k + 1) := by omega
  rw [if_neg c1, if_pos c2, Nat.sub_self, Nat.sub_self]

/-- Iteration `k` leaves in the rows of `A(k+2:n,k)` what LeftReflector leaves in
`a21B`. -/
theorem UpperPanel_iteration_A_below
    (LeftReflector : El.Matrix F → El.Matrix F → F × El.Matrix F × El.Matrix F)
    (n k : Nat) (s : UpperPanel.State F) (r : Nat) (h1 : k + 2 ≤ r) (h2 : r < n) :
    (UpperPanel.iteration LeftReflector n k s).A.Get r k
      = (UpperPanel.reflector LeftReflector n k s).2.2.Get (r - (k + 2)) 0 := by
  simp only [UpperPanel.iteration, El.Matrix.Store, IR]
  have c1 : (k + 2 ≤ r ∧ r < n ∧ k ≤ k ∧ k < k + 1) := by omega
  rw [if_pos c1, Nat.sub_self]

end hessenberg_iteration

open elemental elemental.utilities elemental.basic elemental.basic.internal

/-! ## The claims -/

/-- C1: local-size conservation for `[*,VR]`. For every global width `n ≥ 0`, grid size
`p ≥ 1` and row alignment `a` in `[0,p)`, the local widths that the constructor assigns
to the `p` in-grid processes, namely `LocalLength(n, VRRank, a, p)` for
`VRRank = 0..p-1`, sum to exactly `n` (whether or not `p` divides `n`). -/
theorem C1_local_width_conservation (height : Int) (constrained : Bool) (n p a : Nat)
    (hp : 1 ≤ p) (_ha : a < p) :
    (∑ r in Finset.range p,
      (DistMatrixBase_STAR_VR height n constrained a (Grid.mk true r p)).localWidth) = n ∧
    (∑ r in Finset.range p, LocalLength n r a p) = n := by
  have hsum : (∑ r in Finset.range p, LocalLength n r a p) = n := by
    simp only [LocalLength_natCast]
    rw [← Nat.cast_sum, countP_Owns_sum n p a (by omega)]
  exact ⟨by simpa [DistMatrixBase_STAR_VR] using hsum, hsum⟩

/-- Witness of C1: width 5 over 2 processes with alignment 1. -/
theorem C1_local_width_conservation_witness :
    (1 ≤ 2 ∧ 1 < 2) ∧
    ((∑ r in Finset.range 2,
      (DistMatrixBase_STAR_VR 3 ((5 : Nat) : Int) false ((1 : Nat) : Int)
        (Grid.mk true r ((2 : Nat) : Int))).localWidth) = ((5 : Nat) : Int) ∧
    (∑ r in Finset.range 2,
      LocalLength ((5 : Nat) : Int) r ((1 : Nat) : Int) ((2 : Nat) : Int)) = ((5 : Nat) : Int)) :=
  ⟨⟨by decide, by decide⟩,
    C1_local_width_conservation 3 false 5 2 1 (by decide) (by decide)⟩

/-- C2: ownership partition. For every cyclic stride `s ≥ 1`, alignment `a` in `[0,s)`
and axis length `n`, every global index `i` in `[0,n)` is owned by exactly one process
coordinate `c` in `[0,s)`, and a coordinate `c` in `[0,s)` owns `i` exactly when its
shift is congruent to `i` modulo `s`; with `s = 2`, `a = 0`, `n = 5` the coordinate 0
owns exactly the indices 0, 2 and 4. -/
theorem C2_ownership_partition (s a n i : Nat) (hs : 1 ≤ s) (_ha : a < s) (hi : i < n) :
    (∃! c : Nat, c < s ∧ i ∈ OwnedIndices n c a s) ∧
    (∀ c : Nat, c < s →
      (i ∈ OwnedIndices n c a s ↔ Shift c a s % (s : Int) = (i : Int) % (s : Int))) ∧
    OwnedIndices 5 0 0 2 = [0, 2, 4] := by
  have hs0 : (0 : Int) < (s : Int) := by exact_mod_cast hs
  have hmem : ∀ c : Int, i ∈ OwnedIndices n c a s ↔ Owner i a s = c := by
    intro c
    simp [OwnedIndices, List.mem_filter, List.mem_range, hi, Owns]
  have h0 := Owner_nonneg i a s hs0
  have hlt := Owner_lt i a s hs0
  refine ⟨⟨(Owner i a s).toNat, ⟨by omega, ?_⟩, ?_⟩, ?_, by decide⟩
  · rw [hmem, Int.toNat_of_nonneg h0]
  · rintro c ⟨_, hc⟩
    rw [hmem] at hc
    rw [hc]
    simp
  · intro c hc
    have hcs : (c : Int) < (s : Int) := by exact_mod_cast hc
    rw [hmem, Owner_eq_iff_shift i c a s hs0 (Int.ofNat_zero_le c) hcs,
      ← Int.emod_eq_emod_iff_emod_sub_eq_zero]
    exact eq_comm

/-- Witness of C2: index 3 of an axis of length 5, stride 2, alignment 1. -/
theorem C2_ownership_partition_witness :
    (1 ≤ 2 ∧ 1 < 2 ∧ 3 < 5) ∧
    ((∃! c : Nat, c < 2 ∧
        3 ∈ OwnedIndices ((5 : Nat) : Int) c ((1 : Nat) : Int) ((2 : Nat) : Int)) ∧
    (∀ c : Nat, c < 2 →
      (3 ∈ OwnedIndices ((5 : Nat) : Int) c ((1 : Nat) : Int) ((2 : Nat) : Int) ↔
        Shift c ((1 : Nat) : Int) ((2 : Nat) : Int) % ((2 : Nat) : Int)
          = ((3 : Nat) : Int) % ((2 : Nat) : Int))) ∧
    OwnedIndices 5 0 0 2 = [0, 2, 4]) :=
  ⟨⟨by decide, by decide, by decide⟩,
    C2_ownership_partition 2 1 5 3 (by decide) (by decide) (by decide)⟩

/-- C3: the `[*,VR]` constructors derive the local shape from the global shape, the row
alignment, the grid size and the VR rank alone. On an in-grid process the local height is
the height, the column alignment and column shift are 0, the row shift is
`Shift(VRRank, rowAlignment, Size)` and the local width is
`LocalLength(width, VRRank, rowAlignment, Size)`, the number of global column indices in
`[0,width)` that the process owns; outside the grid the local height, local width and
row shift are 0. This holds with and without a supplied leading dimension. -/
theorem C3_constructor_local_shape (height width rowAlignment ldim : Int)
    (constrained : Bool) (g : Grid) :
    (if g.InGrid = true then
      (DistMatrixBase_STAR_VR height width constrained rowAlignment g).localHeight = height ∧
      (DistMatrixBase_STAR_VR height width constrained rowAlignment g).colAlignment = 0 ∧
      (DistMatrixBase_STAR_VR height width constrained rowAlignment g).colShift = 0 ∧
      (DistMatrixBase_STAR_VR height width constrained rowAlignment g).rowShift
        = Shift g.VRRank rowAlignment g.Size ∧
      (DistMatrixBase_STAR_VR height width constrained rowAlignment g).localWidth
        = LocalLength width g.VRRank rowAlignment g.Size ∧
      (DistMatrixBase_STAR_VR height width constrained rowAlignment g).localWidth
        = ((OwnedIndices width g.VRRank rowAlignment g.Size).length : Int)
    else
      (DistMatrixBase_STAR_VR height width constrained rowAlignment g).localHeight = 0 ∧
      (DistMatrixBase_STAR_VR height width constrained rowAlignment g).localWidth = 0 ∧
      (DistMatrixBase_STAR_VR height width constrained rowAlignment g).rowShift = 0) ∧
    DistMatrixBase_STAR_VR_ldim height width constrained rowAlignment ldim g
      = { DistMatrixBase_STAR_VR height width constrained rowAlignment g with
          ldim := some ldim } := by
  refine ⟨?_, rfl⟩
  cases hg : g.InGrid
  · simp [DistMatrixBase_STAR_VR, hg]
  · simp [DistMatrixBase_STAR_VR, hg, LocalLength, OwnedIndices, List.countP_eq_length_filter]

/-- C4, counterexample: with stride 3 and alignment 1 the coordinate 1 owns global index
0, so its shift is 0, whereas `(a + c) mod s` is 2. -/
theorem C4_shift_counterexample :
    Owner 0 1 3 = 1 ∧ Shift 1 1 3 = 0 ∧ Shift 1 1 3 ≠ (1 + 1) % 3 := by
  decide

/-- C4, amended: for every stride `s ≥ 1`, alignment `a` in `[0,s)` and process
coordinate `c` in `[0,s)`, the alignment is the coordinate that owns global index 0 and
the shift of the process, the first global index it owns along the axis, equals
`(c - a) mod s`, computed as `(c + s - a) mod s`. -/
theorem C4_shift_amended (s a c : Int) (hs : 1 ≤ s) (ha0 : 0 ≤ a) (ha : a < s)
    (hc0 : 0 ≤ c) (hc : c < s) :
    Owner 0 a s = a ∧
    Shift c a s = (c + s - a) % s ∧
    Owner (Shift c a s) a s = c ∧
    (∀ j : Int, 0 ≤ j → j < Shift c a s → Owner j a s ≠ c) := by
  have hs0 : 0 < s := by omega
  rw [Shift_closed c a s hs0 hc0 hc]
  refine ⟨?_, rfl, Owner_closed_shift c a s hc0 hc, ?_⟩
  · rw [Owner, Int.add_zero, Int.emod_eq_of_lt ha0 ha]
  · intro j hj0 hj
    exact Owner_below_closed_shift c a s j hj0 hj hs0

/-- Witness of C4 (amended): stride 3, alignment 1, coordinate 0, whose shift is 2. -/
theorem C4_shift_amended_witness :
    ((1 : Int) ≤ 3 ∧ (0 : Int) ≤ 1 ∧ (1 : Int) < 3 ∧ (0 : Int) ≤ 0 ∧ (0 : Int) < 3) ∧
    (Owner 0 1 3 = 1 ∧
    Shift 0 1 3 = (0 + 3 - 1) % 3 ∧
    Owner (Shift 0 1 3) 1 3 = 0 ∧
    (∀ j : Int, 0 ≤ j → j < Shift 0 1 3 → Owner j 1 3 ≠ 0)) :=
  ⟨⟨by decide, by decide, by decide, by decide, by decide⟩,
    C4_shift_amended 3 1 0 (by decide) (by decide) (by decide) (by decide) (by decide)⟩

/-- C5, counterexample: a constructor called with row alignment 5 over a grid of 2
processes stores 5, which is neither `5 mod 2` nor inside `[0,2)`. -/
theorem C5_alignment_counterexample :
    (DistMatrix_STAR_VR 0 0 false 5 (Grid.mk true 0 2)).rowAlignment = 5 ∧
    (DistMatrix_STAR_VR 0 0 false 5 (Grid.mk true 0 2)).rowAlignment ≠ 5 % 2 ∧
    ¬ (DistMatrix_STAR_VR 0 0 false 5 (Grid.mk true 0 2)).rowAlignment < 2 := by
  decide

/-- C5, amended: a `[*,VR]` constructor stores the row alignment it is passed unchanged
and hands the same unreduced value to `Shift` and `LocalLength`; over a grid of `p ≥ 1`
processes the stored value is `rowAlignment mod p` exactly when the caller's value
already lies in `[0,p)`. -/
theorem C5_alignment_amended (height width rowAlignment : Int) (constrained : Bool)
    (g : Grid) (hp : 1 ≤ g.Size) :
    (DistMatrix_STAR_VR height width constrained rowAlignment g).rowAlignment = rowAlignment ∧
    (DistMatrixBase_STAR_VR height width constrained rowAlignment g).rowAlignment
      = rowAlignment ∧
    (DistMatrix_STAR_VR height width constrained rowAlignment g).rowShift
      = (if g.InGrid = true then Shift g.VRRank rowAlignment g.Size else 0) ∧
    (DistMatrix_STAR_VR height width constrained rowAlignment g).localWidth
      = (if g.InGrid = true then LocalLength width g.VRRank rowAlignment g.Size else 0) ∧
    ((DistMatrix_STAR_VR height width constrained rowAlignment g).rowAlignment
        = rowAlignment % g.Size ↔ (0 ≤ rowAlignment ∧ rowAlignment < g.Size)) := by
  refine ⟨rfl, rfl, rfl, rfl, ?_⟩
  show rowAlignment = rowAlignment % g.Size ↔ _
  constructor
  · intro h
    rw [h]
    exact ⟨Int.emod_nonneg _ (by omega), Int.emod_lt_of_pos _ (by omega)⟩
  · rintro ⟨h0, h1⟩
    exact (Int.emod_eq_of_lt h0 h1).symm

/-- Witness of C5 (amended): row alignment 1 over a grid of 2 processes. -/
theorem C5_alignment_amended_witness :
    1 ≤ (Grid.mk true 0 2).Size ∧
    ((DistMatrix_STAR_VR 4 5 false 1 (Grid.mk true 0 2)).rowAlignment = 1 ∧
    (DistMatrixBase_STAR_VR 4 5 false 1 (Grid.mk true 0 2)).rowAlignment = 1 ∧
    (DistMatrix_STAR_VR 4 5 false 1 (Grid.mk true 0 2)).rowShift
      = (if (Grid.mk true 0 2).InGrid = true then
          Shift (Grid.mk true 0 2).VRRank 1 (Grid.mk true 0 2).Size else 0) ∧
    (DistMatrix_STAR_VR 4 5 false 1 (Grid.mk true 0 2)).localWidth
      = (if (Grid.mk true 0 2).InGrid = true then
          LocalLength 5 (Grid.mk true 0 2).VRRank 1 (Grid.mk true 0 2).Size else 0) ∧
    ((DistMatrix_STAR_VR 4 5 false 1 (Grid.mk true 0 2)).rowAlignment
        = 1 % (Grid.mk true 0 2).Size ↔ ((0 : Int) ≤ 1 ∧ 1 < (Grid.mk true 0 2).Size))) :=
  ⟨by decide, C5_alignment_amended 4 5 1 false (Grid.mk true 0 2) (by decide)⟩

/-- C6, counterexample: for height 1 on column stride 3, coordinate 0 holds one row under
alignment 0 and none under alignment 1. -/
theorem C6_realign_counterexample :
    LocalLength 1 0 0 3 = 1 ∧ LocalLength 1 0 1 3 = 0 ∧
    LocalLength 1 0 0 3 ≠ LocalLength 1 0 1 3 := by
  decide

/-- C6, amended: on a grid of column stride 3, changing the column alignment from 0 to 1
leaves the local row count of all three process coordinates unchanged exactly when the
height `n` is a multiple of 3; for every `n` the count that coordinate `c` had under
alignment 0 is the count of coordinate `(c + 1) mod 3` under alignment 1. -/
theorem C6_realign_amended (n : Nat) :
    ((LocalLength n 0 0 3 = LocalLength n 0 1 3 ∧
      LocalLength n 1 0 3 = LocalLength n 1 1 3 ∧
      LocalLength n 2 0 3 = LocalLength n 2 1 3) ↔ 3 ∣ n) ∧
    LocalLength n 0 0 3 = LocalLength n 1 1 3 ∧
    LocalLength n 1 0 3 = LocalLength n 2 1 3 ∧
    LocalLength n 2 0 3 = LocalLength n 0 1 3 := by
  have h00 := countP_three 0 0 2 (by omega) (by intro m; omega) n
  have h10 := countP_three 0 1 1 (by omega) (by intro m; omega) n
  have h20 := countP_three 0 2 0 (by omega) (by intro m; omega) n
  have h01 := countP_three 1 0 0 (by omega) (by intro m; omega) n
  have h11 := countP_three 1 1 2 (by omega) (by intro m; omega) n
  have h21 := countP_three 1 2 1 (by omega) (by intro m; omega) n
  simp only [LocalLength_natCast, h00, h10, h20, h01, h11, h21]
  refine ⟨⟨?_, ?_⟩, ?_, ?_, ?_⟩
  · rintro ⟨h1, h2, h3⟩
    omega
  · intro h
    omega
  all_goals trivial

/-- C7: redistribution round trip. On every grid, for every two of the fourteen declared
distributions `da` and `db` (any alignments, the root inside the grid for `[o,o]`),
assigning a matrix from `da` to `db` and back to `da` reproduces the local buffer of
every process; and the chain `X1[VC,*] <- X1[MC,MR]`, `X1[MC,*] <- X1[VC,*]`,
`X1[MC,MR] <- X1[MC,*]` of TrsmRUN reproduces the `[MC,MR]` matrix and every global
entry of it. -/
theorem C7_redistribution_round_trip {α : Type} [Inhabited α] (g : El.Grid)
    (hr : 1 ≤ g.Height) (hc : 1 ≤ g.Width) (da db : El.DistData)
    (hla : da.Legal = true) (hlb : db.Legal = true)
    (hra : da.colDist = El.Dist.CIRC → da.root < g.Size)
    (hrb : db.colDist = El.Dist.CIRC → db.root < g.Size)
    (m n : Nat) (A : Nat → Nat → α) (ca ra cv cm : Nat) :
    (∀ q, (((El.DistMatrix.FromGlobal g da m n A).assign db).assign da).LocalBuffer q
        = (El.DistMatrix.FromGlobal g da m n A).LocalBuffer q) ∧
    ((El.DistMatrix.FromGlobal g da m n A).assign db).assign da
      = El.DistMatrix.FromGlobal g da m n A ∧
    (((El.DistMatrix.FromGlobal g (El.DistData.mk El.Dist.MC El.Dist.MR ca ra 0) m n A).assign
        (El.DistData.mk El.Dist.VC El.Dist.STAR cv 0 0)).assign
        (El.DistData.mk El.Dist.MC El.Dist.STAR cm 0 0)).assign
        (El.DistData.mk El.Dist.MC El.Dist.MR ca ra 0)
      = El.DistMatrix.FromGlobal g (El.DistData.mk El.Dist.MC El.Dist.MR ca ra 0) m n A ∧
    (∀ i j, i < m → j < n →
      ((((El.DistMatrix.FromGlobal g (El.DistData.mk El.Dist.MC El.Dist.MR ca ra 0) m n A).assign
        (El.DistData.mk El.Dist.VC El.Dist.STAR cv 0 0)).assign
        (El.DistData.mk El.Dist.MC El.Dist.STAR cm 0 0)).assign
        (El.DistData.mk El.Dist.MC El.Dist.MR ca ra 0)).Get i j = A i j) := by
  have hcov : ∀ d : El.DistData, d.Legal = true → (d.colDist = El.Dist.CIRC → d.root < g.Size) →
      ∀ i j, ∃ q, q < g.Size ∧ El.Stores g d q i j = true :=
    fun d hl hroot => El.Legal_covers g hr hc d hl hroot
  have hround : ((El.DistMatrix.FromGlobal g da m n A).assign db).assign da
      = El.DistMatrix.FromGlobal g da m n A := by
    rw [El.assign_FromGlobal g da db m n A (hcov da hla hra),
      El.assign_FromGlobal g db da m n A (hcov db hlb hrb)]
  have hchain : (((El.DistMatrix.FromGlobal g (El.DistData.mk El.Dist.MC El.Dist.MR ca ra 0)
        m n A).assign (El.DistData.mk El.Dist.VC El.Dist.STAR cv 0 0)).assign
        (El.DistData.mk El.Dist.MC El.Dist.STAR cm 0 0)).assign
        (El.DistData.mk El.Dist.MC El.Dist.MR ca ra 0)
      = El.DistMatrix.FromGlobal g (El.DistData.mk El.Dist.MC El.Dist.MR ca ra 0) m n A := by
    rw [El.assign_FromGlobal g _ _ m n A
        (hcov (El.DistData.mk El.Dist.MC El.Dist.MR ca ra 0) rfl (by simp)),
      El.assign_FromGlobal g _ _ m n A
        (hcov (El.DistData.mk El.Dist.VC El.Dist.STAR cv 0 0) rfl (by simp)),
      El.assign_FromGlobal g _ _ m n A
        (hcov (El.DistData.mk El.Dist.MC El.Dist.STAR cm 0 0) rfl (by simp))]
  refine ⟨fun q => by rw [hround], hround, hchain, ?_⟩
  intro i j hi hj
  rw [hchain]
  exact El.Get_FromGlobal g _ m n A i j hi hj
    (hcov (El.DistData.mk El.Dist.MC El.Dist.MR ca ra 0) rfl (by simp) i j)

/-- Witness of C7: a 2 x 3 grid, from `[MD,*]` to `[*,VR]` and back, for a 5 x 4 matrix of
naturals. -/
theorem C7_redistribution_round_trip_witness :
    (1 ≤ (El.Grid.mk 2 3).Height ∧ 1 ≤ (El.Grid.mk 2 3).Width ∧
      (El.DistData.mk El.Dist.MD El.Dist.STAR 1 0 0).Legal = true ∧
      (El.DistData.mk El.Dist.STAR El.Dist.VR 0 4 0).Legal = true) ∧
    ((∀ q, (((El.DistMatrix.FromGlobal (El.Grid.mk 2 3)
          (El.DistData.mk El.Dist.MD El.Dist.STAR 1 0 0) 5 4 (fun i j => 10 * i + j)).assign
          (El.DistData.mk El.Dist.STAR El.Dist.VR 0 4 0)).assign
          (El.DistData.mk El.Dist.MD El.Dist.STAR 1 0 0)).LocalBuffer q
        = (El.DistMatrix.FromGlobal (El.Grid.mk 2 3)
          (El.DistData.mk El.Dist.MD El.Dist.STAR 1 0 0) 5 4 (fun i j => 10 * i + j)).LocalBuffer q) ∧
    ((El.DistMatrix.FromGlobal (El.Grid.mk 2 3)
          (El.DistData.mk El.Dist.MD El.Dist.STAR 1 0 0) 5 4 (fun i j => 10 * i + j)).assign
          (El.DistData.mk El.Dist.STAR El.Dist.VR 0 4 0)).assign
          (El.DistData.mk El.Dist.MD El.Dist.STAR 1 0 0)
      = El.DistMatrix.FromGlobal (El.Grid.mk 2 3)
          (El.DistData.mk El.Dist.MD El.Dist.STAR 1 0 0) 5 4 (fun i j => 10 * i + j) ∧
    (((El.DistMatrix.FromGlobal (El.Grid.mk 2 3) (El.DistData.mk El.Dist.MC El.Dist.MR 1 2 0)
        5 4 (fun i j => 10 * i + j)).assign
        (El.DistData.mk El.Dist.VC El.Dist.STAR 3 0 0)).assign
        (El.DistData.mk El.Dist.MC El.Dist.STAR 1 0 0)).assign
        (El.DistData.mk El.Dist.MC El.Dist.MR 1 2 0)
      = El.DistMatrix.FromGlobal (El.Grid.mk 2 3) (El.DistData.mk El.Dist.MC El.Dist.MR 1 2 0)
        5 4 (fun i j => 10 * i + j) ∧
    (∀ i j, i < 5 → j < 4 →
      ((((El.DistMatrix.FromGlobal (El.Grid.mk 2 3) (El.DistData.mk El.Dist.MC El.Dist.MR 1 2 0)
        5 4 (fun i j => 10 * i + j)).assign
        (El.DistData.mk El.Dist.VC El.Dist.STAR 3 0 0)).assign
        (El.DistData.mk El.Dist.MC El.Dist.STAR 1 0 0)).assign
        (El.DistData.mk El.Dist.MC El.Dist.MR 1 2 0)).Get i j = 10 * i + j)) :=
  ⟨⟨by decide, by decide, by decide, by decide⟩,
    C7_redistribution_round_trip (El.Grid.mk 2 3) (by decide) (by decide)
      (El.DistData.mk El.Dist.MD El.Dist.STAR 1 0 0)
      (El.DistData.mk El.Dist.STAR El.Dist.VR 0 4 0) (by decide) (by decide)
      (by decide) (by decide) 5 4 (fun i j => 10 * i + j) 1 2 3 1⟩

/-- C8: single-owner gather. After a matrix in any of the fourteen declared distributions
is assigned to `[o,o]` with root `r`, the local buffer of process `r` holds the whole
global matrix in column-major order and every other process stores nothing; for a 3 x 3
matrix that is row-cyclic over a grid of 4 processes and root rank 2, the buffer of rank
2 holds the 9 entries in column-major order and the other buffers are empty. -/
theorem C8_single_owner_gather {α : Type} [Inhabited α] (g : El.Grid)
    (hr : 1 ≤ g.Height) (hc : 1 ≤ g.Width) (d : El.DistData) (hl : d.Legal = true)
    (hd : d.colDist = El.Dist.CIRC → d.root < g.Size) (m n root : Nat)
    (A : Nat → Nat → α) :
    (∀ q, ((El.DistMatrix.FromGlobal g d m n A).assign
        (El.DistData.mk El.Dist.CIRC El.Dist.CIRC 0 0 root)).LocalBuffer q
      = if q = root then El.Pack A (List.range m) (List.range n) else []) ∧
    (g.Size = 4 → ∀ align q,
      ((El.DistMatrix.FromGlobal g (El.DistData.mk El.Dist.VC El.Dist.STAR align 0 0) 3 3 A).assign
        (El.DistData.mk El.Dist.CIRC El.Dist.CIRC 0 0 2)).LocalBuffer q
      = if q = 2 then
          [A 0 0, A 1 0, A 2 0, A 0 1, A 1 1, A 2 1, A 0 2, A 1 2, A 2 2]
        else []) := by
  have hgather : ∀ (d' : El.DistData) (m' n' root' : Nat) (q : Nat), d'.Legal = true →
      (d'.colDist = El.Dist.CIRC → d'.root < g.Size) →
      ((El.DistMatrix.FromGlobal g d' m' n' A).assign
        (El.DistData.mk El.Dist.CIRC El.Dist.CIRC 0 0 root')).LocalBuffer q
      = if q = root' then El.Pack A (List.range m') (List.range n') else [] := by
    intro d' m' n' root' q hl' hd'
    rw [El.assign_FromGlobal g d' _ m' n' A (El.Legal_covers g hr hc d' hl' hd')]
    by_cases hq : q = root'
    · subst hq
      have hrows : ∀ k, (List.range k).filter
          (El.Owns g q El.Dist.CIRC 0 q) = List.range k :=
        fun k => List.filter_eq_self.mpr (fun i _ => by simp [El.Owns])
      simp [El.DistMatrix.FromGlobal, El.LocalRows, El.LocalCols, hrows]
    · have hcols : ∀ k, (List.range k).filter
          (El.Owns g root' El.Dist.CIRC 0 q) = [] :=
        fun k => List.filter_eq_nil_iff.mpr (fun i _ => by simp [El.Owns, hq])
      simp [El.DistMatrix.FromGlobal, El.LocalRows, El.LocalCols, hq, hcols, El.Pack]
  refine ⟨fun q => hgather d m n root q hl hd, ?_⟩
  intro _ align q
  rw [hgather (El.DistData.mk El.Dist.VC El.Dist.STAR align 0 0) 3 3 2 q rfl (by simp)]
  rfl

/-- Witness of C8: a 2 x 2 grid, a `[MC,MR]` matrix of naturals, root 2. -/
theorem C8_single_owner_gather_witness :
    (1 ≤ (El.Grid.mk 2 2).Height ∧ 1 ≤ (El.Grid.mk 2 2).Width ∧
      (El.DistData.mk El.Dist.MC El.Dist.MR 0 1 0).Legal = true) ∧
    ((∀ q, ((El.DistMatrix.FromGlobal (El.Grid.mk 2 2)
          (El.DistData.mk El.Dist.MC El.Dist.MR 0 1 0) 3 3 (fun i j => 10 * i + j)).assign
        (El.DistData.mk El.Dist.CIRC El.Dist.CIRC 0 0 2)).LocalBuffer q
      = if q = 2 then El.Pack (fun i j => 10 * i + j) (List.range 3) (List.range 3) else []) ∧
    ((El.Grid.mk 2 2).Size = 4 → ∀ align q,
      ((El.DistMatrix.FromGlobal (El.Grid.mk 2 2)
          (El.DistData.mk El.Dist.VC El.Dist.STAR align 0 0) 3 3 (fun i j => 10 * i + j)).assign
        (El.DistData.mk El.Dist.CIRC El.Dist.CIRC 0 0 2)).LocalBuffer q
      = if q = 2 then
          [10 * 0 + 0, 10 * 1 + 0, 10 * 2 + 0, 10 * 0 + 1, 10 * 1 + 1, 10 * 2 + 1,
            10 * 0 + 2, 10 * 1 + 2, 10 * 2 + 2]
        else [])) :=
  ⟨⟨by decide, by decide, by decide⟩,
    C8_single_owner_gather (El.Grid.mk 2 2) (by decide) (by decide)
      (El.DistData.mk El.Dist.MC El.Dist.MR 0 1 0) (by decide) (by decide) 3 3 2
      (fun i j => 10 * i + j)⟩

/-- C9: TrsmRUN computes the right upper triangular solve. For every `n x n` matrix `U`
whose diagonal has no zero (any diagonal when `diagonal = UNIT`, which is then treated
as ones), every `m x n` matrix `X`, every scalar `alpha` and every block size of at
least one, over a field, the call returns (given fuel for `n` iterations) and the
matrix on return is `alpha X triu(U)^-1`; only the upper triangle of `U` is read. -/
theorem C9_TrsmRUN_solves {F : Type} [Field F] (m n bsize fuel : Nat) (hb : 1 ≤ bsize) (hf : n ≤ fuel)
    (diagonal : Diagonal) (alpha : F) (U X : DistMatrix F .MC .MR) (RELEASE check : Bool)
    (hG : U.Grid = X.Grid) (hUh : U.Height = n) (hUw : U.Width = n)
    (hXh : X.Height = m) (hXw : X.Width = n)
    (hd : diagonal = Diagonal.NON_UNIT → ∀ j, j < n → U.Get j j ≠ 0) :
    ∃ X', TrsmRUN RELEASE bsize fuel diagonal alpha U X check = Outcome.returned X' ∧
      X'.Height = m ∧ X'.Width = n ∧
      toMatrix m n X'.Get * triu diagonal U.Get n = alpha • toMatrix m n X.Get ∧
      toMatrix m n X'.Get = alpha • toMatrix m n X.Get * (triu diagonal U.Get n)⁻¹ := by
  have hd' : ∀ j, j < n → diag diagonal U.Get j ≠ 0 := by
    intro j hj
    cases diagonal with
    | NON_UNIT => simpa [diag] using hd rfl j hj
    | UNIT => simp [diag]
  have hI0 : TrsmRUN.Inv m n diagonal U.Get (fun i j => alpha * X.Get i j) 0 (Scal alpha X) := by
    refine ⟨hXh, hXw, ?_, ?_⟩
    · intro i j _ hj
      omega
    · intro i j _ _ _
      simp [Scal]
  obtain ⟨X', hloop, hI⟩ := loop_Inv m n bsize hb diagonal U (fun i j => alpha * X.Get i j)
    check hd' fuel 0 (Scal alpha X) (by omega) (Nat.zero_le n) hI0
  have hmul := Inv_mul_triu m n diagonal U.Get (fun i j => alpha * X.Get i j) X' hI
  have hB : toMatrix m n (fun i j => alpha * X.Get i j) = alpha • toMatrix m n X.Get := by
    ext i j
    simp [toMatrix]
  rw [hB] at hmul
  refine ⟨X', ?_, hI.height, hI.width, hmul, ?_⟩
  · unfold TrsmRUN
    rw [hloop]
    simp [hG, hUh, hUw, hXw]
  · rw [← hmul, Matrix.mul_nonsing_inv_cancel_right _ _ (triu_det_isUnit n diagonal U.Get hd')]

/-- Witness of C9: a 1 x 2 right-hand side and a 2 x 2 upper triangular matrix of ones
over the rationals, block size 1. -/
theorem C9_TrsmRUN_solves_witness :
    (1 ≤ 1 ∧ 2 ≤ 2 ∧ exampleU.Grid = exampleX.Grid ∧ exampleU.Height = 2 ∧
      exampleU.Width = 2 ∧ exampleX.Height = 1 ∧ exampleX.Width = 2 ∧
      (Diagonal.NON_UNIT = Diagonal.NON_UNIT → ∀ j, j < 2 → exampleU.Get j j ≠ 0)) ∧
    ∃ X', TrsmRUN false 1 2 Diagonal.NON_UNIT (3 : ℚ) exampleU exampleX true
        = Outcome.returned X' ∧
      X'.Height = 1 ∧ X'.Width = 2 ∧
      toMatrix 1 2 X'.Get * triu Diagonal.NON_UNIT exampleU.Get 2
        = (3 : ℚ) • toMatrix 1 2 exampleX.Get ∧
      toMatrix 1 2 X'.Get
        = (3 : ℚ) • toMatrix 1 2 exampleX.Get * (triu Diagonal.NON_UNIT exampleU.Get 2)⁻¹ :=
  ⟨⟨by decide, by decide, rfl, rfl, rfl, rfl, rfl, fun _ j _ => by simp [exampleU]⟩,
    C9_TrsmRUN_solves 1 2 1 2 (by decide) (by decide) Diagonal.NON_UNIT 3 exampleU exampleX
      false true rfl rfl rfl rfl rfl (fun _ j _ => by simp [exampleU])⟩

/-- C10: in a build with the checks enabled (`RELEASE` undefined), TrsmRUN throws
`logic_error` whenever `U` and `X` are distributed over different grids, or `U` is not
square, or the width of `X` differs from the height of `U`; the error is raised before
`X` is scaled or anything is redistributed, so `X` is unchanged when it is raised. -/
theorem C10_TrsmRUN_entry_checks {F : Type} [Field F] (bsize fuel : Nat)
    (diagonal : Diagonal) (alpha : F) (U X : DistMatrix F .MC .MR) (checkIfSingular : Bool)
    (h : U.Grid ≠ X.Grid ∨ U.Height ≠ U.Width ∨ X.Width ≠ U.Height) :
    ∃ what, TrsmRUN false bsize fuel diagonal alpha U X checkIfSingular
      = Outcome.logic_error what X := by
  unfold TrsmRUN
  by_cases hG : U.Grid = X.Grid
  · have hshape : U.Height ≠ U.Width ∨ X.Width ≠ U.Height := by
      rcases h with h | h
      · exact absurd hG h
      · exact h
    rw [if_neg (by simp [hG]), if_pos (by simpa using hshape)]
    exact ⟨_, rfl⟩
  · rw [if_pos (by simpa using hG)]
    exact ⟨_, rfl⟩

/-- Witness of C10: `U` on grid 0 and `X` on grid 1. -/
theorem C10_TrsmRUN_entry_checks_witness :
    (exampleU.Grid ≠ exampleXOtherGrid.Grid ∨ exampleU.Height ≠ exampleU.Width ∨
      exampleXOtherGrid.Width ≠ exampleU.Height) ∧
    ∃ what, TrsmRUN false 1 2 Diagonal.NON_UNIT (3 : ℚ) exampleU exampleXOtherGrid true
      = Outcome.logic_error what exampleXOtherGrid :=
  ⟨Or.inl (by decide),
    C10_TrsmRUN_entry_checks 1 2 Diagonal.NON_UNIT 3 exampleU exampleXOtherGrid true
      (Or.inl (by decide))⟩

/-- C12: with the checks enabled, HegstLUVar5 throws `logic_error` exactly when `A` is not
square, or `U` is not square, or `A.Height() != U.Height()`; when none of these holds no
`logic_error` is raised, and when one is raised the `A` that comes with it is the `A`
that was passed in. -/
theorem C12_HegstLUVar5_entry_checks {F : Type} [Field F] [StarRing F] (bsize fuel : Nat)
    (A U : DistMatrix F .MC .MR) :
    ((∃ what X, advanced.internal.HegstLUVar5 false bsize fuel A U
          = Outcome.logic_error what X)
      ↔ (A.Height ≠ A.Width ∨ U.Height ≠ U.Width ∨ A.Height ≠ U.Height)) ∧
    (∀ what X, advanced.internal.HegstLUVar5 false bsize fuel A U
        = Outcome.logic_error what X → X = A) := by
  unfold advanced.internal.HegstLUVar5
  by_cases h1 : A.Height ≠ A.Width
  · rw [if_pos (by simpa using h1)]
    refine ⟨⟨fun _ => Or.inl h1, fun _ => ⟨_, _, rfl⟩⟩, ?_⟩
    intro what X h
    cases h
    rfl
  rw [if_neg (by simpa using h1)]
  by_cases h2 : U.Height ≠ U.Width
  · rw [if_pos (by simpa using h2)]
    refine ⟨⟨fun _ => Or.inr (Or.inl h2), fun _ => ⟨_, _, rfl⟩⟩, ?_⟩
    intro what X h
    cases h
    rfl
  rw [if_neg (by simpa using h2)]
  by_cases h3 : A.Height ≠ U.Height
  · rw [if_pos (by simpa using h3)]
    refine ⟨⟨fun _ => Or.inr (Or.inr h3), fun _ => ⟨_, _, rfl⟩⟩, ?_⟩
    intro what X h
    cases h
    rfl
  rw [if_neg (by simpa using h3)]
  have hno : ∀ what X,
      (match advanced.internal.HegstLUVar5.loop bsize U fuel 0 A with
        | some A' => Outcome.returned A'
        | none => Outcome.unfinished) ≠ Outcome.logic_error what X := by
    intro what X h
    cases hl : advanced.internal.HegstLUVar5.loop bsize U fuel 0 A with
    | none => rw [hl] at h; cases h
    | some A' => rw [hl] at h; cases h
  refine ⟨⟨?_, ?_⟩, ?_⟩
  · rintro ⟨what, X, h⟩
    exact absurd h (hno what X)
  · intro h
    rcases h with h | h | h
    · exact absurd h h1
    · exact absurd h h2
    · exact absurd h h3
  · intro what X h
    exact absurd h (hno what X)

/-- Witness of C12: the 1 x 2 matrix `exampleX` is not square. -/
theorem C12_HegstLUVar5_entry_checks_witness :
    ∃ what X, advanced.internal.HegstLUVar5 false 1 2 exampleX exampleU
      = Outcome.logic_error what X :=
  (C12_HegstLUVar5_entry_checks 1 2 exampleX exampleU).1.mpr (Or.inl (by decide))

/-- C13: HegstLUVar5 computes the two-sided transform `A := U A U^H` on the upper triangle.
For every `n x n` Hermitian `A0` stored in the upper triangle of `A` (its diagonal is
real), every `n x n` upper triangular `U` and every block size `>= 1`, over a field in
which `2 ≠ 0`, the routine returns once the fuel covers the `n` columns, and the upper
triangle of the result is that of `U * A0 * U^H`. The loop invariant "the upper triangle
of `ATL` is that of `UTL A0_TL UTL^H` and the columns right of it still hold `A0`" holds
at the start and is carried by each iteration from `k` to `k + nb`. -/
theorem C13_HegstLUVar5_transform {F : Type} [Field F] [StarRing F] (RELEASE : Bool)
    (n bsize fuel : Nat) (A U : DistMatrix F .MC .MR) (h2 : (2 : F) ≠ 0)
    (hA : A.Height = n ∧ A.Width = n) (hU : U.Height = n ∧ U.Width = n)
    (hUtri : ∀ p q, q < p → U.Get p q = 0)
    (hdiag : ∀ r, r < n → star (A.Get r r) = A.Get r r)
    (hb : 1 ≤ bsize) (hfuel : n ≤ fuel) :
    (∃ A', advanced.internal.HegstLUVar5 RELEASE bsize fuel A U = Outcome.returned A'
      ∧ A'.Height = n ∧ A'.Width = n
      ∧ ∀ i j : Fin n, i ≤ j →
          A'.Get i j = (toMatrix n n U.Get * toMatrix n n (HermitianFromUpper A.Get)
            * (toMatrix n n U.Get).conjTranspose) i j) ∧
    advanced.internal.HegstLUVar5.Inv n U A.Get 0 A ∧
    (∀ k A1, k < n → advanced.internal.HegstLUVar5.Inv n U A.Get k A1 →
      advanced.internal.HegstLUVar5.Inv n U A.Get (k + min bsize (n - k))
        (advanced.internal.HegstLUVar5.iteration bsize U k A1)) := by
  refine ⟨?_, advanced.internal.HegstLUVar5_Inv_zero n U A hA.1 hA.2, ?_⟩
  · have h := advanced.internal.HegstLUVar5_upper RELEASE n bsize fuel A U h2 hA.1 hA.2
      hU.1 hU.2 hdiag hb hfuel
    rw [advanced.internal.UpperTriangle_of_upper U.Get hUtri] at h
    exact h
  · intro k A1 hk hInv
    exact advanced.internal.HegstLUVar5_iteration_Inv n bsize U A1 A.Get k h2 hdiag hk hInv

/-- Witness of C13: the 2 x 2 matrices `exampleHermitian` and `exampleU` over the
rationals, with block size 1. -/
theorem C13_HegstLUVar5_transform_witness :
    ∃ A', advanced.internal.HegstLUVar5 false 1 2 exampleHermitian exampleU
        = Outcome.returned A'
      ∧ A'.Height = 2 ∧ A'.Width = 2
      ∧ ∀ i j : Fin 2, i ≤ j →
          A'.Get i j = (toMatrix 2 2 exampleU.Get
            * toMatrix 2 2 (HermitianFromUpper exampleHermitian.Get)
            * (toMatrix 2 2 exampleU.Get).conjTranspose) i j :=
  (C13_HegstLUVar5_transform false 2 1 2 exampleHermitian exampleU (by norm_num)
    ⟨rfl, rfl⟩ ⟨rfl, rfl⟩
    (fun p q h => if_neg (by omega))
    (fun r _ => star_trivial _) (le_refl 1) (le_refl 2)).1

/-- C14: in a debug build the sequential UpperPanel raises `LogicError` whenever
`nU >= n`, or `U.Height() != A.Height()`, or `V.Height() != A.Height()`, or
`V.Width() != nU`, and the five matrices that come with the error are those passed in:
nothing has been resized or zeroed. The distributed overload raises under the same
conditions and also when `A.ColAlign() != U_MC_STAR.ColAlign()`,
`A.RowAlign() != U_MR_STAR.ColAlign()`, `A.ColAlign() != V_MC_STAR.ColAlign()`, or the
shape of `U_MR_STAR` differs from `n x nU`. -/
theorem C14_UpperPanel_debug_checks {F : Type} [Field F] [StarRing F]
    (LeftReflector : El.Matrix F → El.Matrix F → F × El.Matrix F × El.Matrix F)
    (A householderScalars U V G : El.Matrix F) (gridsWhat : String)
    (loop : El.hessenberg.UpperPanel.DistState F → El.hessenberg.UpperPanel.DistState F)
    (dA dhouseholderScalars U_MC_STAR U_MR_STAR V_MC_STAR G_STAR_STAR : El.DistMatrix F) :
    ((U.Width ≥ A.Height ∨ U.Height ≠ A.Height ∨ V.Height ≠ A.Height ∨ V.Width ≠ U.Width) →
      ∃ what, El.hessenberg.UpperPanel true LeftReflector A householderScalars U V G
        = Outcome.logic_error what
            (El.hessenberg.UpperPanel.State.mk A householderScalars U V G)) ∧
    ((dA.DistData.colAlign ≠ U_MC_STAR.DistData.colAlign ∨
        dA.DistData.rowAlign ≠ U_MR_STAR.DistData.colAlign ∨
        dA.DistData.colAlign ≠ V_MC_STAR.DistData.colAlign ∨
        U_MC_STAR.Width ≥ dA.Height ∨ U_MC_STAR.Height ≠ dA.Height ∨
        U_MR_STAR.Height ≠ dA.Height ∨ U_MR_STAR.Width ≠ U_MC_STAR.Width ∨
        V_MC_STAR.Height ≠ dA.Height ∨ V_MC_STAR.Width ≠ U_MC_STAR.Width) →
      ∃ what, El.hessenberg.UpperPanel_DistMatrix true gridsWhat loop dA dhouseholderScalars
          U_MC_STAR U_MR_STAR V_MC_STAR G_STAR_STAR
        = Outcome.logic_error what
            (El.hessenberg.UpperPanel.DistState.mk dA dhouseholderScalars U_MC_STAR
              U_MR_STAR V_MC_STAR G_STAR_STAR)) := by
  constructor
  · intro h
    unfold El.hessenberg.UpperPanel
    simp only [Bool.true_and]
    by_cases h1 : U.Width ≥ A.Height
    · rw [if_pos (by simpa using h1)]; exact ⟨_, rfl⟩
    rw [if_neg (by simpa using h1)]
    by_cases h2 : U.Height ≠ A.Height
    · rw [if_pos (by simpa using h2)]; exact ⟨_, rfl⟩
    rw [if_neg (by simpa using h2)]
    by_cases h3 : V.Height ≠ A.Height
    · rw [if_pos (by simpa using h3)]; exact ⟨_, rfl⟩
    rw [if_neg (by simpa using h3)]
    have h4 : V.Width ≠ U.Width := by tauto
    rw [if_pos (by simpa using h4)]; exact ⟨_, rfl⟩
  · intro h
    unfold El.hessenberg.UpperPanel_DistMatrix
    simp only [Bool.true_and]
    by_cases g : (!(decide (dA.Grid = dhouseholderScalars.Grid)
        && decide (dA.Grid = U_MC_STAR.Grid) && decide (dA.Grid = U_MR_STAR.Grid)
        && decide (dA.Grid = V_MC_STAR.Grid) && decide (dA.Grid = G_STAR_STAR.Grid))) = true
    · rw [if_pos g]; exact ⟨_, rfl⟩
    rw [if_neg g]
    by_cases h1 : dA.DistData.colAlign ≠ U_MC_STAR.DistData.colAlign
    · rw [if_pos (by simpa using h1)]; exact ⟨_, rfl⟩
    rw [if_neg (by simpa using h1)]
    by_cases h2 : dA.DistData.rowAlign ≠ U_MR_STAR.DistData.colAlign
    · rw [if_pos (by simpa using h2)]; exact ⟨_, rfl⟩
    rw [if_neg (by simpa using h2)]
    by_cases h3 : dA.DistData.colAlign ≠ V_MC_STAR.DistData.colAlign
    · rw [if_pos (by simpa using h3)]; exact ⟨_, rfl⟩
    rw [if_neg (by simpa using h3)]
    by_cases h4 : U_MC_STAR.Width ≥ dA.Height
    · rw [if_pos (by simpa using h4)]; exact ⟨_, rfl⟩
    rw [if_neg (by simpa using h4)]
    by_cases h5 : U_MC_STAR.Height ≠ dA.Height
    · rw [if_pos (by simpa using h5)]; exact ⟨_, rfl⟩
    rw [if_neg (by simpa using h5)]
    by_cases h6 : U_MR_STAR.Height ≠ dA.Height
    · rw [if_pos (by simpa using h6)]; exact ⟨_, rfl⟩
    rw [if_neg (by simpa using h6)]
    by_cases h7 : U_MR_STAR.Width ≠ U_MC_STAR.Width
    · rw [if_pos (by simpa using h7)]; exact ⟨_, rfl⟩
    rw [if_neg (by simpa using h7)]
    by_cases h8 : V_MC_STAR.Height ≠ dA.Height
    · rw [if_pos (by simpa using h8)]; exact ⟨_, rfl⟩
    rw [if_neg (by simpa using h8)]
    have h9 : V_MC_STAR.Width ≠ U_MC_STAR.Width := by tauto
    rw [if_pos (by simpa using h9)]; exact ⟨_, rfl⟩

/-- Witness of C14: a panel `U` as wide as `A` is high. -/
theorem C14_UpperPanel_debug_checks_witness :
    ∃ what, El.hessenberg.UpperPanel true El.hessenberg.exampleReflector
        El.hessenberg.examplePanelA El.hessenberg.examplePanelEmpty
        El.hessenberg.examplePanelA El.hessenberg.examplePanelU
        El.hessenberg.examplePanelEmpty
      = Outcome.logic_error what
          (El.hessenberg.UpperPanel.State.mk El.hessenberg.examplePanelA
            El.hessenberg.examplePanelEmpty El.hessenberg.examplePanelA
            El.hessenberg.examplePanelU El.hessenberg.examplePanelEmpty) :=
  (C14_UpperPanel_debug_checks El.hessenberg.exampleReflector El.hessenberg.examplePanelA
    El.hessenberg.examplePanelEmpty El.hessenberg.examplePanelA El.hessenberg.examplePanelU
    El.hessenberg.examplePanelEmpty ""
    (fun s => s)
    (El.hessenberg.exampleDistPanel (El.DistData.mk El.Dist.MC El.Dist.MR 0 0 0) 3 3)
    (El.hessenberg.exampleDistPanel (El.DistData.mk El.Dist.STAR El.Dist.STAR 0 0 0) 0 0)
    (El.hessenberg.exampleDistPanel (El.DistData.mk El.Dist.MC El.Dist.STAR 0 0 0) 3 2)
    (El.hessenberg.exampleDistPanel (El.DistData.mk El.Dist.MR El.Dist.STAR 0 0 0) 3 2)
    (El.hessenberg.exampleDistPanel (El.DistData.mk El.Dist.MC El.Dist.STAR 0 0 0) 3 2)
    (El.hessenberg.exampleDistPanel (El.DistData.mk El.Dist.STAR El.Dist.STAR 0 0 0) 2 2)).1
    (Or.inl (by decide))

/-- C15: with the checks enabled, ApplyPackedReflectorsLLVB throws `logic_error` when `H`
and `A` (and `t`, in the complex variant) are on different grids, when `offset > 0`,
when `offset < -H.Height()`, or when `H.Height() != A.Height()`; the complex variant also
throws when `t.Height() != H.DiagonalLength(offset)` or `t` is not aligned with the
offset diagonal of `H`. Whatever the rest of the routine does, the `A` that comes with
the error is the `A` that was passed in: every check precedes any modification of `A`. -/
theorem C15_LLVB_entry_checks {R : Type} (offset : Int)
    (H A : DistMatrix R .MC .MR) (t : DistMatrix R .MD .STAR) (conjugation : Conjugation)
    (H_DiagonalLength : Int → Int) (t_AlignedWithDiag : Int → Bool)
    (algorithm : Int → DistMatrix R .MC .MR → DistMatrix R .MC .MR →
      Outcome (DistMatrix R .MC .MR))
    (algorithmC : Conjugation → Int → DistMatrix R .MC .MR → DistMatrix R .MD .STAR →
      DistMatrix R .MC .MR → Outcome (DistMatrix R .MC .MR)) :
    ((H.Grid ≠ A.Grid ∨ offset > 0 ∨ offset < -(H.Height : Int) ∨ H.Height ≠ A.Height) →
      ∃ what, advanced.internal.ApplyPackedReflectorsLLVB false offset H A algorithm
        = Outcome.logic_error what A) ∧
    ((H.Grid ≠ t.Grid ∨ t.Grid ≠ A.Grid ∨ offset > 0 ∨ offset < -(H.Height : Int) ∨
        H.Height ≠ A.Height ∨ (t.Height : Int) ≠ H_DiagonalLength offset ∨
        t_AlignedWithDiag offset = false) →
      ∃ what, advanced.internal.ApplyPackedReflectorsLLVB_complex false conjugation offset
        H t A H_DiagonalLength t_AlignedWithDiag algorithmC = Outcome.logic_error what A) := by
  constructor
  · intro h
    unfold advanced.internal.ApplyPackedReflectorsLLVB
    by_cases h1 : H.Grid ≠ A.Grid
    · rw [if_pos (by simpa using h1)]; exact ⟨_, rfl⟩
    rw [if_neg (by simpa using h1)]
    by_cases h2 : offset > 0
    · rw [if_pos (by simpa using h2)]; exact ⟨_, rfl⟩
    rw [if_neg (by simpa using h2)]
    by_cases h3 : offset < -(H.Height : Int)
    · rw [if_pos (by simpa using h3)]; exact ⟨_, rfl⟩
    rw [if_neg (by simpa using h3)]
    have h4 : H.Height ≠ A.Height := by tauto
    rw [if_pos (by simpa using h4)]; exact ⟨_, rfl⟩
  · intro h
    unfold advanced.internal.ApplyPackedReflectorsLLVB_complex
    by_cases h1 : H.Grid ≠ t.Grid ∨ t.Grid ≠ A.Grid
    · rw [if_pos (by simpa using h1)]; exact ⟨_, rfl⟩
    rw [if_neg (by simpa using h1)]
    by_cases h2 : offset > 0
    · rw [if_pos (by simpa using h2)]; exact ⟨_, rfl⟩
    rw [if_neg (by simpa using h2)]
    by_cases h3 : offset < -(H.Height : Int)
    · rw [if_pos (by simpa using h3)]; exact ⟨_, rfl⟩
    rw [if_neg (by simpa using h3)]
    by_cases h4 : H.Height ≠ A.Height
    · rw [if_pos (by simpa using h4)]; exact ⟨_, rfl⟩
    rw [if_neg (by simpa using h4)]
    by_cases h5 : (t.Height : Int) ≠ H_DiagonalLength offset
    · rw [if_pos (by simpa using h5)]; exact ⟨_, rfl⟩
    rw [if_neg (by simpa using h5)]
    have h6 : t_AlignedWithDiag offset = false := by tauto
    rw [if_pos (by simp [h6])]; exact ⟨_, rfl⟩

/-- Witness of C15: `H` on grid 0 and `A` on grid 1, in the real variant. -/
theorem C15_LLVB_entry_checks_witness :
    ∃ what, advanced.internal.ApplyPackedReflectorsLLVB false 0 exampleU
        exampleHermitianOtherGrid (fun _ _ A => Outcome.returned A)
      = Outcome.logic_error what exampleHermitianOtherGrid :=
  (C15_LLVB_entry_checks 0 exampleU exampleHermitianOtherGrid exampleT
    Conjugation.UNCONJUGATED (fun _ => 2) (fun _ => true)
    (fun _ _ A => Outcome.returned A) (fun _ _ _ _ A => Outcome.returned A)).1
    (Or.inl (by decide))

/-- C16: with the checks enabled, ApplyPackedReflectorsRUHF throws `logic_error` when `H`
and `A` (and `t`, in the complex variant) are on different grids, when `offset < 0`,
when `offset > H.Width()`, or when `H.Width() != A.Width()`; the complex variant also
throws when `t.Height() != H.DiagonalLength(offset)` or `t` is not aligned with the
offset diagonal of `H`. Whatever the rest of the routine does, the `A` that comes with
the error is the `A` that was passed in: every check precedes any modification of `A`. -/
theorem C16_RUHF_entry_checks {R : Type} (offset : Int)
    (H A : DistMatrix R .MC .MR) (t : DistMatrix R .MD .STAR) (conjugation : Conjugation)
    (H_DiagonalLength : Int → Int) (t_AlignedWithDiag : Int → Bool)
    (algorithm : Int → DistMatrix R .MC .MR → DistMatrix R .MC .MR →
      Outcome (DistMatrix R .MC .MR))
    (algorithmC : Conjugation → Int → DistMatrix R .MC .MR → DistMatrix R .MD .STAR →
      DistMatrix R .MC .MR → Outcome (DistMatrix R .MC .MR)) :
    ((H.Grid ≠ A.Grid ∨ offset < 0 ∨ offset > (H.Width : Int) ∨ H.Width ≠ A.Width) →
      ∃ what, advanced.internal.ApplyPackedReflectorsRUHF false offset H A algorithm
        = Outcome.logic_error what A) ∧
    ((H.Grid ≠ t.Grid ∨ t.Grid ≠ A.Grid ∨ offset < 0 ∨ offset > (H.Width : Int) ∨
        H.Width ≠ A.Width ∨ (t.Height : Int) ≠ H_DiagonalLength offset ∨
        t_AlignedWithDiag offset = false) →
      ∃ what, advanced.internal.ApplyPackedReflectorsRUHF_complex false conjugation offset
        H t A H_DiagonalLength t_AlignedWithDiag algorithmC = Outcome.logic_error what A) := by
  constructor
  · intro h
    unfold advanced.internal.ApplyPackedReflectorsRUHF
    by_cases h1 : H.Grid ≠ A.Grid
    · rw [if_pos (by simpa using h1)]; exact ⟨_, rfl⟩
    rw [if_neg (by simpa using h1)]
    by_cases h2 : offset > (H.Width : Int)
    · rw [if_pos (by simpa using h2)]; exact ⟨_, rfl⟩
    rw [if_neg (by simpa using h2)]
    by_cases h3 : offset < 0
    · rw [if_pos (by simpa using h3)]; exact ⟨_, rfl⟩
    rw [if_neg (by simpa using h3)]
    have h4 : H.Width ≠ A.Width := by tauto
    rw [if_pos (by simpa using h4)]; exact ⟨_, rfl⟩
  · intro h
    unfold advanced.internal.ApplyPackedReflectorsRUHF_complex
    by_cases h1 : H.Grid ≠ t.Grid ∨ t.Grid ≠ A.Grid
    · rw [if_pos (by simpa using h1)]; exact ⟨_, rfl⟩
    rw [if_neg (by simpa using h1)]
    by_cases h2 : offset < 0
    · rw [if_pos (by simpa using h2)]; exact ⟨_, rfl⟩
    rw [if_neg (by simpa using h2)]
    by_cases h3 : offset > (H.Width : Int)
    · rw [if_pos (by simpa using h3)]; exact ⟨_, rfl⟩
    rw [if_neg (by simpa using h3)]
    by_cases h4 : H.Width ≠ A.Width
    · rw [if_pos (by simpa using h4)]; exact ⟨_, rfl⟩
    rw [if_neg (by simpa using h4)]
    by_cases h5 : (t.Height : Int) ≠ H_DiagonalLength offset
    · rw [if_pos (by simpa using h5)]; exact ⟨_, rfl⟩
    rw [if_neg (by simpa using h5)]
    have h6 : t_AlignedWithDiag offset = false := by tauto
    rw [if_pos (by simp [h6])]; exact ⟨_, rfl⟩

/-- Witness of C16: `H` on grid 0 and `A` on grid 1, in the real variant. -/
theorem C16_RUHF_entry_checks_witness :
    ∃ what, advanced.internal.ApplyPackedReflectorsRUHF false 0 exampleU
        exampleHermitianOtherGrid (fun _ _ A => Outcome.returned A)
      = Outcome.logic_error what exampleHermitianOtherGrid :=
  (C16_RUHF_entry_checks 0 exampleU exampleHermitianOtherGrid exampleT
    Conjugation.UNCONJUGATED (fun _ => 2) (fun _ => true)
    (fun _ _ A => Outcome.returned A) (fun _ _ _ _ A => Outcome.returned A)).1
    (Or.inl (by decide))

/-- C17: on a `[*,VR]` matrix, `AlignWith` with a `[*,MC]`, `[*,MD]`, `[*,VC]`, `[*,*]`,
`[MC,*]`, `[MD,*]` or `[VC,*]` argument and `AlignColsWith` with any of its eleven
accepted argument distributions leave the matrix as it is: alignments, shifts, local
dimensions and data are unchanged. -/
theorem C17_align_noops {T : Type}
    (outOfLine : Distribution → Distribution → ADM → STAR_VR T → STAR_VR T)
    (A : ADM) (M : STAR_VR T) :
    (STAR_VR.AlignWith outOfLine Distribution.STAR Distribution.MC A M = some M
      ∧ STAR_VR.AlignWith outOfLine Distribution.STAR Distribution.MD A M = some M
      ∧ STAR_VR.AlignWith outOfLine Distribution.STAR Distribution.VC A M = some M
      ∧ STAR_VR.AlignWith outOfLine Distribution.STAR Distribution.STAR A M = some M
      ∧ STAR_VR.AlignWith outOfLine Distribution.MC Distribution.STAR A M = some M
      ∧ STAR_VR.AlignWith outOfLine Distribution.MD Distribution.STAR A M = some M
      ∧ STAR_VR.AlignWith outOfLine Distribution.VC Distribution.STAR A M = some M) ∧
    (STAR_VR.AlignColsWith Distribution.STAR Distribution.MC A M = some M
      ∧ STAR_VR.AlignColsWith Distribution.STAR Distribution.MD A M = some M
      ∧ STAR_VR.AlignColsWith Distribution.STAR Distribution.MR A M = some M
      ∧ STAR_VR.AlignColsWith Distribution.STAR Distribution.VC A M = some M
      ∧ STAR_VR.AlignColsWith Distribution.STAR Distribution.VR A M = some M
      ∧ STAR_VR.AlignColsWith Distribution.STAR Distribution.STAR A M = some M
      ∧ STAR_VR.AlignColsWith Distribution.MC Distribution.STAR A M = some M
      ∧ STAR_VR.AlignColsWith Distribution.MD Distribution.STAR A M = some M
      ∧ STAR_VR.AlignColsWith Distribution.MR Distribution.STAR A M = some M
      ∧ STAR_VR.AlignColsWith Distribution.VC Distribution.STAR A M = some M
      ∧ STAR_VR.AlignColsWith Distribution.VR Distribution.STAR A M = some M) :=
  ⟨⟨rfl, rfl, rfl, rfl, rfl, rfl, rfl⟩,
    ⟨rfl, rfl, rfl, rfl, rfl, rfl, rfl, rfl, rfl, rfl, rfl⟩⟩

/-- C18: the driver raises one of its two format errors exactly when `numerFormatInt` or
`imageFormatInt` lies outside the half-open range `[1, FileFormat_MAX)`; for values
inside the range no format error is raised, the integers are converted to the
`FileFormat` of that value, and the switch is reached, where a `matType` outside `0..6`
raises `LogicError("Invalid matrix type")`, as the switch does on its own for every such
`matType`. -/
theorem C18_driver_checks (FileFormat_MAX numerFormatInt imageFormatInt matType : Int) :
    ((∃ what, elem.ChunkedPseudospectrum.main FileFormat_MAX numerFormatInt imageFormatInt
          matType = Except.error what ∧
        (what = elem.LogicError.mk
            ["Invalid numerical format integer, should be in [1,", toString FileFormat_MAX, ")"]
          ∨ what = elem.LogicError.mk
            ["Invalid image format integer, should be in [1,", toString FileFormat_MAX, ")"]))
      ↔ ¬ (1 ≤ numerFormatInt ∧ numerFormatInt < FileFormat_MAX) ∨
        ¬ (1 ≤ imageFormatInt ∧ imageFormatInt < FileFormat_MAX)) ∧
    (((1 ≤ numerFormatInt ∧ numerFormatInt < FileFormat_MAX) ∧
        (1 ≤ imageFormatInt ∧ imageFormatInt < FileFormat_MAX)) →
      (∀ S, elem.ChunkedPseudospectrum.main FileFormat_MAX numerFormatInt imageFormatInt
          matType = Except.ok S →
        S.numerFormat.value = numerFormatInt ∧ S.imageFormat.value = imageFormatInt) ∧
      ((0 ≤ matType ∧ matType ≤ 6) →
        ∃ S, elem.ChunkedPseudospectrum.main FileFormat_MAX numerFormatInt imageFormatInt
          matType = Except.ok S) ∧
      (¬ (0 ≤ matType ∧ matType ≤ 6) →
        elem.ChunkedPseudospectrum.main FileFormat_MAX numerFormatInt imageFormatInt matType
          = Except.error (elem.LogicError.mk ["Invalid matrix type"]))) ∧
    (elem.ChunkedPseudospectrum.matName matType
        = Except.error (elem.LogicError.mk ["Invalid matrix type"])
      ↔ ¬ (0 ≤ matType ∧ matType ≤ 6)) := by
  have hname : ¬ (0 ≤ matType ∧ matType ≤ 6) →
      elem.ChunkedPseudospectrum.matName matType
        = Except.error (elem.LogicError.mk ["Invalid matrix type"]) := by
    intro h
    unfold elem.ChunkedPseudospectrum.matName
    rw [if_neg (by omega), if_neg (by omega), if_neg (by omega), if_neg (by omega),
      if_neg (by omega), if_neg (by omega), if_neg (by omega)]
  have hok : (0 ≤ matType ∧ matType ≤ 6) →
      ∃ name, elem.ChunkedPseudospectrum.matName matType = Except.ok name := by
    intro h
    unfold elem.ChunkedPseudospectrum.matName
    by_cases h0 : matType = 0
    · exact ⟨_, if_pos h0⟩
    rw [if_neg h0]
    by_cases h1 : matType = 1
    · exact ⟨_, if_pos h1⟩
    rw [if_neg h1]
    by_cases h2 : matType = 2
    · exact ⟨_, if_pos h2⟩
    rw [if_neg h2]
    by_cases h3 : matType = 3
    · exact ⟨_, if_pos h3⟩
    rw [if_neg h3]
    by_cases h4 : matType = 4
    · exact ⟨_, if_pos h4⟩
    rw [if_neg h4]
    by_cases h5 : matType = 5
    · exact ⟨_, if_pos h5⟩
    rw [if_neg h5]
    have h6 : matType = 6 := by omega
    exact ⟨_, if_pos h6⟩
  have hin : ((1 ≤ numerFormatInt ∧ numerFormatInt < FileFormat_MAX) ∧
      (1 ≤ imageFormatInt ∧ imageFormatInt < FileFormat_MAX)) →
      elem.ChunkedPseudospectrum.main FileFormat_MAX numerFormatInt imageFormatInt matType
        = match elem.ChunkedPseudospectrum.matName matType with
          | Except.error e => Except.error e
          | Except.ok name => Except.ok (elem.ChunkedPseudospectrum.Setup.mk
              (elem.FileFormat.mk numerFormatInt) (elem.FileFormat.mk imageFormatInt) name) := by
    intro h
    unfold elem.ChunkedPseudospectrum.main
    have h1 : ¬ (numerFormatInt < 1 ∨ numerFormatInt ≥ FileFormat_MAX) := by omega
    have h2 : ¬ (imageFormatInt < 1 ∨ imageFormatInt ≥ FileFormat_MAX) := by omega
    exact (if_neg h1).trans ((if_neg h2).trans rfl)
  refine ⟨⟨?_, ?_⟩, ?_, ⟨?_, hname⟩⟩
  · rintro ⟨what, hmain, hwhat⟩
    by_contra hcon
    have hr : (1 ≤ numerFormatInt ∧ numerFormatInt < FileFormat_MAX) ∧
        (1 ≤ imageFormatInt ∧ imageFormatInt < FileFormat_MAX) := by tauto
    rw [hin hr] at hmain
    by_cases hm : 0 ≤ matType ∧ matType ≤ 6
    · obtain ⟨name, hn⟩ := hok hm
      rw [hn] at hmain
      cases hmain
    · rw [hname hm] at hmain
      cases hmain
      rcases hwhat with h | h <;> simp at h
  · intro h
    unfold elem.ChunkedPseudospectrum.main
    by_cases hn : numerFormatInt < 1 ∨ numerFormatInt ≥ FileFormat_MAX
    · exact ⟨_, if_pos hn, Or.inl rfl⟩
    · rw [if_neg hn]
      have hi : imageFormatInt < 1 ∨ imageFormatInt ≥ FileFormat_MAX := by omega
      exact ⟨_, if_pos hi, Or.inr rfl⟩
  · intro hr
    rw [hin hr]
    refine ⟨?_, ?_, ?_⟩
    · intro S hS
      by_cases hm : 0 ≤ matType ∧ matType ≤ 6
      · obtain ⟨name, hn⟩ := hok hm
        rw [hn] at hS
        cases hS
        exact ⟨rfl, rfl⟩
      · rw [hname hm] at hS
        cases hS
    · intro hm
      obtain ⟨name, hn⟩ := hok hm
      rw [hn]
      exact ⟨_, rfl⟩
    · intro hm
      rw [hname hm]
  · intro h hm
    obtain ⟨name, hn⟩ := hok hm
    rw [hn] at h
    cases h

/-- Witness of C18: formats 2 and 8 below `FileFormat_MAX = 10`, and the matrix type 7. -/
theorem C18_driver_checks_witness :
    elem.ChunkedPseudospectrum.main 10 2 8 7
      = Except.error (elem.LogicError.mk ["Invalid matrix type"]) :=
  ((C18_driver_checks 10 2 8 7).2.1 (by decide)).2.2 (by decide)

/-- C19: iteration `k` of the sequential UpperPanel, run on the state `s` that the first
`k` iterations leave, overwrites column `k` of `A` with
`a1 = (I - U0 G00^-1 U0^H)(a1 - V0 G00^-H u10^H)` before the reflector is formed, whenever
`G00` is invertible; the old column `k`, `U0`, `V0`, `G00` and `u10` are those of `s`.
The Conjugate/Trsv/Gemv sequence leaves `a1` in column `k`; the iteration leaves the
entries of `a1` down to the diagonal in `A`, and it calls LeftReflector on the entry
`k + 1` of `a1` (as the 1 x 1 matrix `alpha21T`) and on the entries from `k + 2` on (as
the column `a21B`), storing the scalar it returns in `householderScalars(k)` and what it
leaves in its arguments in `A(k+1:n,k)`. -/
theorem C19_UpperPanel_column_update {F : Type} [Field F] [StarRing F]
    (LeftReflector : El.Matrix F → El.Matrix F → F × El.Matrix F × El.Matrix F)
    (A householderScalars U : El.Matrix F) (k : Nat) (s : El.hessenberg.UpperPanel.State F)
    (_hk : k < U.Width)
    (hs : s = El.hessenberg.UpperPanel.loop LeftReflector A.Height k
      (El.hessenberg.UpperPanel.init A householderScalars U))
    (hdet : IsUnit (toMatrix k k s.G.Get).det) :
    ∃ (a1 : Fin A.Height → F) (alpha21T a21B : El.Matrix F),
      a1 = (1 - toMatrix A.Height k s.U.Get * (toMatrix k k s.G.Get)⁻¹
            * (toMatrix A.Height k s.U.Get).conjTranspose).mulVec
          ((fun i : Fin A.Height => s.A.Get i k)
            - (toMatrix A.Height k s.V.Get).mulVec
                (((toMatrix k k s.G.Get)⁻¹).conjTranspose.mulVec
                  (fun j : Fin k => star (s.U.Get k j))))
      ∧ (fun i : Fin A.Height => (El.hessenberg.UpperPanel.column A.Height k s).Get i k) = a1
      ∧ (alpha21T.Height = 1 ∧ alpha21T.Width = 1
        ∧ ∀ i : Fin A.Height, i.val = k + 1 → alpha21T.Get 0 0 = a1 i)
      ∧ (a21B.Height = A.Height - (k + 2) ∧ a21B.Width = 1
        ∧ ∀ i : Fin A.Height, k + 2 ≤ i.val → a21B.Get (i.val - (k + 2)) 0 = a1 i)
      ∧ El.hessenberg.UpperPanel.loop LeftReflector A.Height (k + 1)
            (El.hessenberg.UpperPanel.init A householderScalars U)
          = El.hessenberg.UpperPanel.iteration LeftReflector A.Height k s
      ∧ (∀ i : Fin A.Height, i.val ≤ k →
          (El.hessenberg.UpperPanel.iteration LeftReflector A.Height k s).A.Get i k = a1 i)
      ∧ (El.hessenberg.UpperPanel.iteration LeftReflector A.Height k s).householderScalars.Get
            k 0 = (LeftReflector alpha21T a21B).1
      ∧ (El.hessenberg.UpperPanel.iteration LeftReflector A.Height k s).A.Get (k + 1) k
          = (LeftReflector alpha21T a21B).2.1.Get 0 0
      ∧ (∀ i, k + 2 ≤ i → i < A.Height →
          (El.hessenberg.UpperPanel.iteration LeftReflector A.Height k s).A.Get i k
            = (LeftReflector alpha21T a21B).2.2.Get (i - (k + 2)) 0) := by
  have hupper : ∀ i j, i < j → j < k → s.G.Get i j = 0 := by
    intro i j hij _
    rw [hs, UpperPanel_loop_G_upper LeftReflector A.Height _ i j hij k]
    rfl
  have hcol : (fun i : Fin A.Height => (El.hessenberg.UpperPanel.column A.Height k s).Get i k)
      = (1 - toMatrix A.Height k s.U.Get * (toMatrix k k s.G.Get)⁻¹
            * (toMatrix A.Height k s.U.Get).conjTranspose).mulVec
          ((fun i : Fin A.Height => s.A.Get i k)
            - (toMatrix A.Height k s.V.Get).mulVec
                (((toMatrix k k s.G.Get)⁻¹).conjTranspose.mulVec
                  (fun j : Fin k => star (s.U.Get k j)))) := by
    rw [← UpperPanel_a1_closed A.Height k s hupper hdet]
    funext i
    exact UpperPanel_column_Get A.Height k s i.val i.isLt
  have hent : ∀ i : Fin A.Height,
      (El.hessenberg.UpperPanel.column A.Height k s).Get i.val k
        = (1 - toMatrix A.Height k s.U.Get * (toMatrix k k s.G.Get)⁻¹
            * (toMatrix A.Height k s.U.Get).conjTranspose).mulVec
          ((fun i : Fin A.Height => s.A.Get i k)
            - (toMatrix A.Height k s.V.Get).mulVec
                (((toMatrix k k s.G.Get)⁻¹).conjTranspose.mulVec
                  (fun j : Fin k => star (s.U.Get k j)))) i :=
    fun i => congrFun hcol i
  refine ⟨_,
    (El.hessenberg.UpperPanel.column A.Height k s).View (El.IR (k + 1) (k + 2))
      (El.Range.mk k (k + 1)),
    (El.hessenberg.UpperPanel.column A.Height k s).View (El.IR (k + 2) A.Height)
      (El.Range.mk k (k + 1)),
    rfl, hcol, ⟨?_, ?_, ?_⟩, ⟨rfl, ?_, ?_⟩, ?_, ?_, ?_, ?_, ?_⟩
  · show k + 2 - (k + 1) = 1
    omega
  · show k + 1 - k = 1
    omega
  · intro i hi
    rw [← hent i, hi]
    rfl
  · show k + 1 - k = 1
    omega
  · intro i hi
    rw [← hent i]
    show (El.hessenberg.UpperPanel.column A.Height k s).Get (k + 2 + (i.val - (k + 2))) k = _
    have e : k + 2 + (i.val - (k + 2)) = i.val := by omega
    rw [e]
  · rw [hs]
    rfl
  · intro i hi
    rw [UpperPanel_iteration_A_top LeftReflector A.Height k s i.val hi]
    exact hent i
  · rw [UpperPanel_iteration_householderScalars, if_pos rfl, UpperPanel_reflector_call]
  · rw [UpperPanel_iteration_A_alpha, UpperPanel_reflector_call]
  · intro i hi1 hi2
    rw [UpperPanel_iteration_A_below LeftReflector A.Height k s i hi1 hi2,
      UpperPanel_reflector_call]

/-- Witness of C19: iteration 1 of a panel of width 2 of a 3 x 3 matrix over the
rationals, where `G00` is the 1 x 1 matrix `1/2`. -/
theorem C19_UpperPanel_column_update_witness :
    ∃ (a1 : Fin 3 → ℚ) (alpha21T a21B : El.Matrix ℚ),
      a1 = (1 - toMatrix 3 1 El.hessenberg.examplePanelState.U.Get
            * (toMatrix 1 1 El.hessenberg.examplePanelState.G.Get)⁻¹
            * (toMatrix 3 1 El.hessenberg.examplePanelState.U.Get).conjTranspose).mulVec
          ((fun i : Fin 3 => El.hessenberg.examplePanelState.A.Get i 1)
            - (toMatrix 3 1 El.hessenberg.examplePanelState.V.Get).mulVec
                (((toMatrix 1 1 El.hessenberg.examplePanelState.G.Get)⁻¹).conjTranspose.mulVec
                  (fun j : Fin 1 => star (El.hessenberg.examplePanelState.U.Get 1 j))))
      ∧ (fun i : Fin 3 =>
          (El.hessenberg.UpperPanel.column 3 1 El.hessenberg.examplePanelState).Get i 1) = a1
      ∧ (alpha21T.Height = 1 ∧ alpha21T.Width = 1
        ∧ ∀ i : Fin 3, i.val = 1 + 1 → alpha21T.Get 0 0 = a1 i)
      ∧ (a21B.Height = 3 - (1 + 2) ∧ a21B.Width = 1
        ∧ ∀ i : Fin 3, 1 + 2 ≤ i.val → a21B.Get (i.val - (1 + 2)) 0 = a1 i)
      ∧ El.hessenberg.UpperPanel.loop El.hessenberg.exampleReflector 3 (1 + 1)
            (El.hessenberg.UpperPanel.init El.hessenberg.examplePanelA
              El.hessenberg.examplePanelEmpty El.hessenberg.examplePanelU)
          = El.hessenberg.UpperPanel.iteration El.hessenberg.exampleReflector 3 1
              El.hessenberg.examplePanelState
      ∧ (∀ i : Fin 3, i.val ≤ 1 →
          (El.hessenberg.UpperPanel.iteration El.hessenberg.exampleReflector 3 1
            El.hessenberg.examplePanelState).A.Get i 1 = a1 i)
      ∧ (El.hessenberg.UpperPanel.iteration El.hessenberg.exampleReflector 3 1
            El.hessenberg.examplePanelState).householderScalars.Get 1 0
          = (El.hessenberg.exampleReflector alpha21T a21B).1
      ∧ (El.hessenberg.UpperPanel.iteration El.hessenberg.exampleReflector 3 1
            El.hessenberg.examplePanelState).A.Get (1 + 1) 1
          = (El.hessenberg.exampleReflector alpha21T a21B).2.1.Get 0 0
      ∧ (∀ i, 1 + 2 ≤ i → i < 3 →
          (El.hessenberg.UpperPanel.iteration El.hessenberg.exampleReflector 3 1
            El.hessenberg.examplePanelState).A.Get i 1
            = (El.hessenberg.exampleReflector alpha21T a21B).2.2.Get (i - (1 + 2)) 0) :=
  C19_UpperPanel_column_update El.hessenberg.exampleReflector El.hessenberg.examplePanelA
    El.hessenberg.examplePanelEmpty El.hessenberg.examplePanelU 1
    El.hessenberg.examplePanelState (by decide) rfl
    (by
      rw [Matrix.det_unique]
      have h := (UpperPanel_loop_tau El.hessenberg.exampleReflector 3
        (El.hessenberg.UpperPanel.init El.hessenberg.examplePanelA
          El.hessenberg.examplePanelEmpty El.hessenberg.examplePanelU) 0 1 (by decide)).2
      show IsUnit ((El.hessenberg.UpperPanel.loop El.hessenberg.exampleReflector 3 1
        (El.hessenberg.UpperPanel.init El.hessenberg.examplePanelA
          El.hessenberg.examplePanelEmpty El.hessenberg.examplePanelU)).G.Get 0 0)
      rw [h]
      exact isUnit_iff_ne_zero.mpr (by
        show (1 : ℚ) / 2 ≠ 0
        norm_num))

/-- C22, counterexample: `A` is 3 x 2 and `U`, `V` are 3 x 1, so `0 <= nU = 1 < n = 3` and
`U` and `V` are `n x nU`. In iteration 0 the third view request of the source,
`A2 = A( IR(0,n), ind2 )` with `ind2 = [1,3)`, asks for the columns 1 and 2 of a matrix
that has two columns: it is not in bounds. -/
theorem C22_views_counterexample :
    (El.hessenberg.examplePanelColumn.Width < El.hessenberg.examplePanelNarrow.Height
      ∧ El.hessenberg.examplePanelColumn.Height = El.hessenberg.examplePanelNarrow.Height
      ∧ El.hessenberg.examplePanelColumn.Width = 1) ∧
    (El.hessenberg.UpperPanel.views 3 0
        (El.hessenberg.UpperPanel.init El.hessenberg.examplePanelNarrow
          El.hessenberg.examplePanelEmpty El.hessenberg.examplePanelColumn))[2]?
      = some (El.hessenberg.examplePanelNarrow, El.IR 0 3, El.Range.mk 1 3) ∧
    El.hessenberg.examplePanelNarrow.InBounds (El.IR 0 3) (El.Range.mk 1 3) = false ∧
    El.hessenberg.UpperPanel.viewsInBounds 3 0
        (El.hessenberg.UpperPanel.init El.hessenberg.examplePanelNarrow
          El.hessenberg.examplePanelEmpty El.hessenberg.examplePanelColumn) = false := by
  refine ⟨⟨by decide, rfl, rfl⟩, rfl, by decide, by decide⟩

/-- C22, amended: under the precondition `0 <= nU < n` with `U` and `V` of shape
`n x nU`, every submatrix range requested in every iteration `k < nU` of the sequential
UpperPanel is well formed and inside the bounds of the matrix it indexes exactly when
`nU = 0` or `A` has at least `n` columns; in particular no view request can fail when
`A` is `n x n`. -/
theorem C22_views_amended {F : Type} [Field F] [StarRing F]
    (LeftReflector : El.Matrix F → El.Matrix F → F × El.Matrix F × El.Matrix F)
    (A householderScalars U V : El.Matrix F)
    (hpre : U.Width < A.Height ∧ U.Height = A.Height ∧ V.Height = A.Height
      ∧ V.Width = U.Width) :
    (∀ k, k < U.Width →
        El.hessenberg.UpperPanel.viewsInBounds A.Height k
          (El.hessenberg.UpperPanel.loop LeftReflector A.Height k
            (El.hessenberg.UpperPanel.init A householderScalars U)) = true)
      ↔ (U.Width = 0 ∨ A.Height ≤ A.Width) := by
  obtain ⟨h1, _, _, _⟩ := hpre
  have hshape : ∀ k,
      El.hessenberg.UpperPanel.viewsInBounds A.Height k
          (El.hessenberg.UpperPanel.loop LeftReflector A.Height k
            (El.hessenberg.UpperPanel.init A householderScalars U)) = true
        ↔ (k + 2 ≤ A.Height ∧ A.Height ≤ A.Width ∧ k + 1 ≤ U.Width) := by
    intro k
    rw [UpperPanel_viewsInBounds_iff]
    obtain ⟨e1, e2, e3, e4, e5, e6, e7, e8⟩ := UpperPanel_loop_shapes LeftReflector A.Height
      (El.hessenberg.UpperPanel.init A householderScalars U) k
    rw [e1, e2, e3, e4, e5, e6, e7, e8]
    show (k + 2 ≤ A.Height ∧ A.Height ≤ A.Height ∧ A.Height ≤ A.Width)
        ∧ (A.Height ≤ A.Height ∧ k + 1 ≤ U.Width)
        ∧ (A.Height ≤ A.Height ∧ k + 1 ≤ U.Width)
        ∧ (k + 1 ≤ U.Width ∧ k + 1 ≤ U.Width) ↔ _
    omega
  constructor
  · intro h
    by_cases h0 : U.Width = 0
    · exact Or.inl h0
    · exact Or.inr ((hshape 0).mp (h 0 (by omega))).2.1
  · intro h k hk
    rw [hshape k]
    omega

/-- Witness of C22, amended: iteration 1 of a panel of width 2 of a 3 x 3 matrix. -/
theorem C22_views_amended_witness :
    El.hessenberg.UpperPanel.viewsInBounds 3 1
      (El.hessenberg.UpperPanel.loop El.hessenberg.exampleReflector 3 1
        (El.hessenberg.UpperPanel.init El.hessenberg.examplePanelA
          El.hessenberg.examplePanelEmpty El.hessenberg.examplePanelU)) = true :=
  (C22_views_amended El.hessenberg.exampleReflector El.hessenberg.examplePanelA
    El.hessenberg.examplePanelEmpty El.hessenberg.examplePanelU El.hessenberg.examplePanelU
    ⟨by decide, rfl, rfl, rfl⟩).mpr (Or.inr (by decide)) 1 (by decide)

/-- C23: in every iteration of ApplyPackedReflectorsLLVB and of ApplyPackedReflectorsRUHF
the panel view `HPan = H(H00.Height() : +HPanHeight, H00.Width() : +HPanWidth)` has
non-negative dimensions and lies inside `H`, for every offset and every block size; and
for every offset that the entry checks admit and every block size `>= 1` the routine runs
to its end without a failing `LockedView`, once the fuel covers the height of `H`. -/
theorem C23_HPan_in_bounds {R : Type} (bsize fuel : Nat) (rangeWhat : String)
    (panel : Int → DistMatrix R .MC .MR → Partition3x3 R .MC .MR → DistMatrix R .MC .MR →
      DistMatrix R .MC .MR)
    (offset : Int) (H A : DistMatrix R .MC .MR) (hb : 1 ≤ bsize) (hfuel : H.Height ≤ fuel) :
    (∀ m,
      0 ≤ advanced.internal.ApplyPackedReflectorsLLVB.HPanHeight
          (LockedRepartitionUpDiagonal bsize
            (advanced.internal.ApplyPackedReflectorsLLVB.partition bsize H m))
      ∧ 0 ≤ advanced.internal.ApplyPackedReflectorsLLVB.HPanWidth offset
          (LockedRepartitionUpDiagonal bsize
            (advanced.internal.ApplyPackedReflectorsLLVB.partition bsize H m))
      ∧ ((LockedRepartitionUpDiagonal bsize
            (advanced.internal.ApplyPackedReflectorsLLVB.partition bsize H m)).A00.Height : Int)
          + advanced.internal.ApplyPackedReflectorsLLVB.HPanHeight
            (LockedRepartitionUpDiagonal bsize
              (advanced.internal.ApplyPackedReflectorsLLVB.partition bsize H m))
          ≤ (H.Height : Int)
      ∧ ((LockedRepartitionUpDiagonal bsize
            (advanced.internal.ApplyPackedReflectorsLLVB.partition bsize H m)).A00.Width : Int)
          + advanced.internal.ApplyPackedReflectorsLLVB.HPanWidth offset
            (LockedRepartitionUpDiagonal bsize
              (advanced.internal.ApplyPackedReflectorsLLVB.partition bsize H m))
          ≤ (H.Width : Int)) ∧
    ((H.Grid = A.Grid ∧ offset ≤ 0 ∧ -(H.Height : Int) ≤ offset ∧ H.Height = A.Height) →
      ∃ A', advanced.internal.ApplyPackedReflectorsLLVB false offset H A
          (advanced.internal.ApplyPackedReflectorsLLVB.algorithm bsize fuel rangeWhat panel)
        = Outcome.returned A') ∧
    (∀ m,
      0 ≤ advanced.internal.ApplyPackedReflectorsRUHF.HPanHeight offset
          (LockedRepartitionDownDiagonal bsize
            (advanced.internal.ApplyPackedReflectorsRUHF.partition bsize H m))
      ∧ 0 ≤ advanced.internal.ApplyPackedReflectorsRUHF.HPanWidth
          (LockedRepartitionDownDiagonal bsize
            (advanced.internal.ApplyPackedReflectorsRUHF.partition bsize H m))
      ∧ ((LockedRepartitionDownDiagonal bsize
            (advanced.internal.ApplyPackedReflectorsRUHF.partition bsize H m)).A00.Height : Int)
          + advanced.internal.ApplyPackedReflectorsRUHF.HPanHeight offset
            (LockedRepartitionDownDiagonal bsize
              (advanced.internal.ApplyPackedReflectorsRUHF.partition bsize H m))
          ≤ (H.Height : Int)
      ∧ ((LockedRepartitionDownDiagonal bsize
            (advanced.internal.ApplyPackedReflectorsRUHF.partition bsize H m)).A00.Width : Int)
          + advanced.internal.ApplyPackedReflectorsRUHF.HPanWidth
            (LockedRepartitionDownDiagonal bsize
              (advanced.internal.ApplyPackedReflectorsRUHF.partition bsize H m))
          ≤ (H.Width : Int)) ∧
    ((H.Grid = A.Grid ∧ 0 ≤ offset ∧ offset ≤ (H.Width : Int) ∧ H.Width = A.Width) →
      ∃ A', advanced.internal.ApplyPackedReflectorsRUHF false offset H A
          (advanced.internal.ApplyPackedReflectorsRUHF.algorithm bsize fuel rangeWhat panel)
        = Outcome.returned A') := by
  refine ⟨?_, ?_, ?_, ?_⟩
  · intro m
    exact advanced.internal.ApplyPackedReflectorsLLVB_HPan_bounds bsize offset H _
      (advanced.internal.ApplyPackedReflectorsLLVB_partition_Tiles bsize H m)
  · rintro ⟨hG, ho1, ho2, hH⟩
    unfold advanced.internal.ApplyPackedReflectorsLLVB
    have e1 : decide (H.Grid ≠ A.Grid) = false := decide_eq_false (by simpa using hG)
    have e2 : decide (offset > 0) = false := decide_eq_false (by omega)
    have e3 : decide (offset < -(H.Height : Int)) = false := decide_eq_false (by omega)
    have e4 : decide (H.Height ≠ A.Height) = false := decide_eq_false (by simpa using hH)
    simp only [e1, e2, e3, e4, Bool.and_false, Bool.false_eq_true, if_false]
    have hT := advanced.internal.LockedPartitionUpDiagonal_Tiles H 0
    apply advanced.internal.ApplyPackedReflectorsLLVB_loop_returns bsize rangeWhat panel
      offset H hb fuel _ A hT
    simp only [Partition2x2.Tiles] at hT
    omega
  · intro m
    exact advanced.internal.ApplyPackedReflectorsRUHF_HPan_bounds bsize offset H _
      (advanced.internal.ApplyPackedReflectorsRUHF_partition_Tiles bsize H m)
  · rintro ⟨hG, ho1, ho2, hW⟩
    unfold advanced.internal.ApplyPackedReflectorsRUHF
    have e1 : decide (H.Grid ≠ A.Grid) = false := decide_eq_false (by simpa using hG)
    have e2 : decide (offset > (H.Width : Int)) = false := decide_eq_false (by omega)
    have e3 : decide (offset < 0) = false := decide_eq_false (by omega)
    have e4 : decide (H.Width ≠ A.Width) = false := decide_eq_false (by simpa using hW)
    simp only [e1, e2, e3, e4, Bool.and_false, Bool.false_eq_true, if_false]
    have hT := advanced.internal.LockedPartitionDownDiagonal_Tiles H 0
    apply advanced.internal.ApplyPackedReflectorsRUHF_loop_returns bsize rangeWhat panel
      offset H hb fuel _ A hT
    simp only [Partition2x2.Tiles] at hT
    omega

/-- Witness of C23: a 2 x 2 `H` and a 2 x 2 `A` on the same grid, offset 0 and block
size 1: ApplyPackedReflectorsLLVB runs to its end. -/
theorem C23_HPan_in_bounds_witness :
    ∃ A', advanced.internal.ApplyPackedReflectorsLLVB false 0 exampleU exampleHermitian
        (advanced.internal.ApplyPackedReflectorsLLVB.algorithm 1 2 "" (fun _ _ _ A => A))
      = Outcome.returned A' :=
  (C23_HPan_in_bounds 1 2 "" (fun _ _ _ A => A) 0 exampleU exampleHermitian (le_refl 1)
    (le_refl 2)).2.1 ⟨rfl, le_refl 0, by decide, rfl⟩
